import Mathlib

/-!
# Verification of the paragraph merger and translation inserter of `translate_doc.py`

This file shallowly embeds the two components of the document translator:

* `merge_paragraphs` (source lines 10–60): the single-pass paragraph merger
  over the document body's paragraph sequence, and
* `translate_paragraph_element` / `process_paragraph_list` /
  `translate_and_format` (source lines 62–198): the translation inserter and
  its document traversal.

Texts are modelled as `List Char`.  Python's `str.strip`/`lstrip`/`rstrip`
are modelled over the ASCII whitespace characters, `str.isascii` as
`codepoint < 128`, and the regular expressions `^\s*\d+(\.|$)` and
`^[\d\.]+\s*` are unfolded into their (backtracking-equivalent) explicit
forms over ASCII digits.
-/

namespace TranslateDoc

/-- Whitespace characters stripped by Python's `str.strip()` (ASCII range). -/
def isSpaceC (c : Char) : Bool :=
  c = ' ' || c = '\t' || c = '\n' || c = '\x0b' || c = '\x0c' || c = '\r'

/-- Python `str.isascii` for a single character: codepoint below 128. -/
def isAsciiC (c : Char) : Bool := c.toNat < 128

/-- Python `s.lstrip()`. -/
def lstrip (s : List Char) : List Char := s.dropWhile isSpaceC

/-- Python `s.rstrip()`. -/
def rstrip (s : List Char) : List Char := (s.reverse.dropWhile isSpaceC).reverse

/-- Python `s.strip()`. -/
def strip (s : List Char) : List Char := lstrip (rstrip s)

/-- The terminator tuple of `merge_paragraphs` (source line 20):
`('。', '？', '！', '：', ':', ';', '；', ')', '）', '”', '"')`. -/
def terminators : List Char :=
  ['。', '？', '！', '：', ':', ';', '；', ')', '）', '”', '"']

/-- `last_text.endswith(terminators)` (source line 36).  Every member of the
tuple is a single character, so this is a test on the last character. -/
def isTerminated (s : List Char) : Bool :=
  match s.getLast? with
  | some c => terminators.contains c
  | none => false

/-- `re.match(r'^\s*\d+(\.|$)', text)` (source lines 39 and 42): after
optional whitespace, a nonempty digit run followed by a dot or the end of the
string.  Backtracking inside the digit run cannot help, because every
shorter digit run is followed by a digit, which is neither `.` nor the end. -/
def starts_with_number (s : List Char) : Bool :=
  let s1 := s.dropWhile isSpaceC
  let ds := s1.takeWhile Char.isDigit
  !ds.isEmpty &&
    (match s1.drop ds.length with
     | [] => true
     | c :: _ => c == '.')

/-- `last_is_header` (source line 42): a numbered line shorter than 40
characters. -/
def last_is_header (s : List Char) : Bool :=
  starts_with_number s && decide (s.length < 40)

/-- The separator inserted on merge (source lines 46–48): a single space when
both join characters are ASCII, nothing otherwise.  Both strings are nonempty
whenever this is evaluated in `merge_paragraphs`. -/
def sepFor (lastText text : List Char) : List Char :=
  match lastText.getLast?, text.head? with
  | some a, some b => if isAsciiC a && isAsciiC b then [' '] else []
  | _, _ => []

/-- A body paragraph as seen by the merger: the node identity (`pid`) and the
text obtained from `p.text`. -/
structure MPara where
  pid : Nat
  text : List Char
deriving DecidableEq

/-- The loop of `merge_paragraphs` (source lines 22–58) over the snapshot of
the body paragraphs.  `last` is the `last_p` pointer, `pend` holds
paragraphs whose node removal failed (they stay in the tree between `last_p`
and the paragraphs not yet visited), `ok` tells whether removing a given
node succeeds (the `try`/`except` of source lines 52–56).  The second
component of the result is the log of paragraph ids whose removal failed
(`print(f"Error removing paragraph: ...")`). -/
def mergeGoF (ok : Nat → Bool) (last : MPara) (pend : List MPara) :
    List MPara → List MPara × List Nat
  | [] => (last :: pend, [])
  | curr :: rest =>
    let text := strip curr.text
    let last_text := strip last.text
    if text.isEmpty then
      let r := mergeGoF ok curr [] rest
      ((last :: pend) ++ r.1, r.2)
    else if last_text.isEmpty then
      let r := mergeGoF ok curr [] rest
      ((last :: pend) ++ r.1, r.2)
    else if !isTerminated last_text && !starts_with_number text &&
        !last_is_header last_text then
      let merged : MPara :=
        { pid := last.pid
          text := rstrip last.text ++ sepFor last_text text ++ lstrip text }
      if ok curr.pid then
        mergeGoF ok merged pend rest
      else
        let r := mergeGoF ok merged (pend ++ [curr]) rest
        (r.1, curr.pid :: r.2)
    else
      let r := mergeGoF ok curr [] rest
      ((last :: pend) ++ r.1, r.2)

/-- `merge_paragraphs` (source lines 10–60) with explicit node-removal
oracle `ok`. -/
def merge_paragraphsF (ok : Nat → Bool) (paras : List MPara) :
    List MPara × List Nat :=
  match paras with
  | [] => ([], [])
  | p :: ps => mergeGoF ok p [] ps

/-- `merge_paragraphs` in normal operation: every node removal succeeds. -/
def merge_paragraphs (paras : List MPara) : List MPara :=
  (merge_paragraphsF (fun _ => true) paras).1

/-- Simple presentation of the merge loop when every removal succeeds. -/
def mergeGo (last : MPara) : List MPara → List MPara
  | [] => [last]
  | curr :: rest =>
    let text := strip curr.text
    let last_text := strip last.text
    if text.isEmpty then last :: mergeGo curr rest
    else if last_text.isEmpty then last :: mergeGo curr rest
    else if !isTerminated last_text && !starts_with_number text &&
        !last_is_header last_text then
      mergeGo { pid := last.pid
                text := rstrip last.text ++ sepFor last_text text ++ lstrip text }
        rest
    else last :: mergeGo curr rest

theorem mergeGoF_true (rest : List MPara) : ∀ (last : MPara),
    mergeGoF (fun _ => true) last [] rest = (mergeGo last rest, []) := by
  induction rest with
  | nil => intro last; rfl
  | cons curr rest ih =>
    intro last
    simp only [mergeGoF, mergeGo]
    split
    · simp [ih]
    · split
      · simp [ih]
      · split
        · simp [ih]
        · simp [ih]

theorem merge_paragraphs_nil : merge_paragraphs [] = [] := rfl

theorem merge_paragraphs_cons (p : MPara) (ps : List MPara) :
    merge_paragraphs (p :: ps) = mergeGo p ps := by
  simp [merge_paragraphs, merge_paragraphsF, mergeGoF_true]

/-! ## Basic facts about the text primitives -/

theorem dropWhile_idem (p : α → Bool) (l : List α) :
    (l.dropWhile p).dropWhile p = l.dropWhile p := by
  induction l with
  | nil => rfl
  | cons a l ih =>
    by_cases h : p a
    · simp [List.dropWhile_cons, h, ih]
    · simp [List.dropWhile_cons, h]

theorem lstrip_strip (s : List Char) : lstrip (strip s) = strip s := by
  simp [lstrip, strip, dropWhile_idem]

theorem dropWhile_append_of_ne_nil (p : α → Bool) (a b : List α)
    (h : a.dropWhile p ≠ []) :
    (a ++ b).dropWhile p = a.dropWhile p ++ b := by
  induction a with
  | nil => exact absurd rfl h
  | cons x a ih =>
    by_cases hx : p x
    · simp only [List.dropWhile_cons, hx, if_true] at h ⊢
      simpa [hx] using ih h
    · simp [List.dropWhile_cons, hx]

theorem takeWhile_append_of_ne_nil (p : α → Bool) (a b : List α)
    (h : a.dropWhile p ≠ []) :
    (a ++ b).takeWhile p = a.takeWhile p := by
  induction a with
  | nil => exact absurd rfl h
  | cons x a ih =>
    by_cases hx : p x
    · simp only [List.dropWhile_cons, hx, if_true] at h
      simp [List.takeWhile_cons, hx, ih h]
    · simp [List.takeWhile_cons, hx]

theorem drop_length_takeWhile (p : α → Bool) (l : List α) :
    l.drop (l.takeWhile p).length = l.dropWhile p := by
  induction l with
  | nil => rfl
  | cons a l ih =>
    by_cases h : p a
    · simp [List.takeWhile_cons, List.dropWhile_cons, h, ih]
    · simp [List.takeWhile_cons, List.dropWhile_cons, h]

theorem dropWhile_ne_nil_of_all_false (p : α → Bool) (l : List α)
    (h : l.all p = false) : l.dropWhile p ≠ [] := by
  induction l with
  | nil => simp at h
  | cons a l ih =>
    by_cases ha : p a
    · simp only [List.all_cons, ha, Bool.true_and] at h
      simpa [List.dropWhile_cons, ha] using ih h
    · simp [List.dropWhile_cons, ha]

theorem length_dropWhile_le' (p : α → Bool) (l : List α) :
    (l.dropWhile p).length ≤ l.length := by
  induction l with
  | nil => simp
  | cons a l ih =>
    by_cases h : p a
    · rw [List.dropWhile_cons_of_pos h]; simpa using Nat.le_succ_of_le ih
    · rw [List.dropWhile_cons_of_neg h]

theorem length_takeWhile_le' (p : α → Bool) (l : List α) :
    (l.takeWhile p).length ≤ l.length := by
  induction l with
  | nil => simp
  | cons a l ih =>
    by_cases h : p a
    · rw [List.takeWhile_cons_of_pos h]; simpa using ih
    · rw [List.takeWhile_cons_of_neg h]; simp

theorem dropWhile_eq_self_head (p : α → Bool) (a : α) (l : List α)
    (h : (a :: l).dropWhile p = a :: l) : p a = false := by
  by_cases ha : p a
  · exfalso
    rw [List.dropWhile_cons_of_pos ha] at h
    have hlen : (l.dropWhile p).length = (a :: l).length := by rw [h]
    have hle := length_dropWhile_le' p l
    simp at hlen
    omega
  · simpa using ha

theorem rstrip_append_last_not_space (x t : List Char) (c : Char)
    (hc : t.getLast? = some c) (hsp : isSpaceC c = false) :
    rstrip (x ++ t) = x ++ t := by
  have ht : t.reverse.head? = some c := by
    rw [List.head?_reverse]; exact hc
  match hrev : t.reverse with
  | [] => rw [hrev] at ht; simp at ht
  | d :: tr =>
    rw [hrev] at ht
    simp only [List.head?_cons, Option.some.injEq] at ht
    subst ht
    have h2 : (x ++ t).reverse = d :: (tr ++ x.reverse) := by
      rw [List.reverse_append, hrev, List.cons_append]
    unfold rstrip
    rw [h2, List.dropWhile_cons_of_neg (by simp [hsp]), ← List.cons_append,
      ← hrev, ← List.reverse_append, List.reverse_reverse]

theorem rstrip_ne_nil_of_strip_ne_nil (s : List Char) (h : strip s ≠ []) :
    rstrip s ≠ [] := by
  intro hr
  apply h
  simp [strip, lstrip, hr]

theorem strip_getLast_not_space (s : List Char) (h : strip s ≠ []) :
    ∃ c, (strip s).getLast? = some c ∧ isSpaceC c = false := by
  have hr : rstrip s ≠ [] := rstrip_ne_nil_of_strip_ne_nil s h
  -- last of rstrip s is not a space
  have hrev : (rstrip s).reverse = s.reverse.dropWhile isSpaceC := by
    simp [rstrip]
  have hrevne : s.reverse.dropWhile isSpaceC ≠ [] := by
    rw [← hrev]; simpa using hr
  obtain ⟨c, cs, hcs⟩ := List.exists_cons_of_ne_nil hrevne
  have hcfalse : isSpaceC c = false := by
    have := List.head?_dropWhile_not isSpaceC s.reverse
    rw [hcs] at this
    simpa using this
  -- strip s is a suffix of rstrip s obtained by dropWhile from the left,
  -- so it has the same last element
  have hsuff : strip s = (rstrip s).dropWhile isSpaceC := rfl
  have hlast_r : (rstrip s).getLast? = some c := by
    rw [List.getLast?_eq_head?_reverse, hrev, hcs]; rfl
  refine ⟨c, ?_, hcfalse⟩
  obtain ⟨pre, hpre⟩ : ∃ pre, pre ++ strip s = rstrip s := by
    have : (rstrip s).dropWhile isSpaceC <:+ rstrip s := List.dropWhile_suffix _
    exact this
  rw [← hpre] at hlast_r
  rwa [List.getLast?_append_of_ne_nil pre h] at hlast_r

theorem strip_concat (L C sep : List Char) (hL : strip L ≠ [])
    (hC : strip C ≠ []) :
    strip (rstrip L ++ (sep ++ strip C)) = strip L ++ (sep ++ strip C) := by
  obtain ⟨c, hc, hcsp⟩ := strip_getLast_not_space C hC
  have h1 : rstrip (rstrip L ++ (sep ++ strip C)) =
      rstrip L ++ (sep ++ strip C) := by
    rw [← List.append_assoc]
    rw [rstrip_append_last_not_space (rstrip L ++ sep) (strip C) c hc hcsp]
  have hL' : (rstrip L).dropWhile isSpaceC ≠ [] := hL
  calc strip (rstrip L ++ (sep ++ strip C))
      = lstrip (rstrip (rstrip L ++ (sep ++ strip C))) := rfl
    _ = lstrip (rstrip L ++ (sep ++ strip C)) := by rw [h1]
    _ = (rstrip L).dropWhile isSpaceC ++ (sep ++ strip C) :=
        dropWhile_append_of_ne_nil isSpaceC (rstrip L) (sep ++ strip C) hL'
    _ = strip L ++ (sep ++ strip C) := rfl

theorem starts_with_number_append (s u : List Char) (hne : s ≠ [])
    (htrim : s.dropWhile isSpaceC = s) (hnd : s.all Char.isDigit = false) :
    starts_with_number (s ++ u) = starts_with_number s := by
  obtain ⟨c, s0, rfl⟩ := List.exists_cons_of_ne_nil hne
  have hcsp : isSpaceC c = false := dropWhile_eq_self_head isSpaceC c s0 htrim
  have hdw : c :: s0 = (c :: s0).dropWhile isSpaceC := by
    rw [List.dropWhile_cons_of_neg (by simp [hcsp])]
  have hdrop := dropWhile_ne_nil_of_all_false Char.isDigit (c :: s0) hnd
  unfold starts_with_number
  simp only [List.cons_append]
  rw [List.dropWhile_cons_of_neg (by simp [hcsp]),
    List.dropWhile_cons_of_neg (by simp [hcsp])]
  rw [← List.cons_append]
  rw [takeWhile_append_of_ne_nil Char.isDigit (c :: s0) u hdrop]
  rw [drop_length_takeWhile]
  have hlen : ((c :: s0).takeWhile Char.isDigit).length ≤ (c :: s0).length :=
    length_takeWhile_le' _ _
  rw [List.drop_append_of_le_length hlen, drop_length_takeWhile]
  obtain ⟨d, t, hdt⟩ := List.exists_cons_of_ne_nil hdrop
  rw [hdt]
  rfl

/-! ## Branch lemmas for the merge loop -/

theorem mergeGoF_cons_empty_curr (ok : Nat → Bool) (last : MPara)
    (pend : List MPara) (curr : MPara) (rest : List MPara)
    (h : (strip curr.text).isEmpty = true) :
    mergeGoF ok last pend (curr :: rest) =
      ((last :: pend) ++ (mergeGoF ok curr [] rest).1,
        (mergeGoF ok curr [] rest).2) := by
  simp only [mergeGoF]
  rw [if_pos h]

theorem mergeGoF_cons_empty_last (ok : Nat → Bool) (last : MPara)
    (pend : List MPara) (curr : MPara) (rest : List MPara)
    (h1 : ¬(strip curr.text).isEmpty = true)
    (h2 : (strip last.text).isEmpty = true) :
    mergeGoF ok last pend (curr :: rest) =
      ((last :: pend) ++ (mergeGoF ok curr [] rest).1,
        (mergeGoF ok curr [] rest).2) := by
  simp only [mergeGoF]
  rw [if_neg h1, if_pos h2]

theorem mergeGoF_cons_blocked (ok : Nat → Bool) (last : MPara)
    (pend : List MPara) (curr : MPara) (rest : List MPara)
    (h1 : ¬(strip curr.text).isEmpty = true)
    (h2 : ¬(strip last.text).isEmpty = true)
    (h3 : ¬(!isTerminated (strip last.text) &&
      !starts_with_number (strip curr.text) &&
      !last_is_header (strip last.text)) = true) :
    mergeGoF ok last pend (curr :: rest) =
      ((last :: pend) ++ (mergeGoF ok curr [] rest).1,
        (mergeGoF ok curr [] rest).2) := by
  simp only [mergeGoF]
  rw [if_neg h1, if_neg h2, if_neg h3]

theorem mergeGoF_cons_merge_ok (ok : Nat → Bool) (last : MPara)
    (pend : List MPara) (curr : MPara) (rest : List MPara)
    (h1 : ¬(strip curr.text).isEmpty = true)
    (h2 : ¬(strip last.text).isEmpty = true)
    (h3 : (!isTerminated (strip last.text) &&
      !starts_with_number (strip curr.text) &&
      !last_is_header (strip last.text)) = true)
    (h4 : ok curr.pid = true) :
    mergeGoF ok last pend (curr :: rest) =
      mergeGoF ok
        ⟨last.pid, rstrip last.text ++ sepFor (strip last.text) (strip curr.text)
          ++ lstrip (strip curr.text)⟩ pend rest := by
  simp only [mergeGoF]
  rw [if_neg h1, if_neg h2, if_pos h3, if_pos h4]

theorem mergeGoF_cons_merge_fail (ok : Nat → Bool) (last : MPara)
    (pend : List MPara) (curr : MPara) (rest : List MPara)
    (h1 : ¬(strip curr.text).isEmpty = true)
    (h2 : ¬(strip last.text).isEmpty = true)
    (h3 : (!isTerminated (strip last.text) &&
      !starts_with_number (strip curr.text) &&
      !last_is_header (strip last.text)) = true)
    (h4 : ¬ok curr.pid = true) :
    mergeGoF ok last pend (curr :: rest) =
      ((mergeGoF ok
          ⟨last.pid, rstrip last.text ++ sepFor (strip last.text) (strip curr.text)
            ++ lstrip (strip curr.text)⟩ (pend ++ [curr]) rest).1,
        curr.pid :: (mergeGoF ok
          ⟨last.pid, rstrip last.text ++ sepFor (strip last.text) (strip curr.text)
            ++ lstrip (strip curr.text)⟩ (pend ++ [curr]) rest).2) := by
  simp only [mergeGoF]
  rw [if_neg h1, if_neg h2, if_pos h3, if_neg h4]

theorem mergeGo_cons_empty_curr (last curr : MPara) (rest : List MPara)
    (h : (strip curr.text).isEmpty = true) :
    mergeGo last (curr :: rest) = last :: mergeGo curr rest := by
  simp only [mergeGo]
  rw [if_pos h]

theorem mergeGo_cons_empty_last (last curr : MPara) (rest : List MPara)
    (h1 : ¬(strip curr.text).isEmpty = true)
    (h2 : (strip last.text).isEmpty = true) :
    mergeGo last (curr :: rest) = last :: mergeGo curr rest := by
  simp only [mergeGo]
  rw [if_neg h1, if_pos h2]

theorem mergeGo_cons_blocked (last curr : MPara) (rest : List MPara)
    (h1 : ¬(strip curr.text).isEmpty = true)
    (h2 : ¬(strip last.text).isEmpty = true)
    (h3 : ¬(!isTerminated (strip last.text) &&
      !starts_with_number (strip curr.text) &&
      !last_is_header (strip last.text)) = true) :
    mergeGo last (curr :: rest) = last :: mergeGo curr rest := by
  simp only [mergeGo]
  rw [if_neg h1, if_neg h2, if_neg h3]

theorem mergeGo_cons_merge (last curr : MPara) (rest : List MPara)
    (h1 : ¬(strip curr.text).isEmpty = true)
    (h2 : ¬(strip last.text).isEmpty = true)
    (h3 : (!isTerminated (strip last.text) &&
      !starts_with_number (strip curr.text) &&
      !last_is_header (strip last.text)) = true) :
    mergeGo last (curr :: rest) =
      mergeGo ⟨last.pid, rstrip last.text ++ sepFor (strip last.text) (strip curr.text)
        ++ lstrip (strip curr.text)⟩ rest := by
  simp only [mergeGo]
  rw [if_neg h1, if_neg h2, if_pos h3]

/-! ## Idempotence analysis of the merger (claim C7)

A second merge pass can differ from the first only because a merge appends
text to a retained paragraph: the `starts_with_number` test that blocked a
merge in pass one can become false in pass two when the retained paragraph's
trimmed text was a pure digit run (matched through the `$` alternative of
`^\s*\d+(\.|$)`).  Digit runs shorter than 40 characters are protected by
`last_is_header`; runs of length at least 40 are not, and break idempotence
(see `c7_counterexample`). -/

/-- A trimmed text that defeats idempotence: a nonempty all-digit run of
length at least 40 (too long to be protected by `last_is_header`). -/
def is_digit_run_40 (s : List Char) : Bool :=
  !s.isEmpty && s.all Char.isDigit && decide (40 ≤ s.length)

/-- The decision, for an adjacent pair `(a, b)` of retained paragraphs, that
the merger advances instead of merging `b` into `a`. -/
def noMergeD (a b : MPara) : Prop :=
  (strip b.text).isEmpty = true ∨ (strip a.text).isEmpty = true ∨
  isTerminated (strip a.text) = true ∨
  starts_with_number (strip b.text) = true ∨
  last_is_header (strip a.text) = true

theorem strip_merged (L C : List Char) (hL : strip L ≠ []) (hC : strip C ≠ []) :
    strip (rstrip L ++ sepFor (strip L) (strip C) ++ lstrip (strip C)) =
      strip L ++ (sepFor (strip L) (strip C) ++ strip C) := by
  rw [lstrip_strip, List.append_assoc]
  exact strip_concat L C _ hL hC

theorem strip_ne_nil_of_not_isEmpty (s : List Char)
    (h : ¬(strip s).isEmpty = true) : strip s ≠ [] := by
  intro hn
  exact h (by simp [hn])

/-- The head of the output of the merge loop: it is the initial `last`
pointer, either untouched or with its trimmed text extended by merges (in
which case `last` was neither empty nor a numbered heading). -/
theorem mergeGo_head (rest : List MPara) : ∀ last : MPara,
    ∃ q tl, mergeGo last rest = q :: tl ∧ q.pid = last.pid ∧
      (q = last ∨ (strip last.text ≠ [] ∧
        last_is_header (strip last.text) = false ∧
        ∃ u, u ≠ [] ∧ strip q.text = strip last.text ++ u)) := by
  induction rest with
  | nil => intro last; exact ⟨last, [], rfl, rfl, Or.inl rfl⟩
  | cons curr rest ih =>
    intro last
    by_cases h1 : (strip curr.text).isEmpty = true
    · rw [mergeGo_cons_empty_curr last curr rest h1]
      exact ⟨last, _, rfl, rfl, Or.inl rfl⟩
    · by_cases h2 : (strip last.text).isEmpty = true
      · rw [mergeGo_cons_empty_last last curr rest h1 h2]
        exact ⟨last, _, rfl, rfl, Or.inl rfl⟩
      · by_cases h3 : (!isTerminated (strip last.text) &&
          !starts_with_number (strip curr.text) &&
          !last_is_header (strip last.text)) = true
        · rw [mergeGo_cons_merge last curr rest h1 h2 h3]
          have hLne : strip last.text ≠ [] := strip_ne_nil_of_not_isEmpty _ h2
          have hCne : strip curr.text ≠ [] := strip_ne_nil_of_not_isEmpty _ h1
          have hhd : last_is_header (strip last.text) = false := by
            rcases Bool.and_eq_true_iff.mp h3 with ⟨-, hh⟩
            simpa using hh
          obtain ⟨q, tl, heq, hpid, hdisj⟩ := ih
            ⟨last.pid, rstrip last.text ++ sepFor (strip last.text) (strip curr.text)
              ++ lstrip (strip curr.text)⟩
          refine ⟨q, tl, heq, hpid, Or.inr ⟨hLne, hhd, ?_⟩⟩
          rcases hdisj with rfl | ⟨-, -, u, hu, hqs⟩
          · exact ⟨sepFor (strip last.text) (strip curr.text) ++ strip curr.text,
              by simp [hCne], strip_merged last.text curr.text hLne hCne⟩
          · refine ⟨(sepFor (strip last.text) (strip curr.text) ++ strip curr.text) ++ u,
              by simp [hCne], ?_⟩
            rw [hqs, strip_merged last.text curr.text hLne hCne, List.append_assoc]
        · rw [mergeGo_cons_blocked last curr rest h1 h2 h3]
          exact ⟨last, _, rfl, rfl, Or.inl rfl⟩

theorem all_digit_false_of_long (s : List Char) (hne : s ≠ [])
    (hs : starts_with_number s = true) (hh : last_is_header s = false)
    (hd : is_digit_run_40 s = false) : s.all Char.isDigit = false := by
  unfold last_is_header at hh
  rw [hs] at hh
  simp only [Bool.true_and, decide_eq_false_iff_not, Nat.not_lt] at hh
  unfold is_digit_run_40 at hd
  have hne' : s.isEmpty = false := by
    cases s with
    | nil => exact absurd rfl hne
    | cons a t => rfl
  rw [hne'] at hd
  simp only [Bool.not_false, Bool.true_and, Bool.and_eq_false_iff,
    decide_eq_false_iff_not, Nat.not_le] at hd
  rcases hd with hd | hd
  · exact hd
  · omega

/-- The trimmed text of any paragraph is left-trim stable. -/
theorem strip_dropWhile_self (s : List Char) :
    (strip s).dropWhile isSpaceC = strip s := lstrip_strip s

/-- Under the no-long-digit-run hypothesis on the inputs, the output of the
merge loop is pairwise a no-merge chain. -/
theorem mergeGo_chain (rest : List MPara) : ∀ last : MPara,
    (∀ p ∈ rest, is_digit_run_40 (strip p.text) = false) →
    List.Chain' noMergeD (mergeGo last rest) := by
  induction rest with
  | nil => intro last _; simp [mergeGo]
  | cons curr rest ih =>
    intro last hall
    have hcurr : is_digit_run_40 (strip curr.text) = false := hall curr (by simp)
    have hrest : ∀ p ∈ rest, is_digit_run_40 (strip p.text) = false :=
      fun p hp => hall p (by simp [hp])
    obtain ⟨q, tl, heq, hpid, hdisj⟩ := mergeGo_head rest curr
    by_cases h1 : (strip curr.text).isEmpty = true
    · rw [mergeGo_cons_empty_curr last curr rest h1, heq, List.chain'_cons']
      constructor
      · intro y hy
        simp only [List.head?_cons, Option.mem_def, Option.some.injEq] at hy
        subst hy
        have hq : q = curr := by
          rcases hdisj with rfl | ⟨hne, -, -⟩
          · rfl
          · exact absurd (by simpa using h1) (by simpa using hne)
        left
        rw [hq]
        exact h1
      · rw [← heq]; exact ih curr hrest
    · by_cases h2 : (strip last.text).isEmpty = true
      · rw [mergeGo_cons_empty_last last curr rest h1 h2, heq, List.chain'_cons']
        refine ⟨fun y hy => ?_, by rw [← heq]; exact ih curr hrest⟩
        right; left; exact h2
      · by_cases h3 : (!isTerminated (strip last.text) &&
          !starts_with_number (strip curr.text) &&
          !last_is_header (strip last.text)) = true
        · rw [mergeGo_cons_merge last curr rest h1 h2 h3]
          exact ih _ hrest
        · rw [mergeGo_cons_blocked last curr rest h1 h2 h3, heq, List.chain'_cons']
          refine ⟨fun y hy => ?_, by rw [← heq]; exact ih curr hrest⟩
          simp only [List.head?_cons, Option.mem_def, Option.some.injEq] at hy
          subst hy
          -- one of the three blocking predicates holds
          have hd : isTerminated (strip last.text) = true ∨
              starts_with_number (strip curr.text) = true ∨
              last_is_header (strip last.text) = true := by
            by_contra hcon
            push_neg at hcon
            obtain ⟨hA, hB, hC⟩ := hcon
            exact h3 (by
              simp [Bool.eq_false_iff.mpr hA, Bool.eq_false_iff.mpr hB,
                Bool.eq_false_iff.mpr hC])
          rcases hd with hA | hB | hC
          · right; right; left; exact hA
          · -- starts_with_number survives the later extension of `curr`
            right; right; right; left
            rcases hdisj with rfl | ⟨hne, hhd, u, hu, hqs⟩
            · exact hB
            · rw [hqs]
              rw [starts_with_number_append (strip curr.text) u hne
                (strip_dropWhile_self curr.text)
                (all_digit_false_of_long (strip curr.text) hne hB hhd hcurr)]
              exact hB
          · right; right; right; right; exact hC

/-- A pairwise no-merge chain is a fixed point of the merge loop. -/
theorem mergeGo_fixpoint (l : List MPara) : ∀ p : MPara,
    List.Chain' noMergeD (p :: l) → mergeGo p l = p :: l := by
  induction l with
  | nil => intro p _; rfl
  | cons c rest ih =>
    intro p h
    rw [List.chain'_cons] at h
    obtain ⟨hpc, hrest⟩ := h
    rcases hpc with hb1 | hb2 | hb3 | hb4 | hb5
    · rw [mergeGo_cons_empty_curr p c rest hb1, ih c hrest]
    · by_cases h1 : (strip c.text).isEmpty = true
      · rw [mergeGo_cons_empty_curr p c rest h1, ih c hrest]
      · rw [mergeGo_cons_empty_last p c rest h1 hb2, ih c hrest]
    · by_cases h1 : (strip c.text).isEmpty = true
      · rw [mergeGo_cons_empty_curr p c rest h1, ih c hrest]
      · by_cases h2 : (strip p.text).isEmpty = true
        · rw [mergeGo_cons_empty_last p c rest h1 h2, ih c hrest]
        · rw [mergeGo_cons_blocked p c rest h1 h2 (by simp [hb3]), ih c hrest]
    · by_cases h1 : (strip c.text).isEmpty = true
      · rw [mergeGo_cons_empty_curr p c rest h1, ih c hrest]
      · by_cases h2 : (strip p.text).isEmpty = true
        · rw [mergeGo_cons_empty_last p c rest h1 h2, ih c hrest]
        · rw [mergeGo_cons_blocked p c rest h1 h2 (by simp [hb4]), ih c hrest]
    · by_cases h1 : (strip c.text).isEmpty = true
      · rw [mergeGo_cons_empty_curr p c rest h1, ih c hrest]
      · by_cases h2 : (strip p.text).isEmpty = true
        · rw [mergeGo_cons_empty_last p c rest h1 h2, ih c hrest]
        · rw [mergeGo_cons_blocked p c rest h1 h2 (by simp [hb5]), ih c hrest]

/-! ## Node identity bookkeeping for the merge loop -/

/-- Every paragraph id in the output of the merge loop comes from the
current pointer, the pending (failed-removal) paragraphs, or the paragraphs
not yet visited. -/
theorem mergeGoF_pid_mem (ok : Nat → Bool) (rest : List MPara) :
    ∀ (last : MPara) (pend : List MPara), ∀ x ∈ (mergeGoF ok last pend rest).1,
      x.pid = last.pid ∨ x.pid ∈ pend.map MPara.pid ∨
        x.pid ∈ rest.map MPara.pid := by
  induction rest with
  | nil =>
    intro last pend x hx
    simp only [mergeGoF, List.mem_cons] at hx
    rcases hx with rfl | hx
    · exact Or.inl rfl
    · exact Or.inr (Or.inl (List.mem_map_of_mem MPara.pid hx))
  | cons curr rest ih =>
    intro last pend x hx
    have hadv : x ∈ (last :: pend) ++ (mergeGoF ok curr [] rest).1 →
        x.pid = last.pid ∨ x.pid ∈ pend.map MPara.pid ∨
          x.pid ∈ (curr :: rest).map MPara.pid := by
      intro hmem
      rcases List.mem_append.mp hmem with hmem | hmem
      · rcases List.mem_cons.mp hmem with rfl | hmem
        · exact Or.inl rfl
        · exact Or.inr (Or.inl (List.mem_map_of_mem MPara.pid hmem))
      · rcases ih curr [] x hmem with hp | hp | hp
        · exact Or.inr (Or.inr (by simp [hp]))
        · simp at hp
        · exact Or.inr (Or.inr (by simp [hp]))
    by_cases h1 : (strip curr.text).isEmpty = true
    · rw [mergeGoF_cons_empty_curr ok last pend curr rest h1] at hx
      exact hadv hx
    · by_cases h2 : (strip last.text).isEmpty = true
      · rw [mergeGoF_cons_empty_last ok last pend curr rest h1 h2] at hx
        exact hadv hx
      · by_cases h3 : (!isTerminated (strip last.text) &&
          !starts_with_number (strip curr.text) &&
          !last_is_header (strip last.text)) = true
        · by_cases h4 : ok curr.pid = true
          · rw [mergeGoF_cons_merge_ok ok last pend curr rest h1 h2 h3 h4] at hx
            rcases ih _ pend x hx with hp | hp | hp
            · exact Or.inl hp
            · exact Or.inr (Or.inl hp)
            · exact Or.inr (Or.inr (by simp [hp]))
          · rw [mergeGoF_cons_merge_fail ok last pend curr rest h1 h2 h3 h4] at hx
            rcases ih _ (pend ++ [curr]) x hx with hp | hp | hp
            · exact Or.inl hp
            · rw [List.map_append, List.mem_append] at hp
              rcases hp with hp | hp
              · exact Or.inr (Or.inl hp)
              · simp only [List.map_cons, List.map_nil, List.mem_singleton] at hp
                exact Or.inr (Or.inr (by simp [hp]))
            · exact Or.inr (Or.inr (by simp [hp]))
        · rw [mergeGoF_cons_blocked ok last pend curr rest h1 h2 h3] at hx
          exact hadv hx

/-- Pending (failed-removal) paragraphs are never dropped later: they stay
in the output sequence. -/
theorem mergeGoF_pend_mem (ok : Nat → Bool) (rest : List MPara) :
    ∀ (last : MPara) (pend : List MPara), ∀ x ∈ pend,
      x ∈ (mergeGoF ok last pend rest).1 := by
  induction rest with
  | nil =>
    intro last pend x hx
    simp only [mergeGoF]
    exact List.mem_cons_of_mem last hx
  | cons curr rest ih =>
    intro last pend x hx
    by_cases h1 : (strip curr.text).isEmpty = true
    · rw [mergeGoF_cons_empty_curr ok last pend curr rest h1]
      exact List.mem_append_left _ (List.mem_cons_of_mem last hx)
    · by_cases h2 : (strip last.text).isEmpty = true
      · rw [mergeGoF_cons_empty_last ok last pend curr rest h1 h2]
        exact List.mem_append_left _ (List.mem_cons_of_mem last hx)
      · by_cases h3 : (!isTerminated (strip last.text) &&
          !starts_with_number (strip curr.text) &&
          !last_is_header (strip last.text)) = true
        · by_cases h4 : ok curr.pid = true
          · rw [mergeGoF_cons_merge_ok ok last pend curr rest h1 h2 h3 h4]
            exact ih _ pend x hx
          · rw [mergeGoF_cons_merge_fail ok last pend curr rest h1 h2 h3 h4]
            exact ih _ (pend ++ [curr]) x (List.mem_append_left _ hx)
        · rw [mergeGoF_cons_blocked ok last pend curr rest h1 h2 h3]
          exact List.mem_append_left _ (List.mem_cons_of_mem last hx)

/-! ## Claims about the paragraph merger -/

/-- C1 (amended): for an adjacent pair `(A, B)` with nonempty trimmed texts
where `A`'s trimmed text is not terminated, `B`'s does not start with a
numeric marker, `A` is not a short numbered heading, and the node removal
succeeds, the merge step replaces the pair by the single paragraph keeping
`A`'s node identity whose text is `A`'s text right-trimmed, then a single
space exactly when the two trimmed join characters are both ASCII, then
`B`'s trimmed text; `B`'s node is removed (its id is gone from the output
whenever it was unique). -/
theorem c1_adjacent_pair_merge (ok : Nat → Bool) (A B : MPara)
    (pend rest : List MPara)
    (hA : strip A.text ≠ []) (hB : strip B.text ≠ [])
    (ht : isTerminated (strip A.text) = false)
    (hn : starts_with_number (strip B.text) = false)
    (hh : last_is_header (strip A.text) = false)
    (hok : ok B.pid = true) :
    mergeGoF ok A pend (B :: rest) =
      mergeGoF ok
        ⟨A.pid, rstrip A.text ++ sepFor (strip A.text) (strip B.text)
          ++ strip B.text⟩ pend rest
    ∧ (B.pid ≠ A.pid → B.pid ∉ pend.map MPara.pid →
        B.pid ∉ rest.map MPara.pid →
        B.pid ∉ (mergeGoF ok A pend (B :: rest)).1.map MPara.pid) := by
  have h1 : ¬(strip B.text).isEmpty = true := by simpa using hB
  have h2 : ¬(strip A.text).isEmpty = true := by simpa using hA
  have h3 : (!isTerminated (strip A.text) && !starts_with_number (strip B.text)
      && !last_is_header (strip A.text)) = true := by simp [ht, hn, hh]
  have hmain := mergeGoF_cons_merge_ok ok A pend B rest h1 h2 h3 hok
  rw [lstrip_strip] at hmain
  refine ⟨hmain, fun hne hpend hrest hmem => ?_⟩
  rw [hmain] at hmem
  obtain ⟨x, hx, hxpid⟩ := List.mem_map.mp hmem
  rcases mergeGoF_pid_mem ok rest _ pend x hx with hp | hp | hp
  · exact hne (by rw [← hxpid, hp])
  · exact hpend (hxpid ▸ hp)
  · exact hrest (hxpid ▸ hp)

/-- Witness for C1: merging `"Hello"` and `"world"` produces the single
paragraph `"Hello world"` (ASCII join, single space) and removes node 1. -/
theorem c1_witness :
    mergeGoF (fun _ => true) ⟨0, "Hello".toList⟩ [] [⟨1, "world".toList⟩] =
      mergeGoF (fun _ => true) ⟨0, "Hello world".toList⟩ [] []
    ∧ (1 : Nat) ∉
      (mergeGoF (fun _ => true) (⟨0, "Hello".toList⟩ : MPara) []
        [⟨1, "world".toList⟩]).1.map MPara.pid := by
  have h := c1_adjacent_pair_merge (fun _ => true) ⟨0, "Hello".toList⟩
    ⟨1, "world".toList⟩ [] [] (by decide) (by decide) (by decide) (by decide)
    (by decide) rfl
  exact ⟨h.1.trans (by decide), h.2 (by decide) (by decide) (by decide)⟩

/-- C1, as stated, is false: the merged text is `A`'s text *right-trimmed*
plus separator plus `B`'s *trimmed* text, which is neither "`A`'s text plus
separator plus `B`'s text" nor the same expression over trimmed texts when
`A` carries surrounding whitespace. -/
theorem c1_counterexample :
    merge_paragraphs [⟨0, " a ".toList⟩, ⟨1, "b".toList⟩] =
      [⟨0, " a b".toList⟩]
    ∧ " a b".toList ≠ " a ".toList ++ " ".toList ++ "b".toList
    ∧ " a b".toList ≠ strip " a ".toList ++ " ".toList ++ strip "b".toList := by
  decide

/-- C2 (amended): `is_terminated` holds exactly when the trimmed text ends
with a member of the tuple `('。','？','！','：',':',';','；',')','）','”','"')`
— the ASCII full stop `.`, question mark `?` and exclamation mark `!` are
*not* in the set — and whenever it holds the pair is not merged: the last
retained paragraph is emitted unchanged and the pointer advances. -/
theorem c2_terminator_blocks (ok : Nat → Bool) (A B : MPara)
    (pend rest : List MPara)
    (hA : strip A.text ≠ []) (hB : strip B.text ≠ [])
    (ht : isTerminated (strip A.text) = true) :
    mergeGoF ok A pend (B :: rest) =
      ((A :: pend) ++ (mergeGoF ok B [] rest).1, (mergeGoF ok B [] rest).2)
    ∧ ∀ s : List Char,
        (isTerminated s = true ↔ ∃ c ∈ terminators, s.getLast? = some c) := by
  have h1 : ¬(strip B.text).isEmpty = true := by simpa using hB
  have h2 : ¬(strip A.text).isEmpty = true := by simpa using hA
  refine ⟨mergeGoF_cons_blocked ok A pend B rest h1 h2 (by simp [ht]), ?_⟩
  intro s
  unfold isTerminated
  cases hg : s.getLast? with
  | none => simp
  | some c =>
    simp only [Option.some.injEq]
    constructor
    · intro hc
      exact ⟨c, by simpa using hc, rfl⟩
    · rintro ⟨d, hd, rfl⟩
      simpa using hd

/-- Witness for C2: `"你好。"` is terminated (CJK full stop), so the pair is
left unmerged. -/
theorem c2_witness :
    mergeGoF (fun _ => true) ⟨0, "你好。".toList⟩ [] [⟨1, "continues".toList⟩] =
      ([⟨0, "你好。".toList⟩, ⟨1, "continues".toList⟩], [])
    ∧ (isTerminated "你好。".toList = true ↔
        ∃ c ∈ terminators, "你好。".toList.getLast? = some c) := by
  have h := c2_terminator_blocks (fun _ => true) ⟨0, "你好。".toList⟩
    ⟨1, "continues".toList⟩ [] [] (by decide) (by decide) (by decide)
  exact ⟨h.1.trans (by decide), h.2 "你好。".toList⟩

/-- C2, as stated, is false: the terminator tuple does not contain the ASCII
full stop (nor `?` or `!`), so a paragraph ending in `.` is *not* treated as
terminated and is merged with its successor. -/
theorem c2_counterexample :
    ("End.".toList).getLast? = some '.'
    ∧ isTerminated (strip "End.".toList) = false
    ∧ merge_paragraphs [⟨0, "End.".toList⟩, ⟨1, "more".toList⟩] =
        [⟨0, "End. more".toList⟩] := by
  decide

/-- C7 (amended): once no paragraph's trimmed text is an all-digit run of 40
or more characters, running the body merger a second time on the merged
result changes nothing. -/
theorem c7_merge_idempotent (l : List MPara)
    (h : ∀ p ∈ l, is_digit_run_40 (strip p.text) = false) :
    merge_paragraphs (merge_paragraphs l) = merge_paragraphs l := by
  cases l with
  | nil => rfl
  | cons p ps =>
    rw [merge_paragraphs_cons]
    obtain ⟨q, tl, heq, -, -⟩ := mergeGo_head ps p
    have hchain := mergeGo_chain ps p (fun x hx => h x (by simp [hx]))
    rw [heq] at hchain ⊢
    rw [merge_paragraphs_cons]
    exact mergeGo_fixpoint tl q hchain

/-- Witness for C7 on a concrete two-paragraph body. -/
theorem c7_witness :
    (∀ p ∈ [(⟨0, "Hello.".toList⟩ : MPara), ⟨1, "world".toList⟩],
      is_digit_run_40 (strip p.text) = false)
    ∧ merge_paragraphs (merge_paragraphs
        [⟨0, "Hello.".toList⟩, ⟨1, "world".toList⟩]) =
      merge_paragraphs [⟨0, "Hello.".toList⟩, ⟨1, "world".toList⟩] :=
  ⟨by decide, c7_merge_idempotent _ (by decide)⟩

/-- C7, as stated, is false: with a 45-digit paragraph between two ordinary
ones, the first pass keeps the digit paragraph separate (it starts with a
numeric marker) but merges `"abc"` into it; the digit run followed by
`" abc"` no longer matches `^\s*\d+(\.|$)`, so a second pass merges
everything into one paragraph. -/
theorem c7_counterexample :
    merge_paragraphs [⟨0, "hello".toList⟩, ⟨1, List.replicate 45 '1'⟩,
        ⟨2, "abc".toList⟩] =
      [⟨0, "hello".toList⟩, ⟨1, List.replicate 45 '1' ++ " abc".toList⟩]
    ∧ merge_paragraphs (merge_paragraphs [⟨0, "hello".toList⟩,
        ⟨1, List.replicate 45 '1'⟩, ⟨2, "abc".toList⟩]) ≠
      merge_paragraphs [⟨0, "hello".toList⟩, ⟨1, List.replicate 45 '1'⟩,
        ⟨2, "abc".toList⟩] := by
  decide

/-- C9: when the node removal of the current paragraph fails during a merge,
the failure is absorbed at that paragraph (the loop goes on), the failed
paragraph's id is logged, the retained paragraph's text has already been
concatenated, and the current paragraph stays in the output sequence. -/
theorem c9_removal_failure (ok : Nat → Bool) (A B : MPara)
    (pend rest : List MPara)
    (hA : strip A.text ≠ []) (hB : strip B.text ≠ [])
    (ht : isTerminated (strip A.text) = false)
    (hn : starts_with_number (strip B.text) = false)
    (hh : last_is_header (strip A.text) = false)
    (hok : ok B.pid = false) :
    mergeGoF ok A pend (B :: rest) =
      ((mergeGoF ok
          ⟨A.pid, rstrip A.text ++ sepFor (strip A.text) (strip B.text)
            ++ strip B.text⟩ (pend ++ [B]) rest).1,
        B.pid :: (mergeGoF ok
          ⟨A.pid, rstrip A.text ++ sepFor (strip A.text) (strip B.text)
            ++ strip B.text⟩ (pend ++ [B]) rest).2)
    ∧ B ∈ (mergeGoF ok A pend (B :: rest)).1
    ∧ B.pid ∈ (mergeGoF ok A pend (B :: rest)).2 := by
  have h1 : ¬(strip B.text).isEmpty = true := by simpa using hB
  have h2 : ¬(strip A.text).isEmpty = true := by simpa using hA
  have h3 : (!isTerminated (strip A.text) && !starts_with_number (strip B.text)
      && !last_is_header (strip A.text)) = true := by simp [ht, hn, hh]
  have h4 : ¬ok B.pid = true := by simp [hok]
  have hmain := mergeGoF_cons_merge_fail ok A pend B rest h1 h2 h3 h4
  rw [lstrip_strip] at hmain
  refine ⟨hmain, ?_, ?_⟩
  · rw [hmain]
    exact mergeGoF_pend_mem ok rest _ (pend ++ [B]) B
      (List.mem_append_right _ (by simp))
  · rw [hmain]
    simp

/-- Witness for C9: with removal failing on node 1, the text is concatenated
into node 0, node 1 stays in the sequence, and its id is logged. -/
theorem c9_witness :
    mergeGoF (fun _ => false) ⟨0, "Hello".toList⟩ [] [⟨1, "world".toList⟩] =
      ([⟨0, "Hello world".toList⟩, ⟨1, "world".toList⟩], [1])
    ∧ (⟨1, "world".toList⟩ : MPara) ∈
        (mergeGoF (fun _ => false) (⟨0, "Hello".toList⟩ : MPara) []
          [⟨1, "world".toList⟩]).1 := by
  have h := c9_removal_failure (fun _ => false) ⟨0, "Hello".toList⟩
    ⟨1, "world".toList⟩ [] [] (by decide) (by decide) (by decide) (by decide)
    (by decide) rfl
  exact ⟨h.1.trans (by decide), h.2.1⟩

/-! ## The translation inserter (`translate_paragraph_element`, source 62–130)

Paragraph elements are modelled at the XML level: a `w:p` element is a list
of children, each carrying its fully qualified tag.  Only the run tag
(`w:r`) and the paragraph-properties tag (`w:pPr`) matter to the program;
other children keep their own tags. -/

/-- The WordprocessingML namespace prefix of a fully qualified lxml tag. -/
def wNS : List Char :=
  "\x7bhttp://schemas.openxmlformats.org/wordprocessingml/2006/main\x7d".toList

/-- The fully qualified tag of a text run `w:r`. -/
def tagR : List Char := wNS ++ "r".toList

/-- The fully qualified tag of the paragraph properties `w:pPr`. -/
def tagPPr : List Char := wNS ++ "pPr".toList

/-- A child of a `w:p` element: its qualified tag, and (for run children)
its text content. -/
structure XChild where
  tag : List Char
  text : List Char
deriving DecidableEq

/-- A `w:p` element: node identity plus children. -/
structure ParaE where
  pid : Nat
  children : List XChild
deriving DecidableEq

/-- `p.text` of python-docx: concatenation of the texts of the run
children. -/
def paraText (p : ParaE) : List Char :=
  ((p.children.filter (fun c => c.tag == tagR)).map XChild.text).flatten

/-- The python-docx `p.text = t` setter: clear the run-level content (the
`pPr` child is preserved) and add a single run holding `t`. -/
def setText (p : ParaE) (t : List Char) : ParaE :=
  ⟨p.pid, p.children.filter (fun c => c.tag == tagPPr) ++ [⟨tagR, t⟩]⟩

/-- `text.rstrip('：:')` (source line 74). -/
def rstripColons (s : List Char) : List Char :=
  (s.reverse.dropWhile (fun c => c == '：' || c == ':')).reverse

/-- `re.sub(r'^[\d\.]+\s*', '', t)` (source line 86): remove the maximal
leading run of digit-or-dot characters together with the whitespace that
follows it; if the text does not start with a digit or a dot, nothing is
removed. -/
def cleanTranslation (t : List Char) : List Char :=
  let pre := t.takeWhile (fun c => c.isDigit || c == '.')
  if pre.isEmpty then t else (t.drop pre.length).dropWhile isSpaceC

/-- `for child in list(new_p_elem): if child.tag.endswith('r'):
new_p_elem.remove(child)` (source lines 104–106): keep only the children
whose qualified tag does not end in the character `r`. -/
def stripRunsLike (cs : List XChild) : List XChild :=
  cs.filter (fun c => !(c.tag.getLast? == some 'r'))

/-- Observable events of one translation attempt: the text sent to the
translation service, and the error log line with its 20-character preview
(source line 130). -/
inductive TEvent where
  | call (sent : List Char)
  | errLog (preview : List Char)
deriving DecidableEq

/-- The decision taken by `translate_paragraph_element` (source lines
67–127) for one paragraph, before it is applied to the parent container. -/
inductive TAct where
  | skip
  | failed (sent preview : List Char)
  | rewriteText (sent newText : List Char)
  | insertNew (sent : List Char) (newChildren : List XChild)
deriving DecidableEq

/-- The per-paragraph logic of `translate_paragraph_element`: empty check,
header-colon detection, translation call (`tr` returns `none` when the
service call throws), and then either the in-place inline gloss or the
construction of the cleaned duplicate node. -/
def translateAct (tr : List Char → Option (List Char)) (p : ParaE) : TAct :=
  let text := strip (paraText p)
  if text.isEmpty then .skip
  else
    let is_header_colon := text.getLast? == some '：' || text.getLast? == some ':'
    let text_to_translate := rstripColons text
    match tr text_to_translate with
    | none => .failed text_to_translate (text.take 20)
    | some result =>
      let translated_text := strip result
      if is_header_colon then
        .rewriteText text_to_translate
          (text_to_translate ++ "(".toList ++ translated_text ++ "):".toList)
      else
        .insertNew text_to_translate
          (stripRunsLike p.children ++ [⟨tagR, cleanTranslation translated_text⟩])

/-- `list.insert` at a position (lxml `parent.insert`), clamping to the end
like Python. -/
def insertAt : Nat → α → List α → List α
  | 0, a, l => a :: l
  | _ + 1, a, [] => [a]
  | n + 1, a, x :: l => x :: insertAt n a l

/-- `translate_paragraph_element` applied to the paragraph at index `i` of
its parent container; `fresh` is the identity given to a newly created
node.  Returns the updated container and the event log. -/
def translate_paragraph_element (tr : List Char → Option (List Char))
    (fresh : Nat) (parent : List ParaE) (i : Nat) : List ParaE × List TEvent :=
  match parent[i]? with
  | none => (parent, [])
  | some p =>
    match translateAct tr p with
    | .skip => (parent, [])
    | .failed s pre => (parent, [.call s, .errLog pre])
    | .rewriteText s t => (parent.set i (setText p t), [.call s])
    | .insertNew s cs => (insertAt (i + 1) ⟨fresh, cs⟩ parent, [.call s])

/-- The loop body of `process_paragraph_list` (source lines 142–147): the
snapshot is a list of node identities; each is looked up in the live
container, skipped when its current text is whitespace-only, and otherwise
translated in place. -/
def processIds (tr : List Char → Option (List Char)) :
    List Nat → Nat → List ParaE → List ParaE × List TEvent
  | [], _, parent => (parent, [])
  | pd :: rest, fresh, parent =>
    let step : List ParaE × List TEvent :=
      match parent.findIdx? (fun q => q.pid == pd) with
      | none => (parent, [])
      | some i =>
        match parent[i]? with
        | none => (parent, [])
        | some p =>
          if (strip (paraText p)).isEmpty then (parent, [])
          else translate_paragraph_element tr fresh parent i
    let r := processIds tr rest (fresh + 1) step.1
    (r.1, step.2 ++ r.2)

/-- `process_paragraph_list` (source lines 142–147): snapshot the container,
then process every snapshotted paragraph. -/
def process_paragraph_list (tr : List Char → Option (List Char))
    (fresh : Nat) (parent : List ParaE) : List ParaE × List TEvent :=
  processIds tr (parent.map ParaE.pid) fresh parent

theorem tagPPr_ne_tagR : tagPPr ≠ tagR := by decide

theorem paraText_setText (p : ParaE) (t : List Char) :
    paraText (setText p t) = t := by
  unfold paraText setText
  simp only [List.filter_append]
  have h1 : (p.children.filter (fun c => c.tag == tagPPr)).filter
      (fun c => c.tag == tagR) = [] := by
    rw [List.filter_filter]
    apply List.filter_eq_nil_iff.mpr
    intro c _
    by_cases hc : c.tag = tagPPr
    · simp [hc, tagPPr_ne_tagR]
    · simp only [Bool.and_eq_true, beq_iff_eq]
      rintro ⟨h2, h3⟩
      exact hc h3
  rw [h1]
  simp

theorem translateAct_skip (tr : List Char → Option (List Char)) (p : ParaE)
    (h : (strip (paraText p)).isEmpty = true) : translateAct tr p = .skip := by
  simp [translateAct, h]

theorem translateAct_failed (tr : List Char → Option (List Char)) (p : ParaE)
    (hne : (strip (paraText p)).isEmpty = false)
    (htr : tr (rstripColons (strip (paraText p))) = none) :
    translateAct tr p = .failed (rstripColons (strip (paraText p)))
      ((strip (paraText p)).take 20) := by
  simp [translateAct, hne, htr]

theorem translateAct_header (tr : List Char → Option (List Char)) (p : ParaE)
    (r : List Char)
    (hne : (strip (paraText p)).isEmpty = false)
    (hcolon : ((strip (paraText p)).getLast? == some '：' ||
      (strip (paraText p)).getLast? == some ':') = true)
    (htr : tr (rstripColons (strip (paraText p))) = some r) :
    translateAct tr p = .rewriteText (rstripColons (strip (paraText p)))
      (rstripColons (strip (paraText p)) ++ "(".toList ++ strip r
        ++ "):".toList) := by
  simp [translateAct, hne, htr, hcolon]

theorem translateAct_insert (tr : List Char → Option (List Char)) (p : ParaE)
    (r : List Char)
    (hne : (strip (paraText p)).isEmpty = false)
    (hcolon : ((strip (paraText p)).getLast? == some '：' ||
      (strip (paraText p)).getLast? == some ':') = false)
    (htr : tr (rstripColons (strip (paraText p))) = some r) :
    translateAct tr p = .insertNew (rstripColons (strip (paraText p)))
      (stripRunsLike p.children ++ [⟨tagR, cleanTranslation (strip r)⟩]) := by
  simp [translateAct, hne, htr, hcolon]

/-! ## Claims about the translation inserter -/

/-- C4: for a header-style paragraph (trimmed text ending in a full-width or
ASCII colon) whose translation succeeds, the paragraph is rewritten in place
to exactly `trimmed-original-without-trailing-colons(translation):`, the
parent's node count is unchanged, and no node is inserted. -/
theorem c4_header_inline_gloss (tr : List Char → Option (List Char))
    (fresh : Nat) (parent : List ParaE) (i : Nat) (p : ParaE) (r : List Char)
    (hp : parent[i]? = some p)
    (hne : (strip (paraText p)).isEmpty = false)
    (hcolon : ((strip (paraText p)).getLast? == some '：' ||
      (strip (paraText p)).getLast? == some ':') = true)
    (htr : tr (rstripColons (strip (paraText p))) = some r) :
    translate_paragraph_element tr fresh parent i =
      (parent.set i (setText p (rstripColons (strip (paraText p))
          ++ "(".toList ++ strip r ++ "):".toList)),
        [TEvent.call (rstripColons (strip (paraText p)))])
    ∧ (translate_paragraph_element tr fresh parent i).1.length = parent.length
    ∧ paraText (setText p (rstripColons (strip (paraText p))
        ++ "(".toList ++ strip r ++ "):".toList)) =
      rstripColons (strip (paraText p)) ++ "(".toList ++ strip r
        ++ "):".toList := by
  have hmain : translate_paragraph_element tr fresh parent i =
      (parent.set i (setText p (rstripColons (strip (paraText p))
          ++ "(".toList ++ strip r ++ "):".toList)),
        [TEvent.call (rstripColons (strip (paraText p)))]) := by
    unfold translate_paragraph_element
    rw [hp]
    simp only [translateAct_header tr p r hne hcolon htr]
  exact ⟨hmain, by rw [hmain]; simp, paraText_setText p _⟩

/-- Witness for C4: the paragraph `"结论："` is glossed in place to
`"结论(Conclusion):"` with no new node. -/
theorem c4_witness :
    translate_paragraph_element (fun _ => some "Conclusion".toList) 9
      [⟨0, [⟨tagR, "结论：".toList⟩]⟩] 0 =
      ([⟨0, [⟨tagR, "结论(Conclusion):".toList⟩]⟩],
        [TEvent.call "结论".toList])
    ∧ paraText (⟨0, [⟨tagR, "结论(Conclusion):".toList⟩]⟩ : ParaE) =
        "结论(Conclusion):".toList := by
  have h := c4_header_inline_gloss (fun _ => some "Conclusion".toList) 9
    [⟨0, [⟨tagR, "结论：".toList⟩]⟩] 0 ⟨0, [⟨tagR, "结论：".toList⟩]⟩
    "Conclusion".toList (by decide) (by decide) (by decide) rfl
  exact ⟨h.1.trans (by decide), by decide⟩

/-- C3 fails on the code as a code bug: the child filter of the structural
duplicate tests `child.tag.endswith('r')`, and the qualified tag of the
paragraph-properties child `w:pPr` also ends in `r`, so the duplicate loses
its `pPr` (formatting) child as well — contradicting the code's own comment
"We want to keep pPr but remove r".  Evaluation at a failing input: a
non-header paragraph with a `pPr` child and a run `"你好"`, translated to
`"Hello"`, yields an inserted sibling holding only the translation run, the
`pPr` child being dropped. -/
theorem c3_ppr_dropped_from_duplicate :
    translate_paragraph_element (fun _ => some "Hello".toList) 7
      [⟨0, [⟨tagPPr, []⟩, ⟨tagR, "你好".toList⟩]⟩] 0 =
      ([⟨0, [⟨tagPPr, []⟩, ⟨tagR, "你好".toList⟩]⟩,
        ⟨7, [⟨tagR, "Hello".toList⟩]⟩],
        [TEvent.call "你好".toList])
    ∧ tagPPr.getLast? = some 'r'
    ∧ stripRunsLike [⟨tagPPr, []⟩, ⟨tagR, "你好".toList⟩] = [] := by
  decide

/-- C6: a failed translation call is absorbed at the unit of that one
paragraph: the error is logged with the 20-character preview, the parent
container (hence the paragraph's text and the node count) is exactly as
before, and `process_paragraph_list` continues with the remaining
paragraphs on the unchanged container. -/
theorem c6_translation_failure_caught (tr : List Char → Option (List Char))
    (fresh : Nat) (parent : List ParaE) (i : Nat) (p : ParaE) (pd : Nat)
    (pds : List Nat)
    (hfind : parent.findIdx? (fun q => q.pid == pd) = some i)
    (hp : parent[i]? = some p)
    (hne : (strip (paraText p)).isEmpty = false)
    (htr : tr (rstripColons (strip (paraText p))) = none) :
    translate_paragraph_element tr fresh parent i =
      (parent, [TEvent.call (rstripColons (strip (paraText p))),
        TEvent.errLog ((strip (paraText p)).take 20)])
    ∧ processIds tr (pd :: pds) fresh parent =
        ((processIds tr pds (fresh + 1) parent).1,
          TEvent.call (rstripColons (strip (paraText p))) ::
            TEvent.errLog ((strip (paraText p)).take 20) ::
            (processIds tr pds (fresh + 1) parent).2) := by
  have hmain : translate_paragraph_element tr fresh parent i =
      (parent, [TEvent.call (rstripColons (strip (paraText p))),
        TEvent.errLog ((strip (paraText p)).take 20)]) := by
    unfold translate_paragraph_element
    rw [hp]
    simp only [translateAct_failed tr p hne htr]
  refine ⟨hmain, ?_⟩
  simp only [processIds, hfind, hp, hne, hmain, Bool.false_eq_true, if_false,
    List.cons_append, List.nil_append]

/-- Witness for C6: the translator fails on both paragraphs; the first
failure is logged and processing continues with the second paragraph. -/
theorem c6_witness :
    processIds (fun _ => none) [0, 1] 5
      [⟨0, [⟨tagR, "你好".toList⟩]⟩, ⟨1, [⟨tagR, "再见".toList⟩]⟩] =
      ([⟨0, [⟨tagR, "你好".toList⟩]⟩, ⟨1, [⟨tagR, "再见".toList⟩]⟩],
        [TEvent.call "你好".toList, TEvent.errLog "你好".toList,
          TEvent.call "再见".toList, TEvent.errLog "再见".toList]) := by
  have h := c6_translation_failure_caught (fun _ => none) 5
    [⟨0, [⟨tagR, "你好".toList⟩]⟩, ⟨1, [⟨tagR, "再见".toList⟩]⟩] 0
    ⟨0, [⟨tagR, "你好".toList⟩]⟩ 0 [1] (by decide) rfl (by decide) rfl
  exact h.2.trans (by decide)

/-- C5 (amended): a whitespace-only paragraph is never merged with and never
translated — the merger performs no merge and logs nothing for it, and the
inserter makes no call — but the merger *does* advance the last-retained
pointer to the empty paragraph (the loop continues with `curr` as the new
anchor), so an empty paragraph acts as a merge barrier between its
neighbours. -/
theorem c5_empty_paragraph_skipped (ok : Nat → Bool) (last curr : MPara)
    (pend rest : List MPara) (tr : List Char → Option (List Char))
    (fresh : Nat) (parent : List ParaE) (i : Nat) (q : ParaE)
    (hm : (strip curr.text).isEmpty = true)
    (hq : parent[i]? = some q)
    (hqe : (strip (paraText q)).isEmpty = true) :
    mergeGoF ok last pend (curr :: rest) =
      ((last :: pend) ++ (mergeGoF ok curr [] rest).1,
        (mergeGoF ok curr [] rest).2)
    ∧ translate_paragraph_element tr fresh parent i = (parent, []) := by
  refine ⟨mergeGoF_cons_empty_curr ok last pend curr rest hm, ?_⟩
  unfold translate_paragraph_element
  rw [hq]
  simp only [translateAct_skip tr q hqe]

/-- Witness for C5 on concrete data: the empty paragraph is skipped by both
components. -/
theorem c5_witness :
    mergeGoF (fun _ => true) ⟨0, "a".toList⟩ [] [⟨1, " ".toList⟩] =
      ([⟨0, "a".toList⟩, ⟨1, " ".toList⟩], [])
    ∧ translate_paragraph_element (fun _ => some "x".toList) 3
        [⟨0, [⟨tagR, "  ".toList⟩]⟩] 0 = ([⟨0, [⟨tagR, "  ".toList⟩]⟩], []) := by
  have h := c5_empty_paragraph_skipped (fun _ => true) ⟨0, "a".toList⟩
    ⟨1, " ".toList⟩ [] [] (fun _ => some "x".toList) 3
    [⟨0, [⟨tagR, "  ".toList⟩]⟩] 0 ⟨0, [⟨tagR, "  ".toList⟩]⟩
    (by decide) rfl (by decide)
  exact ⟨h.1.trans (by decide), h.2⟩

/-- C5, as stated, is false in one point: the merger *does* change the merge
target because of an empty paragraph.  With body `["a", " ", "b"]` nothing
merges (three nodes survive), whereas `"b"` placed directly after `"a"`
merges into it — so the empty paragraph did move the last-retained pointer. -/
theorem c5_counterexample :
    merge_paragraphs [⟨0, "a".toList⟩, ⟨1, " ".toList⟩, ⟨2, "b".toList⟩] =
      [⟨0, "a".toList⟩, ⟨1, " ".toList⟩, ⟨2, "b".toList⟩]
    ∧ merge_paragraphs [⟨0, "a".toList⟩, ⟨2, "b".toList⟩] =
      [⟨0, "a b".toList⟩] := by
  decide

theorem takeWhile_append_all (p : α → Bool) (a b : List α)
    (ha : ∀ x ∈ a, p x = true) (hb : ∀ c, b.head? = some c → p c = false) :
    (a ++ b).takeWhile p = a := by
  induction a with
  | nil =>
    cases b with
    | nil => rfl
    | cons c bs => simp [List.takeWhile_cons, hb c rfl]
  | cons x a ih =>
    have hx := ha x (by simp)
    simp [List.takeWhile_cons, hx, ih (fun y hy => ha y (by simp [hy]))]

/-- C10: the enumeration cleanup `re.sub(r'^[\d\.]+\s*', '', ...)` removes
the *maximal* leading run of digit-and-dot characters plus following
whitespace — not only a `digits`/`digits.` marker: a translation starting
with dots alone (`"...text"`) or a multi-level number (`"1.2.3. text"`)
loses the whole prefix before insertion. -/
theorem c10_enumeration_prefix_cleanup (pre rest : List Char)
    (hne : pre ≠ [])
    (hall : ∀ c ∈ pre, (c.isDigit || c == '.') = true)
    (hhead : ∀ c, rest.head? = some c → (c.isDigit || c == '.') = false) :
    cleanTranslation (pre ++ rest) = rest.dropWhile isSpaceC
    ∧ cleanTranslation "...text".toList = "text".toList
    ∧ cleanTranslation "1.2.3. text".toList = "text".toList
    ∧ translate_paragraph_element (fun _ => some "1.2.3. text".toList) 5
        [⟨0, [⟨tagR, "你好".toList⟩]⟩] 0 =
      ([⟨0, [⟨tagR, "你好".toList⟩]⟩, ⟨5, [⟨tagR, "text".toList⟩]⟩],
        [TEvent.call "你好".toList]) := by
  refine ⟨?_, by decide, by decide, by decide⟩
  unfold cleanTranslation
  rw [takeWhile_append_all _ pre rest hall hhead]
  have hie : pre.isEmpty = false := by
    cases pre with
    | nil => exact absurd rfl hne
    | cons c cs => rfl
  rw [if_neg (by simp [hie]), List.drop_left]

/-- Witness for C10: a dots-only prefix is removed entirely. -/
theorem c10_witness :
    cleanTranslation ("...".toList ++ "text".toList) =
      "text".toList.dropWhile isSpaceC := by
  exact (c10_enumeration_prefix_cleanup "...".toList "text".toList
    (by decide) (by decide) (by decide)).1

/-! ## The document model and the traversal of `translate_and_format`
(source lines 132–198)

The body is a sequence of paragraphs and tables.  A paragraph may anchor
text-box content regions (`w:txbxContent`) inside its runs, and each region
contains paragraphs which may themselves anchor nested regions — hence the
mutual tree below.  Sections carry header and footer paragraph lists
(separate document parts, not scanned for text boxes, matching the code
which scans `doc.element.body` only). -/

mutual
/-- A `w:p` together with the text-box content regions anchored in its
runs. -/
inductive TxPara : Type where
  | mk (para : ParaE) (anchored : List TxTree)
/-- A `w:txbxContent` region: its element identity and its paragraphs. -/
inductive TxTree : Type where
  | node (rid : Nat) (paras : List TxPara)
end

def TxPara.para : TxPara → ParaE
  | .mk p _ => p

def TxPara.anchored : TxPara → List TxTree
  | .mk _ a => a

structure Cell where
  paras : List TxPara

structure Row where
  cells : List Cell

structure Table where
  rows : List Row

inductive BodyItem : Type where
  | par (q : TxPara)
  | tab (t : Table)

structure Section where
  hdr : List ParaE
  ftr : List ParaE

structure Doc where
  body : List BodyItem
  sections : List Section

mutual
/-- All `w:p` elements in the subtree of a paragraph (the paragraph itself
first, then the contents of its anchored regions), in document order —
the order produced by lxml's preorder `iter(qn('w:p'))`. -/
def txpAll : TxPara → List ParaE
  | .mk p anc => p :: txsAll anc
def txsAll : List TxTree → List ParaE
  | [] => []
  | t :: ts => txtAll t ++ txsAll ts
def txtAll : TxTree → List ParaE
  | .node _ ps => txpsAll ps
def txpsAll : List TxPara → List ParaE
  | [] => []
  | q :: qs => txpAll q ++ txpsAll qs
end

mutual
/-- All region identities in a tree, in document (preorder) order — the
order produced by `body.iter(qn('w:txbxContent'))`. -/
def regT : TxTree → List Nat
  | .node rid ps => rid :: regPs ps
def regPs : List TxPara → List Nat
  | [] => []
  | .mk _ anc :: qs => regTs anc ++ regPs qs
def regTs : List TxTree → List Nat
  | [] => []
  | t :: ts => regT t ++ regTs ts
end

mutual
/-- Locate the region with a given identity. -/
def findRegT : TxTree → Nat → Option TxTree
  | .node rid ps, r =>
    if rid == r then some (.node rid ps) else findRegPs ps r
def findRegPs : List TxPara → Nat → Option TxTree
  | [], _ => none
  | .mk _ anc :: qs, r => (findRegTs anc r).orElse (fun _ => findRegPs qs r)
def findRegTs : List TxTree → Nat → Option TxTree
  | [], _ => none
  | t :: ts, r => (findRegT t r).orElse (fun _ => findRegTs ts r)
end

mutual
/-- Apply a function to every `w:p` element of the subtree. -/
def txpMap (g : ParaE → ParaE) : TxPara → TxPara
  | .mk p anc => .mk (g p) (txsMap g anc)
def txsMap (g : ParaE → ParaE) : List TxTree → List TxTree
  | [] => []
  | t :: ts => txtMap g t :: txsMap g ts
def txtMap (g : ParaE → ParaE) : TxTree → TxTree
  | .node rid ps => .node rid (txpsMap g ps)
def txpsMap (g : ParaE → ParaE) : List TxPara → List TxPara
  | [] => []
  | q :: qs => txpMap g q :: txpsMap g qs
end

mutual
/-- Insert `newP` as the next sibling of the paragraph with id `pd`, in
whatever paragraph list of the subtree contains it (the cloned node anchors
no text boxes: the runs were stripped from the duplicate). -/
def txpIns (pd : Nat) (newP : ParaE) : TxPara → TxPara
  | .mk p anc => .mk p (txsIns pd newP anc)
def txsIns (pd : Nat) (newP : ParaE) : List TxTree → List TxTree
  | [] => []
  | t :: ts => txtIns pd newP t :: txsIns pd newP ts
def txtIns (pd : Nat) (newP : ParaE) : TxTree → TxTree
  | .node rid ps => .node rid (txpsIns pd newP ps)
def txpsIns (pd : Nat) (newP : ParaE) : List TxPara → List TxPara
  | [] => []
  | .mk p anc :: qs =>
    if p.pid == pd then
      TxPara.mk p (txsIns pd newP anc) :: .mk newP [] :: txpsIns pd newP qs
    else
      TxPara.mk p (txsIns pd newP anc) :: txpsIns pd newP qs
end

def tableAll (t : Table) : List ParaE :=
  (t.rows.map (fun r => (r.cells.map (fun c => txpsAll c.paras)).flatten)).flatten

def bodyItemAll : BodyItem → List ParaE
  | .par q => txpAll q
  | .tab t => tableAll t

/-- Every `w:p` of the document (body subtree first, then section headers
and footers), used for id-based lookup. -/
def docAllParas (d : Doc) : List ParaE :=
  (d.body.map bodyItemAll).flatten ++
    (d.sections.map (fun s => s.hdr ++ s.ftr)).flatten

def docPids (d : Doc) : List Nat := (docAllParas d).map ParaE.pid

/-- Look up the live paragraph with node id `pd`. -/
def docFind (d : Doc) (pd : Nat) : Option ParaE :=
  (docAllParas d).find? (fun p => p.pid == pd)

def tableMap (g : ParaE → ParaE) (t : Table) : Table :=
  ⟨t.rows.map (fun r => ⟨r.cells.map (fun c => ⟨txpsMap g c.paras⟩)⟩)⟩

def bodyItemMap (g : ParaE → ParaE) : BodyItem → BodyItem
  | .par q => .par (txpMap g q)
  | .tab t => .tab (tableMap g t)

/-- In-place rewrite: apply `g` to every paragraph of the document. -/
def docMap (g : ParaE → ParaE) (d : Doc) : Doc :=
  ⟨d.body.map (bodyItemMap g),
    d.sections.map (fun s => ⟨s.hdr.map g, s.ftr.map g⟩)⟩

def tableIns (pd : Nat) (newP : ParaE) (t : Table) : Table :=
  ⟨t.rows.map (fun r => ⟨r.cells.map (fun c => ⟨txpsIns pd newP c.paras⟩)⟩)⟩

def insListP (pd : Nat) (newP : ParaE) : List ParaE → List ParaE
  | [] => []
  | p :: ps =>
    if p.pid == pd then p :: newP :: insListP pd newP ps
    else p :: insListP pd newP ps

def bodyIns (pd : Nat) (newP : ParaE) : List BodyItem → List BodyItem
  | [] => []
  | .par (.mk p anc) :: bs =>
    if p.pid == pd then
      .par (.mk p (txsIns pd newP anc)) :: .par (.mk newP []) ::
        bodyIns pd newP bs
    else
      .par (.mk p (txsIns pd newP anc)) :: bodyIns pd newP bs
  | .tab t :: bs => .tab (tableIns pd newP t) :: bodyIns pd newP bs

/-- `parent.insert(parent.index(p_elem) + 1, new_p_elem)`: insert the new
node right after the node with id `pd` in whatever container holds it. -/
def docIns (pd : Nat) (newP : ParaE) (d : Doc) : Doc :=
  ⟨bodyIns pd newP d.body,
    d.sections.map (fun s => ⟨insListP pd newP s.hdr, insListP pd newP s.ftr⟩)⟩

/-- `translate_paragraph_element` acting on the whole document through the
node id of the target paragraph (the underlying lxml calls resolve the
paragraph's own parent; with unique node ids the two views agree). -/
def translateDoc (tr : List Char → Option (List Char)) (fresh : Nat)
    (d : Doc) (pd : Nat) : Doc × List TEvent :=
  match docFind d pd with
  | none => (d, [])
  | some p =>
    match translateAct tr p with
    | .skip => (d, [])
    | .failed s pre => (d, [.call s, .errLog pre])
    | .rewriteText s t =>
        (docMap (fun q => if q.pid == pd then setText q t else q) d, [.call s])
    | .insertNew s cs => (docIns pd ⟨fresh, cs⟩ d, [.call s])

/-- The common per-list loop (`process_paragraph_list` and the text-box
loop): walk a snapshot of node ids, skip paragraphs whose current text is
whitespace-only, and translate the others in the live document. -/
def runPids (tr : List Char → Option (List Char)) :
    List Nat → Doc → Nat → Doc × Nat × List TEvent
  | [], d, fresh => (d, fresh, [])
  | pd :: rest, d, fresh =>
    let step : Doc × List TEvent :=
      match docFind d pd with
      | none => (d, [])
      | some p =>
        if (strip (paraText p)).isEmpty then (d, [])
        else translateDoc tr fresh d pd
    let r := runPids tr rest step.1 (fresh + 1)
    (r.1, r.2.1, step.2 ++ r.2.2)

/-- `doc.paragraphs`: the top-level body paragraphs. -/
def docTopBodyParas (d : Doc) : List ParaE :=
  d.body.filterMap (fun b =>
    match b with
    | .par (.mk p _) => some p
    | .tab _ => none)

/-- `doc.tables`: the top-level body tables. -/
def docTables (d : Doc) : List Table :=
  d.body.filterMap (fun b =>
    match b with
    | .par _ => none
    | .tab t => some t)

/-- Step 2 of `translate_and_format`: the body paragraphs. -/
def bodyPhase (tr : List Char → Option (List Char)) (d : Doc) (fresh : Nat) :
    Doc × Nat × List TEvent :=
  runPids tr ((docTopBodyParas d).map ParaE.pid) d fresh

def sectionHdrPids (d : Doc) (j : Nat) : List Nat :=
  match d.sections[j]? with
  | none => []
  | some s => s.hdr.map ParaE.pid

def sectionFtrPids (d : Doc) (j : Nat) : List Nat :=
  match d.sections[j]? with
  | none => []
  | some s => s.ftr.map ParaE.pid

def sectionsGo (tr : List Char → Option (List Char)) :
    List Nat → Doc → Nat → Doc × Nat × List TEvent
  | [], d, fresh => (d, fresh, [])
  | j :: js, d, fresh =>
    let r1 := runPids tr (sectionHdrPids d j) d fresh
    let r2 := runPids tr (sectionFtrPids r1.1 j) r1.1 r1.2.1
    let r3 := sectionsGo tr js r2.1 r2.2.1
    (r3.1, r3.2.1, r1.2.2 ++ r2.2.2 ++ r3.2.2)

/-- Step 3 of `translate_and_format`: for each section, the header then the
footer paragraphs. -/
def sectionsPhase (tr : List Char → Option (List Char)) (d : Doc)
    (fresh : Nat) : Doc × Nat × List TEvent :=
  sectionsGo tr (List.range d.sections.length) d fresh

def cellPids (d : Doc) (ti ri ci : Nat) : List Nat :=
  match (docTables d)[ti]? with
  | none => []
  | some t =>
    match t.rows[ri]? with
    | none => []
    | some r =>
      match r.cells[ci]? with
      | none => []
      | some c => c.paras.map (fun q => q.para.pid)

/-- The `(table, row, cell)` index triples in row-major, row-then-column
order. -/
def tableTriples (d : Doc) : List (Nat × Nat × Nat) :=
  ((docTables d).enum.map (fun tp =>
    (tp.2.rows.enum.map (fun rp =>
      rp.2.cells.enum.map (fun cp => (tp.1, rp.1, cp.1)))).flatten)).flatten

def tablesGo (tr : List Char → Option (List Char)) :
    List (Nat × Nat × Nat) → Doc → Nat → Doc × Nat × List TEvent
  | [], d, fresh => (d, fresh, [])
  | (ti, ri, ci) :: rest, d, fresh =>
    let r1 := runPids tr (cellPids d ti ri ci) d fresh
    let r2 := tablesGo tr rest r1.1 r1.2.1
    (r2.1, r2.2.1, r1.2.2 ++ r2.2.2)

/-- Step 4 of `translate_and_format`: table cells in row-major order. -/
def tablesPhase (tr : List Char → Option (List Char)) (d : Doc)
    (fresh : Nat) : Doc × Nat × List TEvent :=
  tablesGo tr (tableTriples d) d fresh

/-- All `w:txbxContent` regions of the body, in document (preorder) order,
including nested ones — `body.iter(qn('w:txbxContent'))`. -/
def bodyRegionIds (items : List BodyItem) : List Nat :=
  (items.map (fun b =>
    match b with
    | .par (.mk _ anc) => regTs anc
    | .tab t =>
      (t.rows.map (fun r => (r.cells.map (fun c => regPs c.paras)).flatten)).flatten)).flatten

def rowFindReg (r : Row) (rid : Nat) : Option TxTree :=
  r.cells.foldr (fun c acc => (findRegPs c.paras rid).orElse (fun _ => acc)) none

def tableFindReg (t : Table) (rid : Nat) : Option TxTree :=
  t.rows.foldr (fun r acc => (rowFindReg r rid).orElse (fun _ => acc)) none

def bodyItemFindReg : BodyItem → Nat → Option TxTree
  | .par (.mk _ anc), rid => findRegTs anc rid
  | .tab t, rid => tableFindReg t rid

def bodyFindReg (items : List BodyItem) (rid : Nat) : Option TxTree :=
  items.foldr (fun b acc => (bodyItemFindReg b rid).orElse (fun _ => acc)) none

/-- `list(txbx.iter(qn('w:p')))`: the snapshot taken when a region is
visited — every `w:p` of the region's subtree (nested regions included), in
document order. -/
def regionParaPids (d : Doc) (rid : Nat) : List Nat :=
  match bodyFindReg d.body rid with
  | none => []
  | some t => (txtAll t).map ParaE.pid

def txbxGo (tr : List Char → Option (List Char)) :
    List Nat → Doc → Nat → Doc × Nat × List TEvent
  | [], d, fresh => (d, fresh, [])
  | rid :: rest, d, fresh =>
    let r1 := runPids tr (regionParaPids d rid) d fresh
    let r2 := txbxGo tr rest r1.1 r1.2.1
    (r2.1, r2.2.1, r1.2.2 ++ r2.2.2)

/-- Step 5 of `translate_and_format`: every text-box content region of the
body tree. -/
def txbxPhase (tr : List Char → Option (List Char)) (d : Doc)
    (fresh : Nat) : Doc × Nat × List TEvent :=
  txbxGo tr (bodyRegionIds d.body) d fresh

/-- The inserter pipeline of `translate_and_format` (source lines 139–194),
after the body merge: body paragraphs, then section headers/footers, then
table cells, then text boxes. -/
def translate_phases (tr : List Char → Option (List Char)) (d : Doc)
    (fresh : Nat) : Doc × Nat × List TEvent :=
  let r1 := bodyPhase tr d fresh
  let r2 := sectionsPhase tr r1.1 r1.2.1
  let r3 := tablesPhase tr r2.1 r2.2.1
  let r4 := txbxPhase tr r3.1 r3.2.1
  (r4.1, r4.2.1, r1.2.2 ++ r2.2.2 ++ r3.2.2 ++ r4.2.2)

/-- The sequence of texts sent to the translation service, read off the
event log. -/
def callsOf (evs : List TEvent) : List (List Char) :=
  evs.filterMap (fun e =>
    match e with
    | .call s => some s
    | .errLog _ => none)

/-- A demonstration document: one empty body paragraph anchoring a text box
(region 100, paragraph `"x"`), which itself contains a nested text box
(region 200, paragraph `"y"`). -/
def nestedDemoDoc : Doc :=
  ⟨[.par (.mk ⟨0, []⟩
    [.node 100 [.mk ⟨1, [⟨tagR, "x".toList⟩]⟩
      [.node 200 [.mk ⟨2, [⟨tagR, "y".toList⟩]⟩ []]]]])], []⟩

/-- A demonstration translator: append `"T"` to the text. -/
def appendTDemo : List Char → Option (List Char) :=
  fun s => some (s ++ "T".toList)

/-- The text a paragraph sends to the translation service: nothing when its
trimmed text is empty, and the trimmed text with trailing colons stripped
otherwise. -/
def sentOf (p : ParaE) : Option (List Char) :=
  if (strip (paraText p)).isEmpty then none
  else some (rstripColons (strip (paraText p)))

/-- The claimed call order for the body: the top-level body paragraphs in
document order. -/
def claimedBodyCalls (d : Doc) : List (List Char) :=
  (docTopBodyParas d).filterMap sentOf

/-- The claimed call order for sections: each section's header paragraphs
then its footer paragraphs. -/
def claimedSectionCalls (d : Doc) : List (List Char) :=
  (d.sections.map (fun s => s.hdr.filterMap sentOf ++ s.ftr.filterMap sentOf)).flatten

/-- The claimed call order for tables: cells in row-major, row-then-column
order, each cell's paragraphs in document order. -/
def claimedTableCalls (d : Doc) : List (List Char) :=
  ((docTables d).map (fun t =>
    (t.rows.map (fun r =>
      (r.cells.map (fun c => (c.paras.map TxPara.para).filterMap sentOf)).flatten)).flatten)).flatten

/-- A region's own paragraphs. -/
def regionOwnParas : TxTree → List ParaE
  | .node _ ps => ps.map TxPara.para

/-- The claimed call order for text boxes: every region of the body tree in
document (preorder) order, each region's own paragraphs in document
order. -/
def claimedTxbxCalls (d : Doc) : List (List Char) :=
  ((bodyRegionIds d.body).map (fun rid =>
    match bodyFindReg d.body rid with
    | none => []
    | some t => (regionOwnParas t).filterMap sentOf)).flatten

/-- No text box is nested inside another: each region's paragraphs anchor
nothing. -/
def treeFlat : TxTree → Bool
  | .node _ ps => ps.all (fun q => q.anchored.isEmpty)

def txParaFlat (q : TxPara) : Bool := q.anchored.all treeFlat

def bodyItemFlat : BodyItem → Bool
  | .par q => txParaFlat q
  | .tab t => t.rows.all (fun r => r.cells.all (fun c => c.paras.all txParaFlat))

def docNoNested (d : Doc) : Bool := d.body.all bodyItemFlat

/-- C8, as stated, is false for nested text boxes: in `nestedDemoDoc` the
outer region's snapshot `txbx.iter(w:p)` contains the nested region's
paragraph, so `"y"` is translated during the outer region's turn and again
during its own region's turn — and by then the translation paragraph
inserted during the first visit is translated too (`"yT"`), a text that
belongs to no paragraph of the document.  The call sequence is neither
"each region's own paragraphs in order" nor even that sequence with the
shared paragraph repeated. -/
theorem c8_counterexample :
    callsOf (translate_phases appendTDemo nestedDemoDoc 10).2.2 =
      ["x".toList, "y".toList, "y".toList, "yT".toList]
    ∧ claimedBodyCalls nestedDemoDoc ++ claimedSectionCalls nestedDemoDoc ++
        claimedTableCalls nestedDemoDoc ++ claimedTxbxCalls nestedDemoDoc =
      ["x".toList, "y".toList]
    ∧ callsOf (translate_phases appendTDemo nestedDemoDoc 10).2.2 ≠
        ["x".toList, "y".toList]
    ∧ callsOf (translate_phases appendTDemo nestedDemoDoc 10).2.2 ≠
        ["x".toList, "y".toList, "y".toList]
    ∧ "yT".toList ∉ (docAllParas nestedDemoDoc).map paraText := by
  decide

/-! ## Stability of the document structure under the inserter's mutations

The inserter mutates the document in two ways only: an in-place,
id-preserving rewrite of one paragraph (`docMap`), and the insertion of a
fresh-id sibling (`docIns`).  The lemmas below show that paragraph lookup,
the container snapshots, and the uniqueness of node ids survive both. -/

def txpPids (x : TxPara) : List Nat := (txpAll x).map ParaE.pid

def txsPids (l : List TxTree) : List Nat := (txsAll l).map ParaE.pid

def txtPids (t : TxTree) : List Nat := (txtAll t).map ParaE.pid

def txpsPids (l : List TxPara) : List Nat := (txpsAll l).map ParaE.pid

mutual
theorem txpAll_map (g : ParaE → ParaE) :
    ∀ x : TxPara, txpAll (txpMap g x) = (txpAll x).map g
  | .mk p anc => by
    rw [txpMap, txpAll, txpAll, List.map_cons, txsAll_map g anc]
theorem txsAll_map (g : ParaE → ParaE) :
    ∀ l : List TxTree, txsAll (txsMap g l) = (txsAll l).map g
  | [] => rfl
  | t :: ts => by
    rw [txsMap, txsAll, txsAll, List.map_append, txtAll_map g t,
      txsAll_map g ts]
theorem txtAll_map (g : ParaE → ParaE) :
    ∀ t : TxTree, txtAll (txtMap g t) = (txtAll t).map g
  | .node rid ps => by
    rw [txtMap, txtAll, txtAll, txpsAll_map g ps]
theorem txpsAll_map (g : ParaE → ParaE) :
    ∀ l : List TxPara, txpsAll (txpsMap g l) = (txpsAll l).map g
  | [] => rfl
  | q :: qs => by
    rw [txpsMap, txpsAll, txpsAll, List.map_append, txpAll_map g q,
      txpsAll_map g qs]
end

theorem tableAll_map (g : ParaE → ParaE) (t : Table) :
    tableAll (tableMap g t) = (tableAll t).map g := by
  unfold tableAll tableMap
  simp only [List.map_map, List.map_flatten, Function.comp]
  congr 1
  apply List.map_congr_left
  intro r _
  simp only [List.map_map, List.map_flatten, Function.comp]
  congr 1
  apply List.map_congr_left
  intro c _
  exact txpsAll_map g c.paras

theorem bodyItemAll_map (g : ParaE → ParaE) (b : BodyItem) :
    bodyItemAll (bodyItemMap g b) = (bodyItemAll b).map g := by
  cases b with
  | par q => exact txpAll_map g q
  | tab t => exact tableAll_map g t

theorem docAllParas_docMap (g : ParaE → ParaE) (d : Doc) :
    docAllParas (docMap g d) = (docAllParas d).map g := by
  unfold docAllParas docMap
  simp only [List.map_append, List.map_map, List.map_flatten]
  congr 1
  · congr 1
    apply List.map_congr_left
    intro b _
    exact bodyItemAll_map g b
  · congr 1
    apply List.map_congr_left
    intro s _
    simp

theorem docPids_docMap (g : ParaE → ParaE) (hg : ∀ q, (g q).pid = q.pid)
    (d : Doc) : docPids (docMap g d) = docPids d := by
  unfold docPids
  rw [docAllParas_docMap, List.map_map]
  apply List.map_congr_left
  intro p _
  exact hg p

theorem docFind_docMap (g : ParaE → ParaE) (hg : ∀ q, (g q).pid = q.pid)
    (d : Doc) (b : Nat) :
    docFind (docMap g d) b = Option.map g (docFind d b) := by
  unfold docFind
  rw [docAllParas_docMap, List.find?_map]
  have hpred : ((fun p : ParaE => p.pid == b) ∘ g) =
      (fun p : ParaE => p.pid == b) := by
    funext p
    simp [Function.comp, hg p]
  rw [hpred]

theorem docFind_docMap_of_ne (g : ParaE → ParaE)
    (hg : ∀ q, (g q).pid = q.pid)
    (hfix : ∀ q, q.pid = b → g q = q) (d : Doc) :
    docFind (docMap g d) b = docFind d b := by
  rw [docFind_docMap g hg]
  cases hf : docFind d b with
  | none => rfl
  | some p =>
    have hf' : (docAllParas d).find? (fun q => q.pid == b) = some p := hf
    have hp := List.find?_some hf'
    rw [show Option.map g (some p) = some (g p) from rfl,
      hfix p (by simpa using hp)]

theorem txpPids_mk (p : ParaE) (anc : List TxTree) :
    txpPids (.mk p anc) = p.pid :: txsPids anc := by
  simp [txpPids, txsPids, txpAll]

theorem txsPids_nil : txsPids [] = [] := rfl

theorem txsPids_cons (t : TxTree) (ts : List TxTree) :
    txsPids (t :: ts) = txtPids t ++ txsPids ts := by
  simp [txsPids, txtPids, txsAll]

theorem txtPids_node (rid : Nat) (ps : List TxPara) :
    txtPids (.node rid ps) = txpsPids ps := by
  simp [txtPids, txpsPids, txtAll]

theorem txpsPids_nil : txpsPids [] = [] := rfl

theorem txpsPids_cons (q : TxPara) (qs : List TxPara) :
    txpsPids (q :: qs) = txpPids q ++ txpsPids qs := by
  simp [txpsPids, txpPids, txpsAll]

theorem find?_cons_pos (p : α → Bool) (a : α) (l : List α)
    (h : p a = true) : (a :: l).find? p = some a := by
  simp [List.find?_cons, h]

theorem find?_cons_neg (p : α → Bool) (a : α) (l : List α)
    (h : p a = false) : (a :: l).find? p = l.find? p := by
  simp [List.find?_cons, h]

mutual
theorem txpIns_find (pd : Nat) (newP : ParaE) (b : Nat)
    (hb : (newP.pid == b) = false) :
    ∀ x : TxPara, (txpAll (txpIns pd newP x)).find? (fun p => p.pid == b) =
      (txpAll x).find? (fun p => p.pid == b)
  | .mk p anc => by
    rw [txpIns, txpAll, txpAll]
    by_cases hp : (p.pid == b) = true
    · rw [find?_cons_pos (fun q => q.pid == b) p _ hp,
        find?_cons_pos (fun q => q.pid == b) p _ hp]
    · rw [find?_cons_neg (fun q => q.pid == b) p _ (by simpa using hp),
        find?_cons_neg (fun q => q.pid == b) p _ (by simpa using hp),
        txsIns_find pd newP b hb anc]
theorem txsIns_find (pd : Nat) (newP : ParaE) (b : Nat)
    (hb : (newP.pid == b) = false) :
    ∀ l : List TxTree, (txsAll (txsIns pd newP l)).find? (fun p => p.pid == b) =
      (txsAll l).find? (fun p => p.pid == b)
  | [] => rfl
  | t :: ts => by
    rw [txsIns, txsAll, txsAll, List.find?_append, List.find?_append,
      txtIns_find pd newP b hb t, txsIns_find pd newP b hb ts]
theorem txtIns_find (pd : Nat) (newP : ParaE) (b : Nat)
    (hb : (newP.pid == b) = false) :
    ∀ t : TxTree, (txtAll (txtIns pd newP t)).find? (fun p => p.pid == b) =
      (txtAll t).find? (fun p => p.pid == b)
  | .node rid ps => by
    rw [txtIns, txtAll, txtAll, txpsIns_find pd newP b hb ps]
theorem txpsIns_find (pd : Nat) (newP : ParaE) (b : Nat)
    (hb : (newP.pid == b) = false) :
    ∀ l : List TxPara, (txpsAll (txpsIns pd newP l)).find? (fun p => p.pid == b) =
      (txpsAll l).find? (fun p => p.pid == b)
  | [] => rfl
  | .mk p anc :: qs => by
    rw [txpsIns]
    have hrec : (txsAll (txsIns pd newP anc)).find? (fun p => p.pid == b) =
        (txsAll anc).find? (fun p => p.pid == b) := txsIns_find pd newP b hb anc
    have hqs : (txpsAll (txpsIns pd newP qs)).find? (fun p => p.pid == b) =
        (txpsAll qs).find? (fun p => p.pid == b) := txpsIns_find pd newP b hb qs
    by_cases hm : (p.pid == pd) = true
    · rw [if_pos hm]
      simp only [txpsAll, txpAll, txsAll, List.find?_append, hqs]
      rw [find?_cons_neg (fun q => q.pid == b) newP _ hb, List.find?_nil,
        Option.none_or]
      by_cases hp : (p.pid == b) = true
      · rw [find?_cons_pos (fun q => q.pid == b) p _ hp,
          find?_cons_pos (fun q => q.pid == b) p _ hp]
      · rw [find?_cons_neg (fun q => q.pid == b) p _ (by simpa using hp),
          find?_cons_neg (fun q => q.pid == b) p _ (by simpa using hp), hrec]
    · rw [if_neg hm]
      simp only [txpsAll, txpAll, List.find?_append, hqs]
      by_cases hp : (p.pid == b) = true
      · rw [find?_cons_pos (fun q => q.pid == b) p _ hp,
          find?_cons_pos (fun q => q.pid == b) p _ hp]
      · rw [find?_cons_neg (fun q => q.pid == b) p _ (by simpa using hp),
          find?_cons_neg (fun q => q.pid == b) p _ (by simpa using hp), hrec]
end

mutual
theorem txpIns_count (pd : Nat) (newP : ParaE) (a : Nat) :
    ∀ x : TxPara, (txpPids (txpIns pd newP x)).count a =
      (txpPids x).count a +
        (if a = newP.pid then (txsPids x.anchored).count pd else 0)
  | .mk p anc => by
    rw [txpIns, txpPids_mk, txpPids_mk, TxPara.anchored]
    simp only [List.count_cons, txsIns_count pd newP a anc]
    by_cases ha : a = newP.pid
    · subst ha
      try simp
      try ring
    · have ha2 : ¬newP.pid = a := fun h => ha h.symm
      try simp [ha, ha2]
      try ring
theorem txsIns_count (pd : Nat) (newP : ParaE) (a : Nat) :
    ∀ l : List TxTree, (txsPids (txsIns pd newP l)).count a =
      (txsPids l).count a +
        (if a = newP.pid then (txsPids l).count pd else 0)
  | [] => by simp [txsIns, txsPids_nil]
  | t :: ts => by
    rw [txsIns, txsPids_cons, txsPids_cons]
    simp only [List.count_append, txtIns_count pd newP a t,
      txsIns_count pd newP a ts]
    by_cases ha : a = newP.pid
    · subst ha
      try simp
      try ring
    · have ha2 : ¬newP.pid = a := fun h => ha h.symm
      try simp [ha, ha2]
      try ring
theorem txtIns_count (pd : Nat) (newP : ParaE) (a : Nat) :
    ∀ t : TxTree, (txtPids (txtIns pd newP t)).count a =
      (txtPids t).count a +
        (if a = newP.pid then (txtPids t).count pd else 0)
  | .node rid ps => by
    rw [txtIns, txtPids_node, txtPids_node]
    exact txpsIns_count pd newP a ps
theorem txpsIns_count (pd : Nat) (newP : ParaE) (a : Nat) :
    ∀ l : List TxPara, (txpsPids (txpsIns pd newP l)).count a =
      (txpsPids l).count a +
        (if a = newP.pid then (txpsPids l).count pd else 0)
  | [] => by simp [txpsIns, txpsPids_nil]
  | .mk p anc :: qs => by
    rw [txpsIns]
    have hanc := txsIns_count pd newP a anc
    have hqs := txpsIns_count pd newP a qs
    by_cases hm : (p.pid == pd) = true
    · have hm' : p.pid = pd := by simpa using hm
      rw [if_pos hm, txpsPids_cons, txpsPids_cons, txpsPids_cons, txpPids_mk,
        txpPids_mk, txpPids_mk, txsPids_nil]
      simp only [List.count_append, List.count_cons, List.count_nil, hanc, hqs]
      by_cases ha : a = newP.pid
      · subst ha
        try simp [hm']
        try ring
      · have ha2 : ¬newP.pid = a := fun h => ha h.symm
        try simp [ha, ha2, hm']
        try ring
    · have hm' : (p.pid == pd) = false := by simpa using hm
      rw [if_neg hm, txpsPids_cons, txpsPids_cons, txpPids_mk, txpPids_mk]
      simp only [List.count_append, List.count_cons, hanc, hqs]
      by_cases ha : a = newP.pid
      · subst ha
        try simp [hm']
        try ring
      · have ha2 : ¬newP.pid = a := fun h => ha h.symm
        try simp [ha, ha2, hm']
        try ring
end

theorem insListP_find (pd : Nat) (newP : ParaE) (b : Nat)
    (hb : (newP.pid == b) = false) (l : List ParaE) :
    (insListP pd newP l).find? (fun p => p.pid == b) =
      l.find? (fun p => p.pid == b) := by
  induction l with
  | nil => rfl
  | cons p ps ih =>
    rw [insListP]
    by_cases hm : (p.pid == pd) = true
    · rw [if_pos hm]
      by_cases hp : (p.pid == b) = true
      · rw [find?_cons_pos (fun q => q.pid == b) p _ hp,
          find?_cons_pos (fun q => q.pid == b) p _ hp]
      · rw [find?_cons_neg (fun q => q.pid == b) p _ (by simpa using hp),
          find?_cons_neg (fun q => q.pid == b) p _ (by simpa using hp),
          find?_cons_neg (fun q => q.pid == b) newP _ hb, ih]
    · rw [if_neg hm]
      by_cases hp : (p.pid == b) = true
      · rw [find?_cons_pos (fun q => q.pid == b) p _ hp,
          find?_cons_pos (fun q => q.pid == b) p _ hp]
      · rw [find?_cons_neg (fun q => q.pid == b) p _ (by simpa using hp),
          find?_cons_neg (fun q => q.pid == b) p _ (by simpa using hp), ih]

theorem insListP_count (pd : Nat) (newP : ParaE) (a : Nat) (l : List ParaE) :
    ((insListP pd newP l).map ParaE.pid).count a =
      (l.map ParaE.pid).count a +
        (if a = newP.pid then (l.map ParaE.pid).count pd else 0) := by
  induction l with
  | nil => simp [insListP]
  | cons p ps ih =>
    rw [insListP]
    by_cases hm : (p.pid == pd) = true
    · have hm' : p.pid = pd := by simpa using hm
      rw [if_pos hm]
      simp only [List.map_cons, List.count_cons, ih]
      by_cases ha : a = newP.pid
      · subst ha
        try simp [hm']
        try ring
      · have ha2 : ¬newP.pid = a := fun h => ha h.symm
        try simp [ha, ha2, hm']
        try ring
    · have hm' : (p.pid == pd) = false := by simpa using hm
      rw [if_neg hm]
      simp only [List.map_cons, List.count_cons, ih]
      by_cases ha : a = newP.pid
      · subst ha
        try simp [hm']
        try ring
      · have ha2 : ¬newP.pid = a := fun h => ha h.symm
        try simp [ha, ha2, hm']
        try ring

theorem insListP_of_not_mem (pd : Nat) (newP : ParaE) (l : List ParaE)
    (h : pd ∉ l.map ParaE.pid) : insListP pd newP l = l := by
  induction l with
  | nil => rfl
  | cons p ps ih =>
    rw [insListP]
    have hp : ¬(p.pid == pd) = true := by
      simp only [List.map_cons, List.mem_cons] at h
      simp only [beq_iff_eq]
      intro hc
      exact h (Or.inl hc.symm)
    rw [if_neg hp, ih (fun hc => h (by simp [hc]))]

def rowAll (r : Row) : List ParaE := (r.cells.map (fun c => txpsAll c.paras)).flatten

theorem rowIns_find (pd : Nat) (newP : ParaE) (b : Nat)
    (hb : (newP.pid == b) = false) (cells : List Cell) :
    ((cells.map (fun c => ⟨txpsIns pd newP c.paras⟩ : Cell → Cell) |>.map
        (fun c => txpsAll c.paras)).flatten).find? (fun p => p.pid == b) =
      ((cells.map (fun c => txpsAll c.paras)).flatten).find?
        (fun p => p.pid == b) := by
  induction cells with
  | nil => rfl
  | cons c cs ih =>
    simp only [List.map_cons, List.flatten_cons, List.find?_append, ih,
      txpsIns_find pd newP b hb c.paras]

theorem tableIns_find (pd : Nat) (newP : ParaE) (b : Nat)
    (hb : (newP.pid == b) = false) (t : Table) :
    (tableAll (tableIns pd newP t)).find? (fun p => p.pid == b) =
      (tableAll t).find? (fun p => p.pid == b) := by
  obtain ⟨rows⟩ := t
  unfold tableAll tableIns
  simp only []
  induction rows with
  | nil => rfl
  | cons r rs ih =>
    simp only [List.map_cons, List.flatten_cons, List.find?_append, ih]
    have hrow := rowIns_find pd newP b hb r.cells
    simp only [List.map_map] at hrow ⊢
    rw [hrow]

theorem bodyIns_find (pd : Nat) (newP : ParaE) (b : Nat)
    (hb : (newP.pid == b) = false) (items : List BodyItem) :
    (((bodyIns pd newP items).map bodyItemAll).flatten).find?
        (fun p => p.pid == b) =
      ((items.map bodyItemAll).flatten).find? (fun p => p.pid == b) := by
  induction items with
  | nil => rfl
  | cons it its ih =>
    cases it with
    | par q =>
      obtain ⟨p, anc⟩ := q
      rw [bodyIns]
      by_cases hm : (p.pid == pd) = true
      · rw [if_pos hm]
        simp only [List.map_cons, List.flatten_cons, bodyItemAll, txpAll,
          txsAll, List.find?_append, ih]
        rw [find?_cons_neg (fun q => q.pid == b) newP _ hb, List.find?_nil,
          Option.none_or]
        by_cases hp : (p.pid == b) = true
        · rw [find?_cons_pos (fun q => q.pid == b) p _ hp,
            find?_cons_pos (fun q => q.pid == b) p _ hp]
        · rw [find?_cons_neg (fun q => q.pid == b) p _ (by simpa using hp),
            find?_cons_neg (fun q => q.pid == b) p _ (by simpa using hp),
            txsIns_find pd newP b hb anc]
      · rw [if_neg hm]
        simp only [List.map_cons, List.flatten_cons, bodyItemAll, txpAll,
          List.find?_append, ih]
        by_cases hp : (p.pid == b) = true
        · rw [find?_cons_pos (fun q => q.pid == b) p _ hp,
            find?_cons_pos (fun q => q.pid == b) p _ hp]
        · rw [find?_cons_neg (fun q => q.pid == b) p _ (by simpa using hp),
            find?_cons_neg (fun q => q.pid == b) p _ (by simpa using hp),
            txsIns_find pd newP b hb anc]
    | tab t =>
      rw [bodyIns]
      simp only [List.map_cons, List.flatten_cons, List.find?_append, ih,
        bodyItemAll, tableIns_find pd newP b hb t]

theorem docFind_docIns_of_ne (pd : Nat) (newP : ParaE) (b : Nat)
    (hb : newP.pid ≠ b) (d : Doc) :
    docFind (docIns pd newP d) b = docFind d b := by
  have hb' : (newP.pid == b) = false := by simpa using hb
  unfold docFind docAllParas docIns
  simp only [List.find?_append]
  rw [bodyIns_find pd newP b hb' d.body]
  have hsect : ((d.sections.map
      (fun s => ⟨insListP pd newP s.hdr, insListP pd newP s.ftr⟩ : Section → Section)
      |>.map (fun s => s.hdr ++ s.ftr)).flatten).find? (fun p => p.pid == b) =
      ((d.sections.map (fun s => s.hdr ++ s.ftr)).flatten).find?
        (fun p => p.pid == b) := by
    induction d.sections with
    | nil => rfl
    | cons s ss ih =>
      simp only [List.map_cons, List.flatten_cons, List.find?_append, ih,
        insListP_find pd newP b hb']
  simp only [List.map_map] at hsect ⊢
  rw [hsect]

theorem rowIns_count (pd : Nat) (newP : ParaE) (a : Nat) (cells : List Cell) :
    (((cells.map (fun c => ⟨txpsIns pd newP c.paras⟩ : Cell → Cell) |>.map
        (fun c => txpsAll c.paras)).flatten.map ParaE.pid).count a) =
      ((cells.map (fun c => txpsAll c.paras)).flatten.map ParaE.pid).count a +
        (if a = newP.pid then
          ((cells.map (fun c => txpsAll c.paras)).flatten.map ParaE.pid).count pd
        else 0) := by
  induction cells with
  | nil => simp
  | cons c cs ih =>
    simp only [List.map_cons, List.flatten_cons, List.map_append,
      List.count_append, ih]
    have hc := txpsIns_count pd newP a c.paras
    simp only [txpsPids] at hc
    rw [hc]
    by_cases ha : a = newP.pid
    · subst ha
      try simp
      try ring
    · have ha2 : ¬newP.pid = a := fun h => ha h.symm
      try simp [ha, ha2]
      try ring

theorem tableIns_count (pd : Nat) (newP : ParaE) (a : Nat) (t : Table) :
    ((tableAll (tableIns pd newP t)).map ParaE.pid).count a =
      ((tableAll t).map ParaE.pid).count a +
        (if a = newP.pid then ((tableAll t).map ParaE.pid).count pd else 0) := by
  obtain ⟨rows⟩ := t
  unfold tableAll tableIns
  simp only []
  induction rows with
  | nil => simp
  | cons r rs ih =>
    simp only [List.map_cons, List.flatten_cons, List.map_append,
      List.count_append, ih]
    have hrow := rowIns_count pd newP a r.cells
    simp only [List.map_map] at hrow ⊢
    rw [hrow]
    by_cases ha : a = newP.pid
    · subst ha
      try simp
      try ring
    · have ha2 : ¬newP.pid = a := fun h => ha h.symm
      try simp [ha, ha2]
      try ring

theorem bodyIns_count (pd : Nat) (newP : ParaE) (a : Nat)
    (items : List BodyItem) :
    ((((bodyIns pd newP items).map bodyItemAll).flatten).map ParaE.pid).count a =
      (((items.map bodyItemAll).flatten).map ParaE.pid).count a +
        (if a = newP.pid then
          (((items.map bodyItemAll).flatten).map ParaE.pid).count pd
        else 0) := by
  induction items with
  | nil => simp [bodyIns]
  | cons it its ih =>
    cases it with
    | par q =>
      obtain ⟨p, anc⟩ := q
      rw [bodyIns]
      have hanc := txsIns_count pd newP a anc
      simp only [txsPids] at hanc
      by_cases hm : (p.pid == pd) = true
      · have hm' : p.pid = pd := by simpa using hm
        rw [if_pos hm]
        simp only [List.map_cons, List.flatten_cons, bodyItemAll, txpAll,
          txsAll, List.map_append, List.count_append, List.count_cons,
          List.map_nil, List.count_nil, ih, hanc]
        by_cases ha : a = newP.pid
        · subst ha
          try simp [hm']
          try ring
        · have ha2 : ¬newP.pid = a := fun h => ha h.symm
          try simp [ha, ha2, hm']
          try ring
      · have hm' : (p.pid == pd) = false := by simpa using hm
        rw [if_neg hm]
        simp only [List.map_cons, List.flatten_cons, bodyItemAll, txpAll,
          List.map_append, List.count_append, List.count_cons, ih, hanc]
        by_cases ha : a = newP.pid
        · subst ha
          try simp [hm']
          try ring
        · have ha2 : ¬newP.pid = a := fun h => ha h.symm
          try simp [ha, ha2, hm']
          try ring
    | tab t =>
      rw [bodyIns]
      simp only [List.map_cons, List.flatten_cons, List.map_append,
        List.count_append, bodyItemAll, ih, tableIns_count pd newP a t]
      by_cases ha : a = newP.pid
      · subst ha
        try simp
        try ring
      · have ha2 : ¬newP.pid = a := fun h => ha h.symm
        try simp [ha, ha2]
        try ring

theorem docPids_docIns_count (pd : Nat) (newP : ParaE) (a : Nat) (d : Doc) :
    (docPids (docIns pd newP d)).count a =
      (docPids d).count a +
        (if a = newP.pid then (docPids d).count pd else 0) := by
  unfold docPids docAllParas docIns
  simp only [List.map_append, List.count_append]
  rw [bodyIns_count pd newP a d.body]
  have hsect : (((d.sections.map
      (fun s => ⟨insListP pd newP s.hdr, insListP pd newP s.ftr⟩ : Section → Section)
      |>.map (fun s => s.hdr ++ s.ftr)).flatten.map ParaE.pid)).count a =
      (((d.sections.map (fun s => s.hdr ++ s.ftr)).flatten.map ParaE.pid)).count a +
        (if a = newP.pid then
          (((d.sections.map (fun s => s.hdr ++ s.ftr)).flatten.map ParaE.pid)).count pd
        else 0) := by
    induction d.sections with
    | nil => simp
    | cons s ss ih =>
      simp only [List.map_cons, List.flatten_cons, List.map_append,
        List.count_append, ih, insListP_count pd newP a s.hdr,
        insListP_count pd newP a s.ftr]
      by_cases ha : a = newP.pid
      · subst ha
        try simp
        try ring
      · have ha2 : ¬newP.pid = a := fun h => ha h.symm
        try simp [ha, ha2]
        try ring
  simp only [List.map_map] at hsect ⊢
  rw [hsect]
  by_cases ha : a = newP.pid
  · subst ha
    try simp
    try ring
  · have ha2 : ¬newP.pid = a := fun h => ha h.symm
    try simp [ha, ha2]
    try ring

theorem docPids_docIns_nodup (pd : Nat) (newP : ParaE) (d : Doc)
    (hnd : (docPids d).Nodup) (hf : newP.pid ∉ docPids d) :
    (docPids (docIns pd newP d)).Nodup := by
  rw [List.nodup_iff_count_le_one] at hnd ⊢
  intro a
  rw [docPids_docIns_count]
  by_cases ha : a = newP.pid
  · subst ha
    have h0 : (docPids d).count newP.pid = 0 := by
      rw [List.count_eq_zero]
      exact hf
    rw [h0, if_pos rfl]
    have := hnd pd
    omega
  · rw [if_neg ha]
    have := hnd a
    omega

theorem docPids_docIns_mem (pd : Nat) (newP : ParaE) (d : Doc) (a : Nat)
    (ha : a ∈ docPids (docIns pd newP d)) :
    a ∈ docPids d ∨ a = newP.pid := by
  by_cases hmem : a ∈ docPids d
  · exact Or.inl hmem
  · right
    by_contra hne
    have hc : 0 < (docPids (docIns pd newP d)).count a := by
      rw [List.count_pos_iff]
      exact ha
    rw [docPids_docIns_count, if_neg hne,
      List.count_eq_zero.mpr hmem] at hc
    omega

/-- One iteration of the per-list loop. -/
def runStep (tr : List Char → Option (List Char)) (d : Doc)
    (fresh pd : Nat) : Doc × List TEvent :=
  match docFind d pd with
  | none => (d, [])
  | some p =>
    if (strip (paraText p)).isEmpty then (d, [])
    else translateDoc tr fresh d pd

theorem runPids_cons (tr : List Char → Option (List Char)) (pd : Nat)
    (rest : List Nat) (d : Doc) (fresh : Nat) :
    runPids tr (pd :: rest) d fresh =
      ((runPids tr rest (runStep tr d fresh pd).1 (fresh + 1)).1,
        (runPids tr rest (runStep tr d fresh pd).1 (fresh + 1)).2.1,
        (runStep tr d fresh pd).2 ++
          (runPids tr rest (runStep tr d fresh pd).1 (fresh + 1)).2.2) := rfl

theorem setText_pid (q : ParaE) (t : List Char) : (setText q t).pid = q.pid :=
  rfl

theorem runStep_none (tr : List Char → Option (List Char)) (d : Doc)
    (fresh pd : Nat) (h : docFind d pd = none) :
    runStep tr d fresh pd = (d, []) := by
  unfold runStep
  rw [h]

theorem runStep_some_empty (tr : List Char → Option (List Char)) (d : Doc)
    (fresh pd : Nat) (p : ParaE) (h : docFind d pd = some p)
    (he : (strip (paraText p)).isEmpty = true) :
    runStep tr d fresh pd = (d, []) := by
  unfold runStep
  rw [h]
  exact if_pos he

theorem runStep_some_nonempty (tr : List Char → Option (List Char)) (d : Doc)
    (fresh pd : Nat) (p : ParaE) (h : docFind d pd = some p)
    (he : ¬(strip (paraText p)).isEmpty = true) :
    runStep tr d fresh pd = translateDoc tr fresh d pd := by
  unfold runStep
  rw [h]
  exact if_neg he

theorem runStep_facts (tr : List Char → Option (List Char)) (d : Doc)
    (fresh pd : Nat)
    (hnd : (docPids d).Nodup)
    (hfr : ∀ a ∈ docPids d, a < fresh) :
    callsOf (runStep tr d fresh pd).2 =
        ((docFind d pd).bind sentOf).toList
    ∧ (∀ b, b ≠ pd → b < fresh →
        docFind (runStep tr d fresh pd).1 b = docFind d b)
    ∧ (docPids (runStep tr d fresh pd).1).Nodup
    ∧ (∀ a ∈ docPids (runStep tr d fresh pd).1, a < fresh + 1) := by
  cases hf : docFind d pd with
  | none =>
    rw [runStep_none tr d fresh pd hf]
    exact ⟨rfl, fun b _ _ => rfl, hnd, fun a ha => Nat.lt_succ_of_lt (hfr a ha)⟩
  | some p =>
    by_cases hemp : (strip (paraText p)).isEmpty = true
    · rw [runStep_some_empty tr d fresh pd p hf hemp]
      refine ⟨?_, fun b _ _ => rfl, hnd, fun a ha => Nat.lt_succ_of_lt (hfr a ha)⟩
      have hnil : strip (paraText p) = [] := by simpa using hemp
      simp [sentOf, hnil, callsOf]
    · rw [runStep_some_nonempty tr d fresh pd p hf hemp]
      have hemp' : (strip (paraText p)).isEmpty = false := by simpa using hemp
      have hsent : sentOf p = some (rstripColons (strip (paraText p))) := by
        simp [sentOf, hemp']
      unfold translateDoc
      rw [hf]
      simp only []
      cases htr : tr (rstripColons (strip (paraText p))) with
      | none =>
        rw [translateAct_failed tr p hemp' htr]
        refine ⟨?_, fun b _ _ => rfl, hnd, fun a ha => Nat.lt_succ_of_lt (hfr a ha)⟩
        simp [callsOf, hsent]
      | some r =>
        by_cases hcolon : ((strip (paraText p)).getLast? == some '：' ||
            (strip (paraText p)).getLast? == some ':') = true
        · rw [translateAct_header tr p r hemp' hcolon htr]
          have hg : ∀ q : ParaE,
              ((fun q : ParaE => if q.pid == pd then
                setText q (rstripColons (strip (paraText p)) ++ "(".toList ++
                  strip r ++ "):".toList) else q) q).pid = q.pid := by
            intro q
            by_cases hq : (q.pid == pd) = true
            · simp [hq, setText_pid]
            · simp [hq]
          refine ⟨by simp [callsOf, hsent], ?_, ?_, ?_⟩
          · intro b hb hblt
            apply docFind_docMap_of_ne _ hg
            intro q hq
            have : ¬(q.pid == pd) = true := by
              simp only [beq_iff_eq]
              rw [hq]
              exact hb
            simp [this]
          · rw [docPids_docMap _ hg]
            exact hnd
          · intro a ha
            rw [docPids_docMap _ hg] at ha
            exact Nat.lt_succ_of_lt (hfr a ha)
        · rw [translateAct_insert tr p r hemp'
            (by simpa using hcolon) htr]
          have hfnotin : (fresh : Nat) ∉ docPids d := fun hmem =>
            absurd (hfr fresh hmem) (by omega)
          refine ⟨by simp [callsOf, hsent], ?_, ?_, ?_⟩
          · intro b hb hblt
            exact docFind_docIns_of_ne pd _ b (by simp; omega) d
          · exact docPids_docIns_nodup pd _ d hnd hfnotin
          · intro a ha
            rcases docPids_docIns_mem pd _ d a ha with hmem | hmem
            · exact Nat.lt_succ_of_lt (hfr a hmem)
            · simp only at hmem
              omega

/-- The per-list loop translates exactly the snapshotted paragraphs, in
snapshot order, reading each paragraph's text from the document as it was
when the list was entered; the uniqueness and boundedness of node ids is
preserved, and paragraphs outside the snapshot are untouched. -/
theorem runPids_pure (tr : List Char → Option (List Char)) (pds : List Nat) :
    ∀ (d : Doc) (fresh : Nat),
    pds.Nodup →
    (∀ pd ∈ pds, pd < fresh) →
    (docPids d).Nodup →
    (∀ a ∈ docPids d, a < fresh) →
    callsOf (runPids tr pds d fresh).2.2 =
        pds.filterMap (fun pd => (docFind d pd).bind sentOf)
    ∧ (∀ b, b < fresh → b ∉ pds →
        docFind (runPids tr pds d fresh).1 b = docFind d b)
    ∧ (docPids (runPids tr pds d fresh).1).Nodup
    ∧ (∀ a ∈ docPids (runPids tr pds d fresh).1,
        a < (runPids tr pds d fresh).2.1)
    ∧ fresh ≤ (runPids tr pds d fresh).2.1 := by
  induction pds with
  | nil =>
    intro d fresh _ _ hnd hfr
    exact ⟨rfl, fun b _ _ => rfl, hnd, hfr, Nat.le_refl fresh⟩
  | cons pd rest ih =>
    intro d fresh hpnd hplt hnd hfr
    have hstep := runStep_facts tr d fresh pd hnd hfr
    have hrestnd : rest.Nodup := (List.nodup_cons.mp hpnd).2
    have hpdrest : pd ∉ rest := (List.nodup_cons.mp hpnd).1
    have hrestlt : ∀ q ∈ rest, q < fresh + 1 := fun q hq =>
      Nat.lt_succ_of_lt (hplt q (by simp [hq]))
    have hihyp := ih (runStep tr d fresh pd).1 (fresh + 1) hrestnd hrestlt
      hstep.2.2.1 hstep.2.2.2
    rw [runPids_cons]
    refine ⟨?_, ?_, hihyp.2.2.1, hihyp.2.2.2.1, ?_⟩
    · simp only [callsOf, List.filterMap_append]
      have hcall : callsOf (runStep tr d fresh pd).2 =
          ((docFind d pd).bind sentOf).toList := hstep.1
      simp only [callsOf] at hcall
      rw [hcall]
      have hrest : (runPids tr rest (runStep tr d fresh pd).1 (fresh + 1)).2.2.filterMap
          (fun e => match e with | TEvent.call s => some s | TEvent.errLog _ => none) =
          rest.filterMap (fun q => (docFind d q).bind sentOf) := by
        have h1 := hihyp.1
        simp only [callsOf] at h1
        rw [h1]
        apply List.filterMap_congr
        intro q hq
        rw [hstep.2.1 q (fun hqe => hpdrest (hqe ▸ hq)) (hplt q (by simp [hq]))]
      rw [hrest]
      rw [List.filterMap_cons]
      cases hfo : (docFind d pd).bind sentOf <;> simp
    · intro b hblt hbmem
      rw [hihyp.2.1 b (Nat.lt_succ_of_lt hblt)
        (fun hc => hbmem (by simp [hc]))]
      exact hstep.2.1 b (fun hc => hbmem (by simp [hc])) hblt
    · calc fresh ≤ fresh + 1 := Nat.le_succ fresh
        _ ≤ _ := hihyp.2.2.2.2

/-- The common shape of the three later phases: a sequence of units, each
contributing the snapshot of its paragraph-id list taken when the unit is
reached. -/
def unitsGo (tr : List Char → Option (List Char)) :
    List (Doc → List Nat) → Doc → Nat → Doc × Nat × List TEvent
  | [], d, fresh => (d, fresh, [])
  | u :: us, d, fresh =>
    let r1 := runPids tr (u d) d fresh
    let r2 := unitsGo tr us r1.1 r1.2.1
    (r2.1, r2.2.1, r1.2.2 ++ r2.2.2)

/-- The units of the sections phase: for each section index, its header
then its footer. -/
def sectionUnits (js : List Nat) : List (Doc → List Nat) :=
  (js.map (fun j =>
    [fun d => sectionHdrPids d j, fun d => sectionFtrPids d j])).flatten

theorem sectionsGo_as_units (tr : List Char → Option (List Char))
    (js : List Nat) : ∀ (d : Doc) (fresh : Nat),
    sectionsGo tr js d fresh = unitsGo tr (sectionUnits js) d fresh := by
  induction js with
  | nil => intro d fresh; rfl
  | cons j js ih =>
    intro d fresh
    simp only [sectionsGo, sectionUnits, List.map_cons, List.flatten_cons,
      List.cons_append, List.nil_append, unitsGo]
    rw [← sectionUnits, ih]
    simp [List.append_assoc]

/-- The units of the tables phase: one per `(table, row, cell)` triple. -/
def tableUnits (triples : List (Nat × Nat × Nat)) : List (Doc → List Nat) :=
  triples.map (fun trip => fun d => cellPids d trip.1 trip.2.1 trip.2.2)

theorem tablesGo_as_units (tr : List Char → Option (List Char))
    (triples : List (Nat × Nat × Nat)) : ∀ (d : Doc) (fresh : Nat),
    tablesGo tr triples d fresh = unitsGo tr (tableUnits triples) d fresh := by
  induction triples with
  | nil => intro d fresh; rfl
  | cons trip rest ih =>
    intro d fresh
    obtain ⟨ti, ri, ci⟩ := trip
    simp only [tablesGo, tableUnits, List.map_cons, unitsGo]
    rw [← tableUnits, ih]

/-- The units of the text-box phase: one per region id. -/
def regionUnits (rids : List Nat) : List (Doc → List Nat) :=
  rids.map (fun rid => fun d => regionParaPids d rid)

theorem txbxGo_as_units (tr : List Char → Option (List Char))
    (rids : List Nat) : ∀ (d : Doc) (fresh : Nat),
    txbxGo tr rids d fresh = unitsGo tr (regionUnits rids) d fresh := by
  induction rids with
  | nil => intro d fresh; rfl
  | cons rid rest ih =>
    intro d fresh
    simp only [txbxGo, regionUnits, List.map_cons, unitsGo]
    rw [← regionUnits, ih]

/-- With unique node ids, looking a paragraph up by its own id returns it. -/
theorem find?_pid_self (p : ParaE) (l : List ParaE)
    (hnd : (l.map ParaE.pid).Nodup) (hp : p ∈ l) :
    l.find? (fun q => q.pid == p.pid) = some p := by
  induction l with
  | nil => simp at hp
  | cons x xs ih =>
    rcases List.mem_cons.mp hp with rfl | hp'
    · exact find?_cons_pos (fun q => q.pid == p.pid) p xs (by simp)
    · have hx : (x.pid == p.pid) = false := by
        simp only [List.map_cons, List.nodup_cons] at hnd
        have : p.pid ∈ xs.map ParaE.pid := List.mem_map_of_mem ParaE.pid hp'
        simp only [beq_eq_false_iff_ne, ne_eq]
        intro hc
        exact hnd.1 (hc ▸ this)
      rw [find?_cons_neg (fun q => q.pid == p.pid) x xs hx]
      exact ih (by simp only [List.map_cons, List.nodup_cons] at hnd; exact hnd.2)
        hp'

theorem docFind_self (d : Doc) (p : ParaE) (hnd : (docPids d).Nodup)
    (hp : p ∈ docAllParas d) : docFind d p.pid = some p :=
  find?_pid_self p (docAllParas d) hnd hp

/-- The top-level body paragraphs form a sublist of the document's
paragraph flatten. -/
theorem docTopBodyParas_sublist (d : Doc) :
    List.Sublist (docTopBodyParas d) (docAllParas d) := by
  unfold docTopBodyParas docAllParas
  have h1 : List.Sublist (d.body.filterMap (fun b =>
      match b with
      | .par (.mk p _) => some p
      | .tab _ => none)) ((d.body.map bodyItemAll).flatten) := by
    induction d.body with
    | nil => simp
    | cons it its ih =>
      cases it with
      | par q =>
        obtain ⟨p, anc⟩ := q
        simp only [List.filterMap_cons, List.map_cons, List.flatten_cons,
          bodyItemAll, txpAll]
        exact List.Sublist.cons₂ p (List.sublist_append_of_sublist_right ih)
      | tab t =>
        simp only [List.filterMap_cons, List.map_cons, List.flatten_cons]
        exact List.sublist_append_of_sublist_right ih
  exact h1.trans (List.sublist_append_left _ _)

theorem sectionHdrPids_docMap (g : ParaE → ParaE)
    (hg : ∀ q, (g q).pid = q.pid) (d : Doc) (j : Nat) :
    sectionHdrPids (docMap g d) j = sectionHdrPids d j := by
  unfold sectionHdrPids docMap
  simp only [List.getElem?_map]
  cases d.sections[j]? with
  | none => rfl
  | some s =>
    simp only [Option.map, List.map_map]
    apply List.map_congr_left
    intro q _
    exact hg q

theorem sectionFtrPids_docMap (g : ParaE → ParaE)
    (hg : ∀ q, (g q).pid = q.pid) (d : Doc) (j : Nat) :
    sectionFtrPids (docMap g d) j = sectionFtrPids d j := by
  unfold sectionFtrPids docMap
  simp only [List.getElem?_map]
  cases d.sections[j]? with
  | none => rfl
  | some s =>
    simp only [Option.map, List.map_map]
    apply List.map_congr_left
    intro q _
    exact hg q

theorem sectionHdrPids_docIns (pd : Nat) (newP : ParaE) (d : Doc) (j : Nat)
    (h : pd ∉ sectionHdrPids d j) :
    sectionHdrPids (docIns pd newP d) j = sectionHdrPids d j := by
  unfold sectionHdrPids at h ⊢
  unfold docIns
  simp only [List.getElem?_map]
  cases hs : d.sections[j]? with
  | none => rfl
  | some s =>
    rw [hs] at h
    simp only [Option.map]
    rw [insListP_of_not_mem pd newP s.hdr h]

theorem sectionFtrPids_docIns (pd : Nat) (newP : ParaE) (d : Doc) (j : Nat)
    (h : pd ∉ sectionFtrPids d j) :
    sectionFtrPids (docIns pd newP d) j = sectionFtrPids d j := by
  unfold sectionFtrPids at h ⊢
  unfold docIns
  simp only [List.getElem?_map]
  cases hs : d.sections[j]? with
  | none => rfl
  | some s =>
    rw [hs] at h
    simp only [Option.map]
    rw [insListP_of_not_mem pd newP s.ftr h]

theorem docTables_docMap (g : ParaE → ParaE) (d : Doc) :
    docTables (docMap g d) = (docTables d).map (tableMap g) := by
  unfold docTables docMap
  simp only []
  induction d.body with
  | nil => rfl
  | cons it its ih =>
    cases it with
    | par q => simpa [bodyItemMap] using ih
    | tab t => simpa [bodyItemMap] using ih

theorem docTables_docIns (pd : Nat) (newP : ParaE) (d : Doc) :
    docTables (docIns pd newP d) = (docTables d).map (tableIns pd newP) := by
  unfold docTables docIns
  simp only []
  induction d.body with
  | nil => rfl
  | cons it its ih =>
    cases it with
    | par q =>
      obtain ⟨p, anc⟩ := q
      rw [bodyIns]
      by_cases hm : (p.pid == pd) = true
      · rw [if_pos hm]
        simpa using ih
      · rw [if_neg hm]
        simpa using ih
    | tab t =>
      rw [bodyIns]
      simpa using ih

theorem txpsMap_top_pids (g : ParaE → ParaE) (hg : ∀ q, (g q).pid = q.pid)
    (l : List TxPara) :
    (txpsMap g l).map (fun q => q.para.pid) = l.map (fun q => q.para.pid) := by
  induction l with
  | nil => rfl
  | cons q qs ih =>
    obtain ⟨p, anc⟩ := q
    rw [txpsMap, txpMap]
    simp only [List.map_cons]
    rw [ih]
    congr 1
    show (g p).pid = p.pid
    exact hg p

theorem txpsIns_top_pids (pd : Nat) (newP : ParaE) (l : List TxPara)
    (h : pd ∉ l.map (fun q => q.para.pid)) :
    (txpsIns pd newP l).map (fun q => q.para.pid) =
      l.map (fun q => q.para.pid) := by
  induction l with
  | nil => rfl
  | cons q qs ih =>
    obtain ⟨p, anc⟩ := q
    rw [txpsIns]
    have hp : ¬(p.pid == pd) = true := by
      simp only [List.map_cons, List.mem_cons, TxPara.para] at h
      simp only [beq_iff_eq]
      intro hc
      exact h (Or.inl hc.symm)
    rw [if_neg hp]
    simp only [List.map_cons]
    have hrest : pd ∉ qs.map (fun q => q.para.pid) := by
      intro hc
      apply h
      simp only [List.map_cons, List.mem_cons]
      exact Or.inr hc
    rw [ih hrest]
    rfl

theorem cellPids_docMap (g : ParaE → ParaE) (hg : ∀ q, (g q).pid = q.pid)
    (d : Doc) (ti ri ci : Nat) :
    cellPids (docMap g d) ti ri ci = cellPids d ti ri ci := by
  unfold cellPids
  rw [docTables_docMap g d]
  simp only [List.getElem?_map]
  cases (docTables d)[ti]? with
  | none => rfl
  | some t =>
    simp only [Option.map, tableMap, List.getElem?_map]
    cases t.rows[ri]? with
    | none => rfl
    | some r =>
      simp only [Option.map, List.getElem?_map]
      cases r.cells[ci]? with
      | none => rfl
      | some c =>
        simp only [Option.map]
        exact txpsMap_top_pids g hg c.paras

theorem cellPids_eq_of_some (d : Doc) (ti ri ci : Nat) (t : Table) (r : Row)
    (c : Cell) (h1 : (docTables d)[ti]? = some t) (h2 : t.rows[ri]? = some r)
    (h3 : r.cells[ci]? = some c) :
    cellPids d ti ri ci = c.paras.map (fun q => q.para.pid) := by
  unfold cellPids
  rw [h1]
  simp only []
  rw [h2]
  simp only []
  rw [h3]

theorem cellPids_eq_of_none_t (d : Doc) (ti ri ci : Nat)
    (h1 : (docTables d)[ti]? = none) : cellPids d ti ri ci = [] := by
  unfold cellPids
  rw [h1]

theorem cellPids_eq_of_none_r (d : Doc) (ti ri ci : Nat) (t : Table)
    (h1 : (docTables d)[ti]? = some t) (h2 : t.rows[ri]? = none) :
    cellPids d ti ri ci = [] := by
  unfold cellPids
  rw [h1]
  simp only []
  rw [h2]

theorem cellPids_eq_of_none_c (d : Doc) (ti ri ci : Nat) (t : Table) (r : Row)
    (h1 : (docTables d)[ti]? = some t) (h2 : t.rows[ri]? = some r)
    (h3 : r.cells[ci]? = none) : cellPids d ti ri ci = [] := by
  unfold cellPids
  rw [h1]
  simp only []
  rw [h2]
  simp only []
  rw [h3]

theorem cellPids_docIns (pd : Nat) (newP : ParaE) (d : Doc) (ti ri ci : Nat)
    (h : pd ∉ cellPids d ti ri ci) :
    cellPids (docIns pd newP d) ti ri ci = cellPids d ti ri ci := by
  cases ht : (docTables d)[ti]? with
  | none =>
    have ht' : (docTables (docIns pd newP d))[ti]? = none := by
      rw [docTables_docIns pd newP d, List.getElem?_map, ht]
      rfl
    rw [cellPids_eq_of_none_t d ti ri ci ht,
      cellPids_eq_of_none_t (docIns pd newP d) ti ri ci ht']
  | some t =>
    have ht' : (docTables (docIns pd newP d))[ti]? =
        some (tableIns pd newP t) := by
      rw [docTables_docIns pd newP d, List.getElem?_map, ht]
      rfl
    cases hr : t.rows[ri]? with
    | none =>
      have hr' : (tableIns pd newP t).rows[ri]? = none := by
        unfold tableIns
        simp only [List.getElem?_map, hr]
        rfl
      rw [cellPids_eq_of_none_r d ti ri ci t ht hr,
        cellPids_eq_of_none_r (docIns pd newP d) ti ri ci
          (tableIns pd newP t) ht' hr']
    | some r =>
      have hr' : (tableIns pd newP t).rows[ri]? =
          some (⟨r.cells.map (fun c => ⟨txpsIns pd newP c.paras⟩)⟩ : Row) := by
        unfold tableIns
        simp only [List.getElem?_map, hr]
        rfl
      cases hc : r.cells[ci]? with
      | none =>
        have hc' : ((⟨r.cells.map (fun c => ⟨txpsIns pd newP c.paras⟩)⟩ :
            Row)).cells[ci]? = none := by
          simp only [List.getElem?_map, hc]
          rfl
        rw [cellPids_eq_of_none_c d ti ri ci t r ht hr hc,
          cellPids_eq_of_none_c (docIns pd newP d) ti ri ci
            (tableIns pd newP t) _ ht' hr' hc']
      | some c =>
        have hc' : ((⟨r.cells.map (fun c => ⟨txpsIns pd newP c.paras⟩)⟩ :
            Row)).cells[ci]? = some (⟨txpsIns pd newP c.paras⟩ : Cell) := by
          simp only [List.getElem?_map, hc]
          rfl
        rw [cellPids_eq_of_some d ti ri ci t r c ht hr hc] at h
        rw [cellPids_eq_of_some d ti ri ci t r c ht hr hc,
          cellPids_eq_of_some (docIns pd newP d) ti ri ci
            (tableIns pd newP t) _ _ ht' hr' hc']
        exact txpsIns_top_pids pd newP c.paras h

mutual
theorem findRegT_map (g : ParaE → ParaE) :
    ∀ (t : TxTree) (rid : Nat),
      findRegT (txtMap g t) rid = Option.map (txtMap g) (findRegT t rid)
  | .node rid2 ps, rid => by
    rw [txtMap, findRegT, findRegT]
    by_cases hr : (rid2 == rid) = true
    · rw [if_pos hr, if_pos hr]
      rfl
    · rw [if_neg hr, if_neg hr, findRegPs_map g ps rid]
theorem findRegPs_map (g : ParaE → ParaE) :
    ∀ (l : List TxPara) (rid : Nat),
      findRegPs (txpsMap g l) rid = Option.map (txtMap g) (findRegPs l rid)
  | [], _ => rfl
  | .mk p anc :: qs, rid => by
    rw [txpsMap, txpMap, findRegPs, findRegPs, findRegTs_map g anc rid,
      findRegPs_map g qs rid]
    cases findRegTs anc rid <;> rfl
theorem findRegTs_map (g : ParaE → ParaE) :
    ∀ (l : List TxTree) (rid : Nat),
      findRegTs (txsMap g l) rid = Option.map (txtMap g) (findRegTs l rid)
  | [], _ => rfl
  | t :: ts, rid => by
    rw [txsMap, findRegTs, findRegTs, findRegT_map g t rid,
      findRegTs_map g ts rid]
    cases findRegT t rid <;> rfl
end

mutual
theorem findRegT_ins (pd : Nat) (newP : ParaE) :
    ∀ (t : TxTree) (rid : Nat),
      findRegT (txtIns pd newP t) rid =
        Option.map (txtIns pd newP) (findRegT t rid)
  | .node rid2 ps, rid => by
    rw [txtIns, findRegT, findRegT]
    by_cases hr : (rid2 == rid) = true
    · rw [if_pos hr, if_pos hr]
      rfl
    · rw [if_neg hr, if_neg hr, findRegPs_ins pd newP ps rid]
theorem findRegPs_ins (pd : Nat) (newP : ParaE) :
    ∀ (l : List TxPara) (rid : Nat),
      findRegPs (txpsIns pd newP l) rid =
        Option.map (txtIns pd newP) (findRegPs l rid)
  | [], _ => rfl
  | .mk p anc :: qs, rid => by
    have hanc := findRegTs_ins pd newP anc rid
    have hqs := findRegPs_ins pd newP qs rid
    rw [txpsIns]
    by_cases hm : (p.pid == pd) = true
    · rw [if_pos hm, findRegPs, findRegPs, findRegPs, findRegTs, hanc, hqs]
      cases findRegTs anc rid <;> rfl
    · rw [if_neg hm, findRegPs, findRegPs, hanc, hqs]
      cases findRegTs anc rid <;> rfl
theorem findRegTs_ins (pd : Nat) (newP : ParaE) :
    ∀ (l : List TxTree) (rid : Nat),
      findRegTs (txsIns pd newP l) rid =
        Option.map (txtIns pd newP) (findRegTs l rid)
  | [], _ => rfl
  | t :: ts, rid => by
    rw [txsIns, findRegTs, findRegTs, findRegT_ins pd newP t rid,
      findRegTs_ins pd newP ts rid]
    cases findRegT t rid <;> rfl
end

mutual
theorem txtIns_noop (pd : Nat) (newP : ParaE) :
    ∀ t : TxTree, pd ∉ txtPids t → txtIns pd newP t = t
  | .node rid ps => fun h => by
    rw [txtIns, txpsIns_noop pd newP ps (by rwa [txtPids_node] at h)]
theorem txpsIns_noop (pd : Nat) (newP : ParaE) :
    ∀ l : List TxPara, pd ∉ txpsPids l → txpsIns pd newP l = l
  | [] => fun _ => rfl
  | .mk p anc :: qs => fun h => by
    rw [txpsPids_cons, txpPids_mk] at h
    simp only [List.cons_append, List.mem_cons, List.mem_append] at h
    push_neg at h
    obtain ⟨h1, h2⟩ := h
    rw [txpsIns]
    have hp : ¬(p.pid == pd) = true := by
      simp only [beq_iff_eq]
      exact fun hc => h1 hc.symm
    rw [if_neg hp, txsIns_noop pd newP anc h2.1, txpsIns_noop pd newP qs h2.2]
theorem txsIns_noop (pd : Nat) (newP : ParaE) :
    ∀ l : List TxTree, pd ∉ txsPids l → txsIns pd newP l = l
  | [] => fun _ => rfl
  | t :: ts => fun h => by
    rw [txsPids_cons] at h
    simp only [List.mem_append] at h
    push_neg at h
    rw [txsIns, txtIns_noop pd newP t h.1, txsIns_noop pd newP ts h.2]
end

theorem txtPids_txtMap (g : ParaE → ParaE) (hg : ∀ q, (g q).pid = q.pid)
    (t : TxTree) : txtPids (txtMap g t) = txtPids t := by
  unfold txtPids
  rw [txtAll_map, List.map_map]
  apply List.map_congr_left
  intro q _
  exact hg q

theorem rowFindReg_map (g : ParaE → ParaE) (rid : Nat) :
    ∀ cs : List Cell,
      rowFindReg ⟨cs.map (fun c => ⟨txpsMap g c.paras⟩)⟩ rid =
        Option.map (txtMap g) (rowFindReg ⟨cs⟩ rid)
  | [] => rfl
  | c :: cs => by
    have ih := rowFindReg_map g rid cs
    simp only [rowFindReg, List.map_cons, List.foldr_cons] at ih ⊢
    rw [findRegPs_map g c.paras rid, ih]
    cases findRegPs c.paras rid <;> rfl

theorem tableFindReg_map (g : ParaE → ParaE) (rid : Nat) :
    ∀ rs : List Row,
      tableFindReg
          ⟨rs.map (fun r => ⟨r.cells.map (fun c => ⟨txpsMap g c.paras⟩)⟩)⟩
          rid =
        Option.map (txtMap g) (tableFindReg ⟨rs⟩ rid)
  | [] => rfl
  | r :: rs => by
    have ih := tableFindReg_map g rid rs
    simp only [tableFindReg, List.map_cons, List.foldr_cons] at ih ⊢
    rw [rowFindReg_map g rid r.cells, ih]
    cases rowFindReg ⟨r.cells⟩ rid <;> rfl

theorem bodyFindReg_map (g : ParaE → ParaE) (rid : Nat) :
    ∀ items : List BodyItem,
      bodyFindReg (items.map (bodyItemMap g)) rid =
        Option.map (txtMap g) (bodyFindReg items rid)
  | [] => rfl
  | b :: bs => by
    have ih := bodyFindReg_map g rid bs
    simp only [bodyFindReg, List.map_cons, List.foldr_cons] at ih ⊢
    have hb : bodyItemFindReg (bodyItemMap g b) rid =
        Option.map (txtMap g) (bodyItemFindReg b rid) := by
      cases b with
      | par q =>
        cases q with
        | mk p anc =>
          simp only [bodyItemMap, txpMap, bodyItemFindReg]
          exact findRegTs_map g anc rid
      | tab t =>
        simp only [bodyItemMap, tableMap, bodyItemFindReg]
        exact tableFindReg_map g rid t.rows
    rw [hb, ih]
    cases bodyItemFindReg b rid <;> rfl

theorem regionParaPids_docMap (g : ParaE → ParaE)
    (hg : ∀ q, (g q).pid = q.pid) (d : Doc) (rid : Nat) :
    regionParaPids (docMap g d) rid = regionParaPids d rid := by
  unfold regionParaPids docMap
  simp only []
  rw [bodyFindReg_map g rid d.body]
  cases bodyFindReg d.body rid with
  | none => rfl
  | some t =>
    simp only [Option.map]
    rw [txtAll_map, List.map_map]
    apply List.map_congr_left
    intro q _
    exact hg q

theorem rowFindReg_ins (pd : Nat) (newP : ParaE) (rid : Nat) :
    ∀ cs : List Cell,
      rowFindReg ⟨cs.map (fun c => ⟨txpsIns pd newP c.paras⟩)⟩ rid =
        Option.map (txtIns pd newP) (rowFindReg ⟨cs⟩ rid)
  | [] => rfl
  | c :: cs => by
    have ih := rowFindReg_ins pd newP rid cs
    simp only [rowFindReg, List.map_cons, List.foldr_cons] at ih ⊢
    rw [findRegPs_ins pd newP c.paras rid, ih]
    cases findRegPs c.paras rid <;> rfl

theorem tableFindReg_ins (pd : Nat) (newP : ParaE) (rid : Nat) :
    ∀ rs : List Row,
      tableFindReg
          ⟨rs.map (fun r => ⟨r.cells.map (fun c => ⟨txpsIns pd newP c.paras⟩)⟩)⟩
          rid =
        Option.map (txtIns pd newP) (tableFindReg ⟨rs⟩ rid)
  | [] => rfl
  | r :: rs => by
    have ih := tableFindReg_ins pd newP rid rs
    simp only [tableFindReg, List.map_cons, List.foldr_cons] at ih ⊢
    rw [rowFindReg_ins pd newP rid r.cells, ih]
    cases rowFindReg ⟨r.cells⟩ rid <;> rfl

theorem tableFindReg_tableIns (pd : Nat) (newP : ParaE) (rid : Nat)
    (t : Table) :
    tableFindReg (tableIns pd newP t) rid =
      Option.map (txtIns pd newP) (tableFindReg t rid) :=
  tableFindReg_ins pd newP rid t.rows

theorem bodyFindReg_ins (pd : Nat) (newP : ParaE) (rid : Nat) :
    ∀ items : List BodyItem,
      bodyFindReg (bodyIns pd newP items) rid =
        Option.map (txtIns pd newP) (bodyFindReg items rid)
  | [] => rfl
  | .par (.mk p anc) :: bs => by
    have ih := bodyFindReg_ins pd newP rid bs
    have h0 : bodyItemFindReg (BodyItem.par (.mk p anc)) rid =
        findRegTs anc rid := rfl
    have h1 : bodyItemFindReg (BodyItem.par (.mk p (txsIns pd newP anc)))
        rid = Option.map (txtIns pd newP) (findRegTs anc rid) :=
      findRegTs_ins pd newP anc rid
    have h2 : bodyItemFindReg (BodyItem.par (.mk newP [])) rid =
        (none : Option TxTree) := rfl
    rw [bodyIns]
    by_cases hm : (p.pid == pd) = true
    · rw [if_pos hm]
      simp only [bodyFindReg, List.foldr_cons] at ih ⊢
      rw [ih, h0, h1, h2]
      cases findRegTs anc rid <;> rfl
    · rw [if_neg hm]
      simp only [bodyFindReg, List.foldr_cons] at ih ⊢
      rw [ih, h0, h1]
      cases findRegTs anc rid <;> rfl
  | .tab t :: bs => by
    have ih := bodyFindReg_ins pd newP rid bs
    have h0 : bodyItemFindReg (BodyItem.tab t) rid = tableFindReg t rid := rfl
    have h1 : bodyItemFindReg (BodyItem.tab (tableIns pd newP t)) rid =
        Option.map (txtIns pd newP) (tableFindReg t rid) :=
      tableFindReg_tableIns pd newP rid t
    rw [bodyIns]
    simp only [bodyFindReg, List.foldr_cons] at ih ⊢
    rw [ih, h0, h1]
    cases tableFindReg t rid <;> rfl

theorem regionParaPids_docIns (pd : Nat) (newP : ParaE) (d : Doc) (rid : Nat)
    (h : pd ∉ regionParaPids d rid) :
    regionParaPids (docIns pd newP d) rid = regionParaPids d rid := by
  unfold regionParaPids at h ⊢
  unfold docIns
  simp only []
  rw [bodyFindReg_ins pd newP rid d.body]
  cases hf : bodyFindReg d.body rid with
  | none => rfl
  | some t =>
    rw [hf] at h
    simp only [Option.map]
    rw [txtIns_noop pd newP t (by rwa [txtPids] )]

theorem runStep_accessor (tr : List Char → Option (List Char)) (d : Doc)
    (fresh pd : Nat) (A : Doc → List Nat)
    (H1 : ∀ (g : ParaE → ParaE) (d' : Doc),
      (∀ q, (g q).pid = q.pid) → A (docMap g d') = A d')
    (H2 : ∀ (pd' : Nat) (newP : ParaE) (d' : Doc),
      pd' ∉ A d' → A (docIns pd' newP d') = A d')
    (h : pd ∉ A d) : A (runStep tr d fresh pd).1 = A d := by
  cases hf : docFind d pd with
  | none => rw [runStep_none tr d fresh pd hf]
  | some p =>
    by_cases hemp : (strip (paraText p)).isEmpty = true
    · rw [runStep_some_empty tr d fresh pd p hf hemp]
    · rw [runStep_some_nonempty tr d fresh pd p hf hemp]
      unfold translateDoc
      rw [hf]
      simp only []
      cases hact : translateAct tr p with
      | skip => rfl
      | failed s pre => rfl
      | rewriteText s t =>
        apply H1
        intro q
        by_cases hq : (q.pid == pd) = true
        · simp [hq, setText_pid]
        · simp [hq]
      | insertNew s cs => exact H2 pd ⟨fresh, cs⟩ d h

theorem runPids_accessor (tr : List Char → Option (List Char))
    (A : Doc → List Nat)
    (H1 : ∀ (g : ParaE → ParaE) (d' : Doc),
      (∀ q, (g q).pid = q.pid) → A (docMap g d') = A d')
    (H2 : ∀ (pd' : Nat) (newP : ParaE) (d' : Doc),
      pd' ∉ A d' → A (docIns pd' newP d') = A d') :
    ∀ (pds : List Nat) (d : Doc) (fresh : Nat),
      (∀ pd ∈ pds, pd ∉ A d) → A (runPids tr pds d fresh).1 = A d
  | [], _, _ => fun _ => rfl
  | pd :: rest, d, fresh => fun h => by
    rw [runPids_cons]
    simp only []
    have hstep : A (runStep tr d fresh pd).1 = A d :=
      runStep_accessor tr d fresh pd A H1 H2 (h pd (by simp))
    have hrest : ∀ q ∈ rest, q ∉ A (runStep tr d fresh pd).1 := by
      intro q hq
      rw [hstep]
      exact h q (by simp [hq])
    rw [runPids_accessor tr A H1 H2 rest _ (fresh + 1) hrest, hstep]

theorem mem_docPids_iff_find (d : Doc) (pd : Nat) :
    pd ∈ docPids d ↔ (docFind d pd).isSome = true := by
  simp only [docPids, docFind, List.mem_map, List.find?_isSome, beq_iff_eq]

/-- The generic later-phase loop is pure when the units' snapshot lists are
stable accessors, pairwise disjoint, and drawn from the document's ids:
every call reads the entry document. -/
theorem unitsGo_pure (tr : List Char → Option (List Char)) :
    ∀ (us : List (Doc → List Nat)) (d : Doc) (fresh : Nat),
    (∀ u ∈ us, ∀ (g : ParaE → ParaE) (d' : Doc),
      (∀ q, (g q).pid = q.pid) → u (docMap g d') = u d') →
    (∀ u ∈ us, ∀ (pd : Nat) (newP : ParaE) (d' : Doc),
      pd ∉ u d' → u (docIns pd newP d') = u d') →
    (∀ u ∈ us, ∀ pd ∈ u d, pd ∈ docPids d) →
    ((us.map (fun u => u d)).flatten).Nodup →
    (docPids d).Nodup →
    (∀ a ∈ docPids d, a < fresh) →
    callsOf (unitsGo tr us d fresh).2.2 =
        (us.map (fun u =>
          (u d).filterMap (fun pd => (docFind d pd).bind sentOf))).flatten
    ∧ (∀ b, b < fresh → b ∉ (us.map (fun u => u d)).flatten →
        docFind (unitsGo tr us d fresh).1 b = docFind d b)
    ∧ (docPids (unitsGo tr us d fresh).1).Nodup
    ∧ (∀ a ∈ docPids (unitsGo tr us d fresh).1,
        a < (unitsGo tr us d fresh).2.1)
    ∧ fresh ≤ (unitsGo tr us d fresh).2.1
  | [], d, fresh => fun _ _ _ _ hnd hfr =>
    ⟨rfl, fun b _ _ => rfl, hnd, hfr, Nat.le_refl fresh⟩
  | u :: us, d, fresh => fun H1 H2 hsub hdisj hnd hfr => by
    simp only [List.map_cons, List.flatten_cons, List.nodup_append] at hdisj
    obtain ⟨hu_nd, hrest_nd, hu_disj⟩ := hdisj
    have hu_lt : ∀ a ∈ u d, a < fresh := fun a ha =>
      hfr a (hsub u (by simp) a ha)
    have hrun := runPids_pure tr (u d) d fresh hu_nd hu_lt hnd hfr
    have hd1 := hrun.2.1
    have hd1nd := hrun.2.2.1
    have hd1fr := hrun.2.2.2.1
    have hfr1 := hrun.2.2.2.2
    have hustab : ∀ u' ∈ us, u' (runPids tr (u d) d fresh).1 = u' d := by
      intro u' hu'
      apply runPids_accessor tr u' (H1 u' (by simp [hu'])) (H2 u' (by simp [hu']))
      intro pd hpd hmem
      exact hu_disj hpd (by
        simp only [List.mem_flatten, List.mem_map]
        exact ⟨u' d, ⟨u', hu', rfl⟩, hmem⟩)
    have hfind1 : ∀ u' ∈ us, ∀ pd ∈ u' d,
        docFind (runPids tr (u d) d fresh).1 pd = docFind d pd := by
      intro u' hu' pd hpd
      apply hd1
      · exact hfr pd (hsub u' (by simp [hu']) pd hpd)
      · intro hmem
        exact hu_disj hmem (by
          simp only [List.mem_flatten, List.mem_map]
          exact ⟨u' d, ⟨u', hu', rfl⟩, hpd⟩)
    have hsub1 : ∀ u' ∈ us, ∀ pd ∈ u' (runPids tr (u d) d fresh).1,
        pd ∈ docPids (runPids tr (u d) d fresh).1 := by
      intro u' hu' pd hpd
      rw [hustab u' hu'] at hpd
      rw [mem_docPids_iff_find, hfind1 u' hu' pd hpd,
        ← mem_docPids_iff_find]
      exact hsub u' (by simp [hu']) pd hpd
    have hmapstab : us.map (fun u' => u' (runPids tr (u d) d fresh).1) =
        us.map (fun u' => u' d) :=
      List.map_congr_left (fun u' hu' => hustab u' hu')
    have hdisj1 :
        ((us.map (fun u' => u' (runPids tr (u d) d fresh).1)).flatten).Nodup := by
      rw [hmapstab]
      exact hrest_nd
    have hih := unitsGo_pure tr us (runPids tr (u d) d fresh).1
      (runPids tr (u d) d fresh).2.1
      (fun u' hu' => H1 u' (by simp [hu']))
      (fun u' hu' => H2 u' (by simp [hu']))
      hsub1 hdisj1 hd1nd hd1fr
    simp only [unitsGo]
    refine ⟨?_, ?_, hih.2.2.1, hih.2.2.2.1, ?_⟩
    · simp only [callsOf, List.filterMap_append, List.map_cons,
        List.flatten_cons]
      have hc1 := hrun.1
      simp only [callsOf] at hc1
      rw [hc1]
      have hc2 := hih.1
      simp only [callsOf] at hc2
      rw [hc2]
      congr 1
      apply congrArg List.flatten
      apply List.map_congr_left
      intro u' hu'
      rw [hustab u' hu']
      apply List.filterMap_congr
      intro pd hpd
      rw [hfind1 u' hu' pd hpd]
    · intro b hblt hbmem
      simp only [List.map_cons, List.flatten_cons, List.mem_append] at hbmem
      push_neg at hbmem
      have hb2 : b ∉ (us.map
          (fun u' => u' (runPids tr (u d) d fresh).1)).flatten := by
        rw [hmapstab]
        exact hbmem.2
      rw [hih.2.1 b (Nat.lt_of_lt_of_le hblt hfr1) hb2]
      exact hd1 b hblt hbmem.1
    · exact Nat.le_trans hfr1 hih.2.2.2.2

mutual
theorem regT_map (g : ParaE → ParaE) : ∀ t : TxTree, regT (txtMap g t) = regT t
  | .node rid ps => by rw [txtMap, regT, regT, regPs_map g ps]
theorem regPs_map (g : ParaE → ParaE) :
    ∀ l : List TxPara, regPs (txpsMap g l) = regPs l
  | [] => rfl
  | .mk p anc :: qs => by
    rw [txpsMap, txpMap, regPs, regPs, regTs_map g anc, regPs_map g qs]
theorem regTs_map (g : ParaE → ParaE) :
    ∀ l : List TxTree, regTs (txsMap g l) = regTs l
  | [] => rfl
  | t :: ts => by rw [txsMap, regTs, regTs, regT_map g t, regTs_map g ts]
end

mutual
theorem regT_ins (pd : Nat) (newP : ParaE) :
    ∀ t : TxTree, regT (txtIns pd newP t) = regT t
  | .node rid ps => by rw [txtIns, regT, regT, regPs_ins pd newP ps]
theorem regPs_ins (pd : Nat) (newP : ParaE) :
    ∀ l : List TxPara, regPs (txpsIns pd newP l) = regPs l
  | [] => rfl
  | .mk p anc :: qs => by
    rw [txpsIns]
    by_cases hm : (p.pid == pd) = true
    · rw [if_pos hm, regPs, regPs, regPs, regTs_ins pd newP anc,
        regPs_ins pd newP qs,
        show regTs ([] : List TxTree) = [] from rfl, List.nil_append]
    · rw [if_neg hm, regPs, regPs, regTs_ins pd newP anc, regPs_ins pd newP qs]
theorem regTs_ins (pd : Nat) (newP : ParaE) :
    ∀ l : List TxTree, regTs (txsIns pd newP l) = regTs l
  | [] => rfl
  | t :: ts => by rw [txsIns, regTs, regTs, regT_ins pd newP t,
      regTs_ins pd newP ts]
end

theorem bodyRegionIds_cons_par (p : ParaE) (anc : List TxTree)
    (items : List BodyItem) :
    bodyRegionIds (.par (.mk p anc) :: items) =
      regTs anc ++ bodyRegionIds items := rfl

theorem bodyRegionIds_cons_tab (t : Table) (items : List BodyItem) :
    bodyRegionIds (.tab t :: items) =
      (t.rows.map (fun r =>
        (r.cells.map (fun c => regPs c.paras)).flatten)).flatten ++
      bodyRegionIds items := rfl

theorem bodyRegionIds_map (g : ParaE → ParaE) :
    ∀ items : List BodyItem,
      bodyRegionIds (items.map (bodyItemMap g)) = bodyRegionIds items
  | [] => rfl
  | .par (.mk p anc) :: bs => by
    rw [List.map_cons]
    rw [show bodyItemMap g (.par (.mk p anc)) =
      .par (.mk (g p) (txsMap g anc)) from rfl]
    rw [bodyRegionIds_cons_par, bodyRegionIds_cons_par, regTs_map g anc,
      bodyRegionIds_map g bs]
  | .tab t :: bs => by
    rw [List.map_cons]
    rw [show bodyItemMap g (.tab t) = .tab (tableMap g t) from rfl]
    rw [bodyRegionIds_cons_tab, bodyRegionIds_cons_tab, bodyRegionIds_map g bs]
    congr 1
    show ((t.rows.map (fun r =>
      (⟨r.cells.map (fun c => (⟨txpsMap g c.paras⟩ : Cell))⟩ : Row))).map
        (fun r => (r.cells.map (fun c => regPs c.paras)).flatten)).flatten = _
    rw [List.map_map]
    apply congrArg List.flatten
    apply List.map_congr_left
    intro r _
    show ((r.cells.map (fun c => (⟨txpsMap g c.paras⟩ : Cell))).map
      (fun c => regPs c.paras)).flatten = _
    rw [List.map_map]
    apply congrArg List.flatten
    apply List.map_congr_left
    intro c _
    exact regPs_map g c.paras

theorem bodyRegionIds_ins (pd : Nat) (newP : ParaE) :
    ∀ items : List BodyItem,
      bodyRegionIds (bodyIns pd newP items) = bodyRegionIds items
  | [] => rfl
  | .par (.mk p anc) :: bs => by
    rw [bodyIns]
    by_cases hm : (p.pid == pd) = true
    · rw [if_pos hm, bodyRegionIds_cons_par, bodyRegionIds_cons_par,
        bodyRegionIds_cons_par, bodyRegionIds_ins pd newP bs,
        regTs_ins pd newP anc,
        show regTs ([] : List TxTree) = [] from rfl, List.nil_append]
    · rw [if_neg hm, bodyRegionIds_cons_par, bodyRegionIds_cons_par,
        bodyRegionIds_ins pd newP bs, regTs_ins pd newP anc]
  | .tab t :: bs => by
    rw [bodyIns, bodyRegionIds_cons_tab, bodyRegionIds_cons_tab,
      bodyRegionIds_ins pd newP bs]
    congr 1
    show ((t.rows.map (fun r =>
      (⟨r.cells.map (fun c => (⟨txpsIns pd newP c.paras⟩ : Cell))⟩ : Row))).map
        (fun r => (r.cells.map (fun c => regPs c.paras)).flatten)).flatten = _
    rw [List.map_map]
    apply congrArg List.flatten
    apply List.map_congr_left
    intro r _
    show ((r.cells.map (fun c => (⟨txpsIns pd newP c.paras⟩ : Cell))).map
      (fun c => regPs c.paras)).flatten = _
    rw [List.map_map]
    apply congrArg List.flatten
    apply List.map_congr_left
    intro c _
    exact regPs_ins pd newP c.paras

theorem all_congr' (l : List α) (p q : α → Bool) (h : ∀ a ∈ l, p a = q a) :
    l.all p = l.all q := by
  induction l with
  | nil => rfl
  | cons x xs ih =>
    simp only [List.all_cons]
    rw [h x (by simp), ih (fun a ha => h a (by simp [ha]))]

theorem txsMap_isEmpty (g : ParaE → ParaE) (l : List TxTree) :
    (txsMap g l).isEmpty = l.isEmpty := by
  cases l <;> rfl

theorem txpsMap_allEmpty (g : ParaE → ParaE) :
    ∀ ps : List TxPara,
      ((txpsMap g ps).all (fun q => q.anchored.isEmpty)) =
        (ps.all (fun q => q.anchored.isEmpty))
  | [] => rfl
  | .mk p anc :: qs => by
    rw [txpsMap, txpMap]
    simp only [List.all_cons]
    rw [txpsMap_allEmpty g qs]
    congr 1
    exact txsMap_isEmpty g anc

theorem treeFlat_txtMap (g : ParaE → ParaE) :
    ∀ t : TxTree, treeFlat (txtMap g t) = treeFlat t
  | .node rid ps => by rw [txtMap, treeFlat, treeFlat, txpsMap_allEmpty g ps]

theorem txsMap_allFlat (g : ParaE → ParaE) :
    ∀ l : List TxTree, (txsMap g l).all treeFlat = l.all treeFlat
  | [] => rfl
  | t :: ts => by
    rw [txsMap]
    simp only [List.all_cons]
    rw [treeFlat_txtMap g t, txsMap_allFlat g ts]

theorem txParaFlat_txpMap (g : ParaE → ParaE) :
    ∀ q : TxPara, txParaFlat (txpMap g q) = txParaFlat q
  | .mk p anc => txsMap_allFlat g anc

theorem txpsMap_allParaFlat (g : ParaE → ParaE) :
    ∀ l : List TxPara, (txpsMap g l).all txParaFlat = l.all txParaFlat
  | [] => rfl
  | q :: qs => by
    rw [txpsMap]
    simp only [List.all_cons]
    rw [txParaFlat_txpMap g q, txpsMap_allParaFlat g qs]

theorem bodyItemFlat_map (g : ParaE → ParaE) :
    ∀ b : BodyItem, bodyItemFlat (bodyItemMap g b) = bodyItemFlat b
  | .par q => txParaFlat_txpMap g q
  | .tab t => by
    show ((t.rows.map (fun r =>
      (⟨r.cells.map (fun c => (⟨txpsMap g c.paras⟩ : Cell))⟩ : Row))).all
        (fun r => r.cells.all (fun c => c.paras.all txParaFlat))) = _
    rw [List.all_map]
    apply all_congr'
    intro r _
    show ((r.cells.map (fun c => (⟨txpsMap g c.paras⟩ : Cell))).all
      (fun c => c.paras.all txParaFlat)) = _
    rw [List.all_map]
    apply all_congr'
    intro c _
    exact txpsMap_allParaFlat g c.paras

theorem docNoNested_docMap (g : ParaE → ParaE) (d : Doc) :
    docNoNested (docMap g d) = docNoNested d := by
  unfold docNoNested docMap
  simp only []
  rw [List.all_map]
  apply all_congr'
  intro b _
  show bodyItemFlat (bodyItemMap g b) = bodyItemFlat b
  exact bodyItemFlat_map g b

theorem txsIns_isEmpty_of (pd : Nat) (newP : ParaE) (l : List TxTree)
    (h : l.isEmpty = true) : (txsIns pd newP l).isEmpty = true := by
  cases l with
  | nil => rfl
  | cons t ts => simp [List.isEmpty] at h

theorem txpsIns_allEmpty (pd : Nat) (newP : ParaE) :
    ∀ ps : List TxPara,
      (ps.all (fun q => q.anchored.isEmpty)) = true →
      ((txpsIns pd newP ps).all (fun q => q.anchored.isEmpty)) = true
  | [] => fun _ => rfl
  | .mk p anc :: qs => fun h => by
    simp only [List.all_cons, Bool.and_eq_true] at h
    obtain ⟨h1, h2⟩ := h
    rw [txpsIns]
    by_cases hm : (p.pid == pd) = true
    · rw [if_pos hm]
      simp only [List.all_cons, Bool.and_eq_true]
      exact ⟨txsIns_isEmpty_of pd newP anc h1, rfl,
        txpsIns_allEmpty pd newP qs h2⟩
    · rw [if_neg hm]
      simp only [List.all_cons, Bool.and_eq_true]
      exact ⟨txsIns_isEmpty_of pd newP anc h1,
        txpsIns_allEmpty pd newP qs h2⟩

theorem treeFlat_txtIns (pd : Nat) (newP : ParaE) :
    ∀ t : TxTree, treeFlat t = true → treeFlat (txtIns pd newP t) = true
  | .node rid ps => fun h => by
    rw [treeFlat] at h
    rw [txtIns, treeFlat]
    exact txpsIns_allEmpty pd newP ps h

theorem txsIns_allFlat (pd : Nat) (newP : ParaE) :
    ∀ l : List TxTree,
      l.all treeFlat = true → (txsIns pd newP l).all treeFlat = true
  | [] => fun _ => rfl
  | t :: ts => fun h => by
    simp only [List.all_cons, Bool.and_eq_true] at h
    rw [txsIns]
    simp only [List.all_cons, Bool.and_eq_true]
    exact ⟨treeFlat_txtIns pd newP t h.1, txsIns_allFlat pd newP ts h.2⟩

theorem txpsIns_allParaFlat (pd : Nat) (newP : ParaE) :
    ∀ l : List TxPara,
      l.all txParaFlat = true → (txpsIns pd newP l).all txParaFlat = true
  | [] => fun _ => rfl
  | .mk p anc :: qs => fun h => by
    simp only [List.all_cons, Bool.and_eq_true] at h
    rw [txpsIns]
    by_cases hm : (p.pid == pd) = true
    · rw [if_pos hm]
      simp only [List.all_cons, Bool.and_eq_true]
      exact ⟨txsIns_allFlat pd newP anc h.1, rfl,
        txpsIns_allParaFlat pd newP qs h.2⟩
    · rw [if_neg hm]
      simp only [List.all_cons, Bool.and_eq_true]
      exact ⟨txsIns_allFlat pd newP anc h.1,
        txpsIns_allParaFlat pd newP qs h.2⟩

theorem bodyIns_allFlat (pd : Nat) (newP : ParaE) :
    ∀ items : List BodyItem,
      items.all bodyItemFlat = true →
      (bodyIns pd newP items).all bodyItemFlat = true
  | [] => fun _ => rfl
  | .par (.mk p anc) :: bs => fun h => by
    simp only [List.all_cons, Bool.and_eq_true] at h
    rw [bodyIns]
    by_cases hm : (p.pid == pd) = true
    · rw [if_pos hm]
      simp only [List.all_cons, Bool.and_eq_true]
      exact ⟨txsIns_allFlat pd newP anc h.1, rfl,
        bodyIns_allFlat pd newP bs h.2⟩
    · rw [if_neg hm]
      simp only [List.all_cons, Bool.and_eq_true]
      exact ⟨txsIns_allFlat pd newP anc h.1, bodyIns_allFlat pd newP bs h.2⟩
  | .tab t :: bs => fun h => by
    simp only [List.all_cons, Bool.and_eq_true] at h
    rw [bodyIns]
    simp only [List.all_cons, Bool.and_eq_true]
    refine ⟨?_, bodyIns_allFlat pd newP bs h.2⟩
    have h1 : t.rows.all (fun r =>
      r.cells.all (fun c => c.paras.all txParaFlat)) = true := h.1
    show ((t.rows.map (fun r =>
      (⟨r.cells.map (fun c => (⟨txpsIns pd newP c.paras⟩ : Cell))⟩ : Row))).all
        (fun r => r.cells.all (fun c => c.paras.all txParaFlat))) = true
    rw [List.all_map, List.all_eq_true]
    intro r hr
    show ((r.cells.map (fun c => (⟨txpsIns pd newP c.paras⟩ : Cell))).all
      (fun c => c.paras.all txParaFlat)) = true
    rw [List.all_map, List.all_eq_true]
    intro c hc
    show (txpsIns pd newP c.paras).all txParaFlat = true
    apply txpsIns_allParaFlat
    rw [List.all_eq_true] at h1
    have hrow := h1 r hr
    rw [List.all_eq_true] at hrow
    exact hrow c hc

theorem docNoNested_docIns (pd : Nat) (newP : ParaE) (d : Doc)
    (h : docNoNested d = true) : docNoNested (docIns pd newP d) = true := by
  unfold docNoNested at h ⊢
  unfold docIns
  simp only []
  exact bodyIns_allFlat pd newP d.body h

theorem runStep_accessor_u {α : Type} (tr : List Char → Option (List Char))
    (d : Doc) (fresh pd : Nat) (A : Doc → α)
    (H1 : ∀ (g : ParaE → ParaE) (d' : Doc),
      (∀ q, (g q).pid = q.pid) → A (docMap g d') = A d')
    (H2 : ∀ (pd' : Nat) (newP : ParaE) (d' : Doc),
      A (docIns pd' newP d') = A d') :
    A (runStep tr d fresh pd).1 = A d := by
  cases hf : docFind d pd with
  | none => rw [runStep_none tr d fresh pd hf]
  | some p =>
    by_cases hemp : (strip (paraText p)).isEmpty = true
    · rw [runStep_some_empty tr d fresh pd p hf hemp]
    · rw [runStep_some_nonempty tr d fresh pd p hf hemp]
      unfold translateDoc
      rw [hf]
      simp only []
      cases hact : translateAct tr p with
      | skip => rfl
      | failed s pre => rfl
      | rewriteText s t =>
        apply H1
        intro q
        by_cases hq : (q.pid == pd) = true
        · simp [hq, setText_pid]
        · simp [hq]
      | insertNew s cs => exact H2 pd ⟨fresh, cs⟩ d

theorem runPids_accessor_u {α : Type} (tr : List Char → Option (List Char))
    (A : Doc → α)
    (H1 : ∀ (g : ParaE → ParaE) (d' : Doc),
      (∀ q, (g q).pid = q.pid) → A (docMap g d') = A d')
    (H2 : ∀ (pd' : Nat) (newP : ParaE) (d' : Doc),
      A (docIns pd' newP d') = A d') :
    ∀ (pds : List Nat) (d : Doc) (fresh : Nat),
      A (runPids tr pds d fresh).1 = A d
  | [], _, _ => rfl
  | pd :: rest, d, fresh => by
    rw [runPids_cons]
    simp only []
    rw [runPids_accessor_u tr A H1 H2 rest _ (fresh + 1),
      runStep_accessor_u tr d fresh pd A H1 H2]

theorem unitsGo_accessor_u {α : Type} (tr : List Char → Option (List Char))
    (A : Doc → α)
    (H1 : ∀ (g : ParaE → ParaE) (d' : Doc),
      (∀ q, (g q).pid = q.pid) → A (docMap g d') = A d')
    (H2 : ∀ (pd' : Nat) (newP : ParaE) (d' : Doc),
      A (docIns pd' newP d') = A d') :
    ∀ (us : List (Doc → List Nat)) (d : Doc) (fresh : Nat),
      A (unitsGo tr us d fresh).1 = A d
  | [], _, _ => rfl
  | u :: us, d, fresh => by
    simp only [unitsGo]
    rw [unitsGo_accessor_u tr A H1 H2 us _ _,
      runPids_accessor_u tr A H1 H2 (u d) d fresh]

theorem runStep_pres (tr : List Char → Option (List Char)) (d : Doc)
    (fresh pd : Nat) (P : Doc → Bool)
    (H1 : ∀ (g : ParaE → ParaE) (d' : Doc),
      (∀ q, (g q).pid = q.pid) → P (docMap g d') = P d')
    (H2 : ∀ (pd' : Nat) (newP : ParaE) (d' : Doc),
      P d' = true → P (docIns pd' newP d') = true)
    (h : P d = true) : P (runStep tr d fresh pd).1 = true := by
  cases hf : docFind d pd with
  | none => rw [runStep_none tr d fresh pd hf]; exact h
  | some p =>
    by_cases hemp : (strip (paraText p)).isEmpty = true
    · rw [runStep_some_empty tr d fresh pd p hf hemp]; exact h
    · rw [runStep_some_nonempty tr d fresh pd p hf hemp]
      unfold translateDoc
      rw [hf]
      simp only []
      cases hact : translateAct tr p with
      | skip => exact h
      | failed s pre => exact h
      | rewriteText s t =>
        rw [H1 _ d ?_]
        · exact h
        · intro q
          by_cases hq : (q.pid == pd) = true
          · simp [hq, setText_pid]
          · simp [hq]
      | insertNew s cs => exact H2 pd ⟨fresh, cs⟩ d h

theorem runPids_pres (tr : List Char → Option (List Char)) (P : Doc → Bool)
    (H1 : ∀ (g : ParaE → ParaE) (d' : Doc),
      (∀ q, (g q).pid = q.pid) → P (docMap g d') = P d')
    (H2 : ∀ (pd' : Nat) (newP : ParaE) (d' : Doc),
      P d' = true → P (docIns pd' newP d') = true) :
    ∀ (pds : List Nat) (d : Doc) (fresh : Nat),
      P d = true → P (runPids tr pds d fresh).1 = true
  | [], _, _ => fun h => h
  | pd :: rest, d, fresh => fun h => by
    rw [runPids_cons]
    simp only []
    exact runPids_pres tr P H1 H2 rest _ (fresh + 1)
      (runStep_pres tr d fresh pd P H1 H2 h)

theorem unitsGo_pres (tr : List Char → Option (List Char)) (P : Doc → Bool)
    (H1 : ∀ (g : ParaE → ParaE) (d' : Doc),
      (∀ q, (g q).pid = q.pid) → P (docMap g d') = P d')
    (H2 : ∀ (pd' : Nat) (newP : ParaE) (d' : Doc),
      P d' = true → P (docIns pd' newP d') = true) :
    ∀ (us : List (Doc → List Nat)) (d : Doc) (fresh : Nat),
      P d = true → P (unitsGo tr us d fresh).1 = true
  | [], _, _ => fun h => h
  | u :: us, d, fresh => fun h => by
    simp only [unitsGo]
    exact unitsGo_pres tr P H1 H2 us _ _
      (runPids_pres tr P H1 H2 (u d) d fresh h)

/-- The body's region-id list, as a document accessor. -/
theorem bodyRegionIds_docMap (g : ParaE → ParaE) (d : Doc) :
    bodyRegionIds (docMap g d).body = bodyRegionIds d.body := by
  unfold docMap
  simp only []
  exact bodyRegionIds_map g d.body

theorem bodyRegionIds_docIns (pd : Nat) (newP : ParaE) (d : Doc) :
    bodyRegionIds (docIns pd newP d).body = bodyRegionIds d.body := by
  unfold docIns
  simp only []
  exact bodyRegionIds_ins pd newP d.body

theorem pids_filterMap_sent (d : Doc) (hnd : (docPids d).Nodup)
    (l : List ParaE) (hl : ∀ q ∈ l, q ∈ docAllParas d) :
    (l.map ParaE.pid).filterMap (fun pd => (docFind d pd).bind sentOf) =
      l.filterMap sentOf := by
  rw [List.filterMap_map]
  apply List.filterMap_congr
  intro q hq
  show (docFind d q.pid).bind sentOf = sentOf q
  rw [docFind_self d q hnd (hl q hq)]
  rfl

/-- Step 2 (`process_paragraph_list(doc.paragraphs)`): the calls are the
top-level body paragraphs' texts in document order, and id uniqueness and
boundedness are preserved. -/
theorem bodyPhase_facts (tr : List Char → Option (List Char)) (d : Doc)
    (fresh : Nat) (hnd : (docPids d).Nodup)
    (hfr : ∀ a ∈ docPids d, a < fresh) :
    callsOf (bodyPhase tr d fresh).2.2 = claimedBodyCalls d
    ∧ (docPids (bodyPhase tr d fresh).1).Nodup
    ∧ (∀ a ∈ docPids (bodyPhase tr d fresh).1, a < (bodyPhase tr d fresh).2.1)
    ∧ fresh ≤ (bodyPhase tr d fresh).2.1 := by
  unfold bodyPhase
  have hsub := docTopBodyParas_sublist d
  have hpds_sub : List.Sublist ((docTopBodyParas d).map ParaE.pid)
      (docPids d) := List.Sublist.map ParaE.pid hsub
  have hpnd : ((docTopBodyParas d).map ParaE.pid).Nodup :=
    List.Nodup.sublist hpds_sub hnd
  have hplt : ∀ pd ∈ (docTopBodyParas d).map ParaE.pid, pd < fresh :=
    fun pd hpd => hfr pd (hpds_sub.subset hpd)
  have h := runPids_pure tr _ d fresh hpnd hplt hnd hfr
  refine ⟨?_, h.2.2.1, h.2.2.2.1, h.2.2.2.2⟩
  rw [h.1]
  exact pids_filterMap_sent d hnd (docTopBodyParas d)
    (fun q hq => hsub.subset hq)

theorem sectionHdrPids_zero (b : List BodyItem) (s : Section)
    (ss : List Section) :
    sectionHdrPids ⟨b, s :: ss⟩ 0 = s.hdr.map ParaE.pid := by
  unfold sectionHdrPids
  rw [List.getElem?_cons_zero]

theorem sectionFtrPids_zero (b : List BodyItem) (s : Section)
    (ss : List Section) :
    sectionFtrPids ⟨b, s :: ss⟩ 0 = s.ftr.map ParaE.pid := by
  unfold sectionFtrPids
  rw [List.getElem?_cons_zero]

theorem sectionHdrPids_succ (b : List BodyItem) (s : Section)
    (ss : List Section) (j : Nat) :
    sectionHdrPids ⟨b, s :: ss⟩ (j + 1) = sectionHdrPids ⟨b, ss⟩ j := by
  unfold sectionHdrPids
  rw [List.getElem?_cons_succ]

theorem sectionFtrPids_succ (b : List BodyItem) (s : Section)
    (ss : List Section) (j : Nat) :
    sectionFtrPids ⟨b, s :: ss⟩ (j + 1) = sectionFtrPids ⟨b, ss⟩ j := by
  unfold sectionFtrPids
  rw [List.getElem?_cons_succ]

theorem sectionUnits_shift {β : Type} (V : List Nat → List β)
    (b : List BodyItem) (s : Section) (ss : List Section) :
    ∀ js : List Nat,
      ((sectionUnits (js.map Nat.succ)).map
        (fun u => V (u ⟨b, s :: ss⟩))).flatten =
      ((sectionUnits js).map (fun u => V (u ⟨b, ss⟩))).flatten
  | [] => rfl
  | j :: js => by
    show V (sectionHdrPids ⟨b, s :: ss⟩ (j + 1)) ++
      (V (sectionFtrPids ⟨b, s :: ss⟩ (j + 1)) ++
        ((sectionUnits (js.map Nat.succ)).map
          (fun u => V (u ⟨b, s :: ss⟩))).flatten) =
      V (sectionHdrPids ⟨b, ss⟩ j) ++
      (V (sectionFtrPids ⟨b, ss⟩ j) ++
        ((sectionUnits js).map (fun u => V (u ⟨b, ss⟩))).flatten)
    rw [sectionHdrPids_succ, sectionFtrPids_succ,
      sectionUnits_shift V b s ss js]

theorem sectionUnits_vals_aux {β : Type} (V : List Nat → List β)
    (b : List BodyItem) :
    ∀ ss : List Section,
      ((sectionUnits (List.range ss.length)).map
        (fun u => V (u ⟨b, ss⟩))).flatten =
      (ss.map (fun s =>
        V (s.hdr.map ParaE.pid) ++ V (s.ftr.map ParaE.pid))).flatten
  | [] => rfl
  | s :: ss => by
    rw [List.length_cons, List.range_succ_eq_map]
    show V (sectionHdrPids ⟨b, s :: ss⟩ 0) ++
      (V (sectionFtrPids ⟨b, s :: ss⟩ 0) ++
        ((sectionUnits ((List.range ss.length).map Nat.succ)).map
          (fun u => V (u ⟨b, s :: ss⟩))).flatten) = _
    rw [sectionUnits_shift V b s ss (List.range ss.length),
      sectionUnits_vals_aux V b ss, sectionHdrPids_zero, sectionFtrPids_zero,
      List.map_cons, List.flatten_cons, List.append_assoc]

theorem sectionUnits_vals {β : Type} (V : List Nat → List β) (d : Doc) :
    ((sectionUnits (List.range d.sections.length)).map
      (fun u => V (u d))).flatten =
    (d.sections.map (fun s =>
      V (s.hdr.map ParaE.pid) ++ V (s.ftr.map ParaE.pid))).flatten := by
  cases d with
  | mk body sections => exact sectionUnits_vals_aux V body sections

theorem sectionParas_sublist (d : Doc) :
    List.Sublist ((d.sections.map (fun s => s.hdr ++ s.ftr)).flatten)
      (docAllParas d) := by
  unfold docAllParas
  exact List.sublist_append_right _ _

theorem section_para_mem (d : Doc) (s : Section) (hs : s ∈ d.sections)
    (q : ParaE) (hq : q ∈ s.hdr ++ s.ftr) : q ∈ docAllParas d := by
  apply (sectionParas_sublist d).subset
  rw [List.mem_flatten]
  exact ⟨s.hdr ++ s.ftr, List.mem_map_of_mem _ hs, hq⟩

theorem sectionHdrPids_sub (d : Doc) (j : Nat) :
    ∀ pd ∈ sectionHdrPids d j, pd ∈ docPids d := by
  intro pd hpd
  unfold sectionHdrPids at hpd
  cases hj : d.sections[j]? with
  | none => rw [hj] at hpd; simp at hpd
  | some s =>
    rw [hj] at hpd
    rw [List.mem_map] at hpd
    obtain ⟨q, hq, rfl⟩ := hpd
    exact List.mem_map_of_mem _ (section_para_mem d s
      (List.getElem?_mem hj) q (by simp [hq]))

theorem sectionFtrPids_sub (d : Doc) (j : Nat) :
    ∀ pd ∈ sectionFtrPids d j, pd ∈ docPids d := by
  intro pd hpd
  unfold sectionFtrPids at hpd
  cases hj : d.sections[j]? with
  | none => rw [hj] at hpd; simp at hpd
  | some s =>
    rw [hj] at hpd
    rw [List.mem_map] at hpd
    obtain ⟨q, hq, rfl⟩ := hpd
    exact List.mem_map_of_mem _ (section_para_mem d s
      (List.getElem?_mem hj) q (by simp [hq]))

theorem sectionUnits_mem (js : List Nat) (u : Doc → List Nat)
    (hu : u ∈ sectionUnits js) :
    ∃ j ∈ js, u = (fun d => sectionHdrPids d j) ∨
      u = (fun d => sectionFtrPids d j) := by
  unfold sectionUnits at hu
  rw [List.mem_flatten] at hu
  obtain ⟨l, hl, hul⟩ := hu
  rw [List.mem_map] at hl
  obtain ⟨j, hj, rfl⟩ := hl
  simp only [List.mem_cons, List.mem_singleton] at hul
  rcases hul with h | h | h
  · exact ⟨j, hj, Or.inl h⟩
  · exact ⟨j, hj, Or.inr h⟩
  · simp at h

theorem docPids_split (d : Doc) :
    docPids d = ((d.body.map bodyItemAll).flatten).map ParaE.pid ++
      ((d.sections.map (fun s => s.hdr ++ s.ftr)).flatten).map ParaE.pid := by
  unfold docPids docAllParas
  rw [List.map_append]

theorem sectionPids_flatten (d : Doc) :
    ((d.sections.map (fun s => s.hdr ++ s.ftr)).flatten).map ParaE.pid =
      (d.sections.map (fun s =>
        s.hdr.map ParaE.pid ++ s.ftr.map ParaE.pid)).flatten := by
  rw [List.map_flatten, List.map_map]
  apply congrArg List.flatten
  apply List.map_congr_left
  intro s _
  show (s.hdr ++ s.ftr).map ParaE.pid = _
  rw [List.map_append]

/-- Step 3 (headers then footers, per section): the calls are the section
paragraphs' texts in document order, and id uniqueness and boundedness are
preserved. -/
theorem sectionsPhase_facts (tr : List Char → Option (List Char)) (d : Doc)
    (fresh : Nat) (hnd : (docPids d).Nodup)
    (hfr : ∀ a ∈ docPids d, a < fresh) :
    callsOf (sectionsPhase tr d fresh).2.2 = claimedSectionCalls d
    ∧ (docPids (sectionsPhase tr d fresh).1).Nodup
    ∧ (∀ a ∈ docPids (sectionsPhase tr d fresh).1,
        a < (sectionsPhase tr d fresh).2.1)
    ∧ fresh ≤ (sectionsPhase tr d fresh).2.1 := by
  unfold sectionsPhase
  rw [sectionsGo_as_units]
  have hH1 : ∀ u ∈ sectionUnits (List.range d.sections.length),
      ∀ (g : ParaE → ParaE) (d' : Doc),
        (∀ q, (g q).pid = q.pid) → u (docMap g d') = u d' := by
    intro u hu g d' hg
    obtain ⟨j, _, hc⟩ := sectionUnits_mem _ u hu
    rcases hc with rfl | rfl
    · exact sectionHdrPids_docMap g hg d' j
    · exact sectionFtrPids_docMap g hg d' j
  have hH2 : ∀ u ∈ sectionUnits (List.range d.sections.length),
      ∀ (pd : Nat) (newP : ParaE) (d' : Doc),
        pd ∉ u d' → u (docIns pd newP d') = u d' := by
    intro u hu pd newP d' hpd
    obtain ⟨j, _, hc⟩ := sectionUnits_mem _ u hu
    rcases hc with rfl | rfl
    · exact sectionHdrPids_docIns pd newP d' j hpd
    · exact sectionFtrPids_docIns pd newP d' j hpd
  have hsub : ∀ u ∈ sectionUnits (List.range d.sections.length),
      ∀ pd ∈ u d, pd ∈ docPids d := by
    intro u hu pd hpd
    obtain ⟨j, _, hc⟩ := sectionUnits_mem _ u hu
    rcases hc with rfl | rfl
    · exact sectionHdrPids_sub d j pd hpd
    · exact sectionFtrPids_sub d j pd hpd
  have hflat_eq : ((sectionUnits (List.range d.sections.length)).map
      (fun u => u d)).flatten =
      (d.sections.map (fun s =>
        s.hdr.map ParaE.pid ++ s.ftr.map ParaE.pid)).flatten :=
    sectionUnits_vals (fun l => l) d
  have hdisj : (((sectionUnits (List.range d.sections.length)).map
      (fun u => u d)).flatten).Nodup := by
    rw [hflat_eq, ← sectionPids_flatten]
    have := hnd
    rw [docPids_split d] at this
    exact this.of_append_right
  have h := unitsGo_pure tr (sectionUnits (List.range d.sections.length))
    d fresh hH1 hH2 hsub hdisj hnd hfr
  refine ⟨?_, h.2.2.1, h.2.2.2.1, h.2.2.2.2⟩
  rw [h.1]
  rw [sectionUnits_vals
    (fun l => l.filterMap (fun pd => (docFind d pd).bind sentOf)) d]
  unfold claimedSectionCalls
  apply congrArg List.flatten
  apply List.map_congr_left
  intro s hs
  have hhdr : (s.hdr.map ParaE.pid).filterMap
      (fun pd => (docFind d pd).bind sentOf) = s.hdr.filterMap sentOf :=
    pids_filterMap_sent d hnd s.hdr
      (fun q hq => section_para_mem d s hs q (by simp [hq]))
  have hftr : (s.ftr.map ParaE.pid).filterMap
      (fun pd => (docFind d pd).bind sentOf) = s.ftr.filterMap sentOf :=
    pids_filterMap_sent d hnd s.ftr
      (fun q hq => section_para_mem d s hs q (by simp [hq]))
  show (s.hdr.map ParaE.pid).filterMap
      (fun pd => (docFind d pd).bind sentOf) ++
    (s.ftr.map ParaE.pid).filterMap
      (fun pd => (docFind d pd).bind sentOf) = _
  rw [hhdr, hftr]

theorem enumFrom_mem_get {α : Type} :
    ∀ (l : List α) (k : Nat) (ip : Nat × α), ip ∈ l.enumFrom k →
      l[ip.1 - k]? = some ip.2 ∧ k ≤ ip.1
  | [], _, _ => by simp [List.enumFrom]
  | a :: as, k, ip => fun h => by
    simp only [List.enumFrom, List.mem_cons] at h
    rcases h with rfl | h
    · refine ⟨?_, Nat.le_refl k⟩
      show (a :: as)[k - k]? = some a
      rw [Nat.sub_self, List.getElem?_cons_zero]
    · obtain ⟨h1, h2⟩ := enumFrom_mem_get as (k + 1) ip h
      refine ⟨?_, by omega⟩
      have hk : ip.1 - k = (ip.1 - (k + 1)) + 1 := by omega
      rw [hk, List.getElem?_cons_succ]
      exact h1

theorem enum_mem_get {α : Type} (l : List α) (ip : Nat × α)
    (h : ip ∈ l.enum) : l[ip.1]? = some ip.2 := by
  have h2 := enumFrom_mem_get l 0 ip h
  simpa using h2.1

theorem enum_map_snd_f {α β : Type} (H : α → β) (l : List α) :
    l.enum.map (fun ip => H ip.2) = l.map H := by
  have he : (fun ip : Nat × α => H ip.2) = H ∘ Prod.snd := rfl
  rw [he, ← List.map_map, List.enum_map_snd]

theorem flatten_map_flatten {α β : Type} (f : α → List β) :
    ∀ M : List (List α),
      ((M.flatten).map f).flatten = (M.map (fun l => (l.map f).flatten)).flatten
  | [] => rfl
  | l :: M => by
    rw [List.flatten_cons, List.map_append, List.flatten_append,
      flatten_map_flatten f M, List.map_cons, List.flatten_cons]

theorem tableTriples_vals_table {β : Type} (V : List Nat → List β) (d : Doc)
    (ti : Nat) (t : Table) (ht : (docTables d)[ti]? = some t) :
    (((t.rows.enum.map (fun rp =>
        rp.2.cells.enum.map (fun cp => (ti, rp.1, cp.1)))).flatten).map
      (fun trip => V (cellPids d trip.1 trip.2.1 trip.2.2))).flatten =
    (t.rows.map (fun r =>
      (r.cells.map (fun c =>
        V (c.paras.map (fun q => q.para.pid)))).flatten)).flatten := by
  rw [flatten_map_flatten, List.map_map]
  apply congrArg List.flatten
  have hstep : ∀ rp ∈ t.rows.enum,
      ((fun l => (l.map
          (fun trip => V (cellPids d trip.1 trip.2.1 trip.2.2))).flatten) ∘
        (fun rp : Nat × Row =>
          rp.2.cells.enum.map (fun cp => (ti, rp.1, cp.1)))) rp =
      (fun rp : Nat × Row => (rp.2.cells.map (fun c =>
        V (c.paras.map (fun q => q.para.pid)))).flatten) rp := by
    intro rp hrp
    have hr : t.rows[rp.1]? = some rp.2 := enum_mem_get t.rows rp hrp
    show ((rp.2.cells.enum.map (fun cp => (ti, rp.1, cp.1))).map
      (fun trip => V (cellPids d trip.1 trip.2.1 trip.2.2))).flatten = _
    rw [List.map_map]
    have hcell : ∀ cp ∈ rp.2.cells.enum,
        ((fun trip : Nat × Nat × Nat =>
          V (cellPids d trip.1 trip.2.1 trip.2.2)) ∘
          (fun cp : Nat × Cell => (ti, rp.1, cp.1))) cp =
        (fun cp : Nat × Cell =>
          V (cp.2.paras.map (fun q => q.para.pid))) cp := by
      intro cp hcp
      have hc : rp.2.cells[cp.1]? = some cp.2 := enum_mem_get rp.2.cells cp hcp
      show V (cellPids d ti rp.1 cp.1) = _
      rw [cellPids_eq_of_some d ti rp.1 cp.1 t rp.2 cp.2 ht hr hc]
    rw [List.map_congr_left hcell]
    rw [enum_map_snd_f
      (fun c : Cell => V (c.paras.map (fun q => q.para.pid))) rp.2.cells]
  rw [List.map_congr_left hstep]
  exact enum_map_snd_f (fun r : Row => (r.cells.map (fun c =>
    V (c.paras.map (fun q => q.para.pid)))).flatten) t.rows

theorem tableTriples_vals {β : Type} (V : List Nat → List β) (d : Doc) :
    ((tableTriples d).map
      (fun trip => V (cellPids d trip.1 trip.2.1 trip.2.2))).flatten =
    ((docTables d).map (fun t =>
      (t.rows.map (fun r =>
        (r.cells.map (fun c =>
          V (c.paras.map (fun q => q.para.pid)))).flatten)).flatten)).flatten := by
  unfold tableTriples
  rw [flatten_map_flatten, List.map_map]
  apply congrArg List.flatten
  have hstep : ∀ tp ∈ (docTables d).enum,
      ((fun l => (l.map
          (fun trip => V (cellPids d trip.1 trip.2.1 trip.2.2))).flatten) ∘
        (fun tp : Nat × Table => (tp.2.rows.enum.map (fun rp =>
          rp.2.cells.enum.map (fun cp => (tp.1, rp.1, cp.1)))).flatten)) tp =
      (fun tp : Nat × Table => (tp.2.rows.map (fun r =>
        (r.cells.map (fun c =>
          V (c.paras.map (fun q => q.para.pid)))).flatten)).flatten) tp := by
    intro tp htp
    have ht := enum_mem_get (docTables d) tp htp
    show (((tp.2.rows.enum.map (fun rp =>
        rp.2.cells.enum.map (fun cp => (tp.1, rp.1, cp.1)))).flatten).map
      (fun trip => V (cellPids d trip.1 trip.2.1 trip.2.2))).flatten = _
    exact tableTriples_vals_table V d tp.1 tp.2 ht
  rw [List.map_congr_left hstep]
  exact enum_map_snd_f (fun t : Table => (t.rows.map (fun r =>
    (r.cells.map (fun c =>
      V (c.paras.map (fun q => q.para.pid)))).flatten)).flatten) (docTables d)

theorem para_mem_txpsAll : ∀ (l : List TxPara) (q : TxPara),
    q ∈ l → q.para ∈ txpsAll l
  | [], q => by simp
  | x :: xs, q => fun h => by
    rcases List.mem_cons.mp h with rfl | h'
    · cases q with
      | mk p anc =>
        rw [txpsAll, txpAll]
        simp only [List.cons_append, List.mem_cons]
        exact Or.inl rfl
    · rw [txpsAll]
      exact List.mem_append_right _ (para_mem_txpsAll xs q h')

theorem topParas_sublist : ∀ l : List TxPara,
    List.Sublist (l.map TxPara.para) (txpsAll l)
  | [] => List.Sublist.refl []
  | .mk p anc :: qs => by
    rw [List.map_cons, txpsAll, txpAll]
    show List.Sublist (p :: qs.map TxPara.para)
      (p :: (txsAll anc ++ txpsAll qs))
    exact List.Sublist.cons₂ p
      ((topParas_sublist qs).trans (List.sublist_append_right _ _))

theorem flatten_map_sublist {α β : Type} (f g : α → List β)
    (h : ∀ a, List.Sublist (f a) (g a)) :
    ∀ l : List α, List.Sublist ((l.map f).flatten) ((l.map g).flatten)
  | [] => List.Sublist.refl []
  | a :: l => by
    simp only [List.map_cons, List.flatten_cons]
    exact List.Sublist.append (h a) (flatten_map_sublist f g h l)

/-- The row-major cell-top paragraphs of one table form a sublist of the
table's full paragraph flatten. -/
theorem tableTops_sublist (t : Table) :
    List.Sublist ((t.rows.map (fun r =>
      (r.cells.map (fun c => c.paras.map TxPara.para)).flatten)).flatten)
      (tableAll t) := by
  unfold tableAll
  exact flatten_map_sublist _ _ (fun r =>
    flatten_map_sublist _ _ (fun c => topParas_sublist c.paras) r.cells) t.rows

theorem tablesAll_sublist_items : ∀ items : List BodyItem,
    List.Sublist (((items.filterMap (fun b =>
      match b with
      | .par _ => none
      | .tab t => some t)).map tableAll).flatten)
      ((items.map bodyItemAll).flatten)
  | [] => List.Sublist.refl []
  | .par q :: bs => by
    simp only [List.filterMap_cons, List.map_cons, List.flatten_cons]
    exact List.sublist_append_of_sublist_right (tablesAll_sublist_items bs)
  | .tab t :: bs => by
    simp only [List.filterMap_cons, List.map_cons, List.flatten_cons,
      bodyItemAll]
    exact List.Sublist.append (List.Sublist.refl _)
      (tablesAll_sublist_items bs)

theorem tablesAll_sublist (d : Doc) :
    List.Sublist (((docTables d).map tableAll).flatten) (docAllParas d) := by
  unfold docTables docAllParas
  exact (tablesAll_sublist_items d.body).trans
    (List.sublist_append_left _ _)

/-- All cell-top paragraphs of all tables, in phase order, as a sublist of
the document's paragraphs. -/
theorem allCellTops_sublist (d : Doc) :
    List.Sublist (((docTables d).map (fun t => (t.rows.map (fun r =>
      (r.cells.map (fun c => c.paras.map TxPara.para)).flatten)).flatten)).flatten)
      (docAllParas d) :=
  (flatten_map_sublist _ _ tableTops_sublist (docTables d)).trans
    (tablesAll_sublist d)

theorem cell_para_mem (d : Doc) (t : Table) (hT : t ∈ docTables d) (r : Row)
    (hR : r ∈ t.rows) (c : Cell) (hC : c ∈ r.cells) (q : TxPara)
    (hq : q ∈ c.paras) : q.para ∈ docAllParas d := by
  apply (tablesAll_sublist d).subset
  rw [List.mem_flatten]
  refine ⟨tableAll t, List.mem_map_of_mem _ hT, ?_⟩
  unfold tableAll
  rw [List.mem_flatten]
  refine ⟨(r.cells.map (fun c => txpsAll c.paras)).flatten,
    List.mem_map_of_mem _ hR, ?_⟩
  rw [List.mem_flatten]
  exact ⟨txpsAll c.paras, List.mem_map_of_mem _ hC,
    para_mem_txpsAll c.paras q hq⟩

theorem cellTops_pid_flatten (d : Doc) :
    ((docTables d).map (fun t => (t.rows.map (fun r =>
      (r.cells.map (fun c =>
        c.paras.map (fun q => q.para.pid))).flatten)).flatten)).flatten =
    (((docTables d).map (fun t => (t.rows.map (fun r =>
      (r.cells.map (fun c =>
        c.paras.map TxPara.para)).flatten)).flatten)).flatten).map
      ParaE.pid := by
  rw [List.map_flatten, List.map_map]
  apply congrArg List.flatten
  apply List.map_congr_left
  intro t _
  show (t.rows.map (fun r => (r.cells.map (fun c =>
    c.paras.map (fun q => q.para.pid))).flatten)).flatten = _
  show _ = ((t.rows.map (fun r => (r.cells.map (fun c =>
    c.paras.map TxPara.para)).flatten)).flatten).map ParaE.pid
  rw [List.map_flatten, List.map_map]
  apply congrArg List.flatten
  apply List.map_congr_left
  intro r _
  show (r.cells.map (fun c =>
    c.paras.map (fun q => q.para.pid))).flatten = _
  show _ = ((r.cells.map (fun c => c.paras.map TxPara.para)).flatten).map
    ParaE.pid
  rw [List.map_flatten, List.map_map]
  apply congrArg List.flatten
  apply List.map_congr_left
  intro c _
  show c.paras.map (fun q => q.para.pid) = (c.paras.map TxPara.para).map
    ParaE.pid
  rw [List.map_map]
  rfl

theorem cellPids_sub (d : Doc) (ti ri ci : Nat) :
    ∀ pd ∈ cellPids d ti ri ci, pd ∈ docPids d := by
  intro pd hpd
  cases ht : (docTables d)[ti]? with
  | none => rw [cellPids_eq_of_none_t d ti ri ci ht] at hpd; simp at hpd
  | some t =>
    cases hr : t.rows[ri]? with
    | none => rw [cellPids_eq_of_none_r d ti ri ci t ht hr] at hpd; simp at hpd
    | some r =>
      cases hc : r.cells[ci]? with
      | none =>
        rw [cellPids_eq_of_none_c d ti ri ci t r ht hr hc] at hpd
        simp at hpd
      | some c =>
        rw [cellPids_eq_of_some d ti ri ci t r c ht hr hc] at hpd
        rw [List.mem_map] at hpd
        obtain ⟨q, hq, rfl⟩ := hpd
        exact List.mem_map_of_mem _ (cell_para_mem d t (List.getElem?_mem ht)
          r (List.getElem?_mem hr) c (List.getElem?_mem hc) q hq)

/-- Step 4 (tables, row-major): the calls are the cell paragraphs' texts in
row-then-column order, and id uniqueness and boundedness are preserved. -/
theorem tablesPhase_facts (tr : List Char → Option (List Char)) (d : Doc)
    (fresh : Nat) (hnd : (docPids d).Nodup)
    (hfr : ∀ a ∈ docPids d, a < fresh) :
    callsOf (tablesPhase tr d fresh).2.2 = claimedTableCalls d
    ∧ (docPids (tablesPhase tr d fresh).1).Nodup
    ∧ (∀ a ∈ docPids (tablesPhase tr d fresh).1,
        a < (tablesPhase tr d fresh).2.1)
    ∧ fresh ≤ (tablesPhase tr d fresh).2.1 := by
  unfold tablesPhase
  rw [tablesGo_as_units]
  have hmem : ∀ u ∈ tableUnits (tableTriples d),
      ∃ trip : Nat × Nat × Nat, trip ∈ tableTriples d ∧
        u = fun d' => cellPids d' trip.1 trip.2.1 trip.2.2 := by
    intro u hu
    unfold tableUnits at hu
    rw [List.mem_map] at hu
    obtain ⟨trip, htrip, rfl⟩ := hu
    exact ⟨trip, htrip, rfl⟩
  have hH1 : ∀ u ∈ tableUnits (tableTriples d),
      ∀ (g : ParaE → ParaE) (d' : Doc),
        (∀ q, (g q).pid = q.pid) → u (docMap g d') = u d' := by
    intro u hu g d' hg
    obtain ⟨trip, _, rfl⟩ := hmem u hu
    exact cellPids_docMap g hg d' trip.1 trip.2.1 trip.2.2
  have hH2 : ∀ u ∈ tableUnits (tableTriples d),
      ∀ (pd : Nat) (newP : ParaE) (d' : Doc),
        pd ∉ u d' → u (docIns pd newP d') = u d' := by
    intro u hu pd newP d' hpd
    obtain ⟨trip, _, rfl⟩ := hmem u hu
    exact cellPids_docIns pd newP d' trip.1 trip.2.1 trip.2.2 hpd
  have hsub : ∀ u ∈ tableUnits (tableTriples d), ∀ pd ∈ u d,
      pd ∈ docPids d := by
    intro u hu pd hpd
    obtain ⟨trip, _, rfl⟩ := hmem u hu
    exact cellPids_sub d trip.1 trip.2.1 trip.2.2 pd hpd
  have hux : (tableUnits (tableTriples d)).map (fun u => u d) =
      (tableTriples d).map
        (fun trip => cellPids d trip.1 trip.2.1 trip.2.2) := by
    unfold tableUnits
    rw [List.map_map]
    rfl
  have hdisj : (((tableUnits (tableTriples d)).map
      (fun u => u d)).flatten).Nodup := by
    rw [hux, tableTriples_vals (fun l => l) d, cellTops_pid_flatten d]
    exact List.Nodup.sublist
      (List.Sublist.map ParaE.pid (allCellTops_sublist d)) hnd
  have h := unitsGo_pure tr (tableUnits (tableTriples d)) d fresh
    hH1 hH2 hsub hdisj hnd hfr
  refine ⟨?_, h.2.2.1, h.2.2.2.1, h.2.2.2.2⟩
  rw [h.1]
  have hux2 : (tableUnits (tableTriples d)).map (fun u =>
      (u d).filterMap (fun pd => (docFind d pd).bind sentOf)) =
      (tableTriples d).map (fun trip =>
        (cellPids d trip.1 trip.2.1 trip.2.2).filterMap
          (fun pd => (docFind d pd).bind sentOf)) := by
    unfold tableUnits
    rw [List.map_map]
    rfl
  rw [hux2,
    tableTriples_vals (fun l =>
      l.filterMap (fun pd => (docFind d pd).bind sentOf)) d]
  unfold claimedTableCalls
  apply congrArg List.flatten
  apply List.map_congr_left
  intro t hT
  apply congrArg List.flatten
  apply List.map_congr_left
  intro r hR
  apply congrArg List.flatten
  apply List.map_congr_left
  intro c hC
  show (c.paras.map (fun q => q.para.pid)).filterMap
    (fun pd => (docFind d pd).bind sentOf) = _
  have hmm : c.paras.map (fun q => q.para.pid) =
      (c.paras.map TxPara.para).map ParaE.pid := by
    rw [List.map_map]
    rfl
  rw [hmm]
  apply pids_filterMap_sent d hnd
  intro q hq
  rw [List.mem_map] at hq
  obtain ⟨x, hx, rfl⟩ := hq
  exact cell_para_mem d t hT r hR c hC x hx

mutual
/-- All region nodes of a subtree, in document (preorder) order. -/
def regTreesT : TxTree → List TxTree
  | .node rid ps => .node rid ps :: regTreesPs ps
def regTreesPs : List TxPara → List TxTree
  | [] => []
  | .mk _ anc :: qs => regTreesTs anc ++ regTreesPs qs
def regTreesTs : List TxTree → List TxTree
  | [] => []
  | t :: ts => regTreesT t ++ regTreesTs ts
end

def rootId : TxTree → Nat
  | .node rid _ => rid

/-- All region nodes of the body, in the order `body.iter` yields them. -/
def bodyRegionTrees (items : List BodyItem) : List TxTree :=
  (items.map (fun b =>
    match b with
    | .par (.mk _ anc) => regTreesTs anc
    | .tab t => (t.rows.map (fun r =>
        (r.cells.map (fun c => regTreesPs c.paras)).flatten)).flatten)).flatten

mutual
theorem regT_eq_trees : ∀ t : TxTree, regT t = (regTreesT t).map rootId
  | .node rid ps => by
    rw [regT, regTreesT, List.map_cons, regPs_eq_trees ps]
    rfl
theorem regPs_eq_trees : ∀ l : List TxPara, regPs l = (regTreesPs l).map rootId
  | [] => rfl
  | .mk p anc :: qs => by
    rw [regPs, regTreesPs, List.map_append, regTs_eq_trees anc,
      regPs_eq_trees qs]
theorem regTs_eq_trees : ∀ l : List TxTree, regTs l = (regTreesTs l).map rootId
  | [] => rfl
  | t :: ts => by
    rw [regTs, regTreesTs, List.map_append, regT_eq_trees t, regTs_eq_trees ts]
end

theorem bodyRegionTrees_cons_par (p : ParaE) (anc : List TxTree)
    (bs : List BodyItem) :
    bodyRegionTrees (.par (.mk p anc) :: bs) =
      regTreesTs anc ++ bodyRegionTrees bs := rfl

theorem bodyRegionTrees_cons_tab (t : Table) (bs : List BodyItem) :
    bodyRegionTrees (.tab t :: bs) =
      (t.rows.map (fun r =>
        (r.cells.map (fun c => regTreesPs c.paras)).flatten)).flatten ++
      bodyRegionTrees bs := rfl

theorem bodyRegionIds_eq_trees : ∀ items : List BodyItem,
    bodyRegionIds items = (bodyRegionTrees items).map rootId
  | [] => rfl
  | .par (.mk p anc) :: bs => by
    rw [bodyRegionIds_cons_par, bodyRegionTrees_cons_par, List.map_append,
      regTs_eq_trees anc, bodyRegionIds_eq_trees bs]
  | .tab t :: bs => by
    rw [bodyRegionIds_cons_tab, bodyRegionTrees_cons_tab, List.map_append,
      bodyRegionIds_eq_trees bs]
    congr 1
    rw [List.map_flatten, List.map_map]
    apply congrArg List.flatten
    apply List.map_congr_left
    intro r _
    show (r.cells.map (fun c => regPs c.paras)).flatten = _
    show _ = ((r.cells.map (fun c => regTreesPs c.paras)).flatten).map rootId
    rw [List.map_flatten, List.map_map]
    apply congrArg List.flatten
    apply List.map_congr_left
    intro c _
    exact regPs_eq_trees c.paras

mutual
theorem findRegT_none : ∀ (t : TxTree) (rid : Nat),
    rid ∉ regT t → findRegT t rid = none
  | .node r2 ps, rid => fun h => by
    rw [regT] at h
    simp only [List.mem_cons] at h
    push_neg at h
    rw [findRegT]
    have hne : ¬(r2 == rid) = true := by
      simp only [beq_iff_eq]
      exact fun hc => h.1 hc.symm
    rw [if_neg hne]
    exact findRegPs_none ps rid h.2
theorem findRegPs_none : ∀ (l : List TxPara) (rid : Nat),
    rid ∉ regPs l → findRegPs l rid = none
  | [], _ => fun _ => rfl
  | .mk p anc :: qs, rid => fun h => by
    rw [regPs] at h
    simp only [List.mem_append] at h
    push_neg at h
    rw [findRegPs, findRegTs_none anc rid h.1, findRegPs_none qs rid h.2]
    rfl
theorem findRegTs_none : ∀ (l : List TxTree) (rid : Nat),
    rid ∉ regTs l → findRegTs l rid = none
  | [], _ => fun _ => rfl
  | t :: ts, rid => fun h => by
    rw [regTs] at h
    simp only [List.mem_append] at h
    push_neg at h
    rw [findRegTs, findRegT_none t rid h.1, findRegTs_none ts rid h.2]
    rfl
end

mutual
theorem findRegT_self : ∀ (t t' : TxTree), (regT t).Nodup →
    t' ∈ regTreesT t → findRegT t (rootId t') = some t'
  | .node r2 ps, t' => fun hnd hmem => by
    rw [regT] at hnd
    rw [regTreesT] at hmem
    rcases List.mem_cons.mp hmem with rfl | hmem'
    · rw [findRegT, show rootId (TxTree.node r2 ps) = r2 from rfl,
        if_pos (by simp)]
    · have hroot : rootId t' ∈ regPs ps := by
        rw [regPs_eq_trees]
        exact List.mem_map_of_mem _ hmem'
      have hne : ¬(r2 == rootId t') = true := by
        simp only [beq_iff_eq]
        intro hc
        exact (List.nodup_cons.mp hnd).1 (hc ▸ hroot)
      rw [findRegT, if_neg hne]
      exact findRegPs_self ps t' (List.nodup_cons.mp hnd).2 hmem'
theorem findRegPs_self : ∀ (l : List TxPara) (t' : TxTree), (regPs l).Nodup →
    t' ∈ regTreesPs l → findRegPs l (rootId t') = some t'
  | [], t' => fun _ h => by simp [regTreesPs] at h
  | .mk p anc :: qs, t' => fun hnd hmem => by
    rw [regTreesPs] at hmem
    rw [regPs, List.nodup_append] at hnd
    obtain ⟨hnd1, hnd2, hdisj⟩ := hnd
    rw [findRegPs]
    rcases List.mem_append.mp hmem with hm | hm
    · rw [findRegTs_self anc t' hnd1 hm]
      rfl
    · have hroot : rootId t' ∈ regPs qs := by
        rw [regPs_eq_trees]
        exact List.mem_map_of_mem _ hm
      rw [findRegTs_none anc _ (fun hc => hdisj hc hroot),
        findRegPs_self qs t' hnd2 hm]
      rfl
theorem findRegTs_self : ∀ (l : List TxTree) (t' : TxTree), (regTs l).Nodup →
    t' ∈ regTreesTs l → findRegTs l (rootId t') = some t'
  | [], t' => fun _ h => by simp [regTreesTs] at h
  | t :: ts, t' => fun hnd hmem => by
    rw [regTreesTs] at hmem
    rw [regTs, List.nodup_append] at hnd
    obtain ⟨hnd1, hnd2, hdisj⟩ := hnd
    rw [findRegTs]
    rcases List.mem_append.mp hmem with hm | hm
    · rw [findRegT_self t t' hnd1 hm]
      rfl
    · have hroot : rootId t' ∈ regTs ts := by
        rw [regTs_eq_trees]
        exact List.mem_map_of_mem _ hm
      rw [findRegT_none t _ (fun hc => hdisj hc hroot),
        findRegTs_self ts t' hnd2 hm]
      rfl
end

theorem cellsFindReg_none : ∀ (cs : List Cell) (rid : Nat),
    rid ∉ (cs.map (fun c => regPs c.paras)).flatten →
    rowFindReg ⟨cs⟩ rid = none
  | [], _ => fun _ => rfl
  | c :: cs, rid => fun h => by
    simp only [List.map_cons, List.flatten_cons, List.mem_append] at h
    push_neg at h
    show (findRegPs c.paras rid).orElse (fun _ => rowFindReg ⟨cs⟩ rid) = none
    rw [findRegPs_none c.paras rid h.1, cellsFindReg_none cs rid h.2]
    rfl

theorem cellsFindReg_self : ∀ (cs : List Cell) (t' : TxTree),
    ((cs.map (fun c => regPs c.paras)).flatten).Nodup →
    t' ∈ (cs.map (fun c => regTreesPs c.paras)).flatten →
    rowFindReg ⟨cs⟩ (rootId t') = some t'
  | [], t' => fun _ h => by simp at h
  | c :: cs, t' => fun hnd hmem => by
    simp only [List.map_cons, List.flatten_cons] at hnd hmem
    rw [List.nodup_append] at hnd
    obtain ⟨h1, h2, hdisj⟩ := hnd
    show (findRegPs c.paras (rootId t')).orElse
      (fun _ => rowFindReg ⟨cs⟩ (rootId t')) = some t'
    rcases List.mem_append.mp hmem with hm | hm
    · rw [findRegPs_self c.paras t' h1 hm]
      rfl
    · have hroot : rootId t' ∈ (cs.map (fun c => regPs c.paras)).flatten := by
        rw [List.mem_flatten] at hm ⊢
        obtain ⟨l, hl, hml⟩ := hm
        rw [List.mem_map] at hl
        obtain ⟨c', hc', rfl⟩ := hl
        exact ⟨regPs c'.paras, List.mem_map_of_mem _ hc',
          by rw [regPs_eq_trees]; exact List.mem_map_of_mem _ hml⟩
      rw [findRegPs_none c.paras _ (fun hc => hdisj hc hroot),
        cellsFindReg_self cs t' h2 hm]
      rfl

theorem rowsFindReg_none : ∀ (rs : List Row) (rid : Nat),
    rid ∉ (rs.map (fun r =>
      (r.cells.map (fun c => regPs c.paras)).flatten)).flatten →
    tableFindReg ⟨rs⟩ rid = none
  | [], _ => fun _ => rfl
  | r :: rs, rid => fun h => by
    simp only [List.map_cons, List.flatten_cons, List.mem_append] at h
    push_neg at h
    show (rowFindReg r rid).orElse (fun _ => tableFindReg ⟨rs⟩ rid) = none
    rw [show rowFindReg r rid = rowFindReg ⟨r.cells⟩ rid from rfl,
      cellsFindReg_none r.cells rid h.1, rowsFindReg_none rs rid h.2]
    rfl

theorem rowsFindReg_self : ∀ (rs : List Row) (t' : TxTree),
    ((rs.map (fun r =>
      (r.cells.map (fun c => regPs c.paras)).flatten)).flatten).Nodup →
    t' ∈ (rs.map (fun r =>
      (r.cells.map (fun c => regTreesPs c.paras)).flatten)).flatten →
    tableFindReg ⟨rs⟩ (rootId t') = some t'
  | [], t' => fun _ h => by simp at h
  | r :: rs, t' => fun hnd hmem => by
    simp only [List.map_cons, List.flatten_cons] at hnd hmem
    rw [List.nodup_append] at hnd
    obtain ⟨h1, h2, hdisj⟩ := hnd
    show (rowFindReg r (rootId t')).orElse
      (fun _ => tableFindReg ⟨rs⟩ (rootId t')) = some t'
    rcases List.mem_append.mp hmem with hm | hm
    · rw [show rowFindReg r (rootId t') = rowFindReg ⟨r.cells⟩ (rootId t')
        from rfl, cellsFindReg_self r.cells t' h1 hm]
      rfl
    · have hroot : rootId t' ∈ (rs.map (fun r =>
          (r.cells.map (fun c => regPs c.paras)).flatten)).flatten := by
        rw [List.mem_flatten] at hm ⊢
        obtain ⟨l, hl, hml⟩ := hm
        rw [List.mem_map] at hl
        obtain ⟨r', hr', rfl⟩ := hl
        refine ⟨(r'.cells.map (fun c => regPs c.paras)).flatten,
          List.mem_map_of_mem _ hr', ?_⟩
        rw [List.mem_flatten] at hml ⊢
        obtain ⟨l2, hl2, hml2⟩ := hml
        rw [List.mem_map] at hl2
        obtain ⟨c', hc', rfl⟩ := hl2
        exact ⟨regPs c'.paras, List.mem_map_of_mem _ hc',
          by rw [regPs_eq_trees]; exact List.mem_map_of_mem _ hml2⟩
      rw [show rowFindReg r (rootId t') = rowFindReg ⟨r.cells⟩ (rootId t')
        from rfl,
        cellsFindReg_none r.cells _ (fun hc => hdisj hc hroot),
        rowsFindReg_self rs t' h2 hm]
      rfl

theorem bodyFindReg_self : ∀ (items : List BodyItem) (t' : TxTree),
    (bodyRegionIds items).Nodup → t' ∈ bodyRegionTrees items →
    bodyFindReg items (rootId t') = some t'
  | [], t' => fun _ h => by simp [bodyRegionTrees] at h
  | .par (.mk p anc) :: bs, t' => fun hnd hmem => by
    rw [bodyRegionTrees_cons_par] at hmem
    rw [bodyRegionIds_cons_par, List.nodup_append] at hnd
    obtain ⟨h1, h2, hdisj⟩ := hnd
    show (bodyItemFindReg (BodyItem.par (.mk p anc)) (rootId t')).orElse
      (fun _ => bodyFindReg bs (rootId t')) = some t'
    rw [show bodyItemFindReg (BodyItem.par (.mk p anc)) (rootId t') =
      findRegTs anc (rootId t') from rfl]
    rcases List.mem_append.mp hmem with hm | hm
    · rw [findRegTs_self anc t' h1 hm]
      rfl
    · have hroot : rootId t' ∈ bodyRegionIds bs := by
        rw [bodyRegionIds_eq_trees]
        exact List.mem_map_of_mem _ hm
      rw [findRegTs_none anc _ (fun hc => hdisj hc hroot),
        bodyFindReg_self bs t' h2 hm]
      rfl
  | .tab t :: bs, t' => fun hnd hmem => by
    rw [bodyRegionTrees_cons_tab] at hmem
    rw [bodyRegionIds_cons_tab, List.nodup_append] at hnd
    obtain ⟨h1, h2, hdisj⟩ := hnd
    show (bodyItemFindReg (BodyItem.tab t) (rootId t')).orElse
      (fun _ => bodyFindReg bs (rootId t')) = some t'
    rw [show bodyItemFindReg (BodyItem.tab t) (rootId t') =
      tableFindReg ⟨t.rows⟩ (rootId t') from rfl]
    rcases List.mem_append.mp hmem with hm | hm
    · rw [rowsFindReg_self t.rows t' h1 hm]
      rfl
    · have hroot : rootId t' ∈ bodyRegionIds bs := by
        rw [bodyRegionIds_eq_trees]
        exact List.mem_map_of_mem _ hm
      rw [rowsFindReg_none t.rows _ (fun hc => hdisj hc hroot),
        bodyFindReg_self bs t' h2 hm]
      rfl

theorem regionParaPids_eq (d : Doc) (hnd : (bodyRegionIds d.body).Nodup)
    (t' : TxTree) (hmem : t' ∈ bodyRegionTrees d.body) :
    regionParaPids d (rootId t') = (txtAll t').map ParaE.pid := by
  unfold regionParaPids
  rw [bodyFindReg_self d.body t' hnd hmem]

theorem regTreesPs_of_allEmpty : ∀ ps : List TxPara,
    (ps.all (fun q => q.anchored.isEmpty)) = true → regTreesPs ps = []
  | [] => fun _ => rfl
  | .mk p anc :: qs => fun h => by
    simp only [List.all_cons, Bool.and_eq_true] at h
    have hanc : anc = [] := by
      have h1 : anc.isEmpty = true := h.1
      cases anc with
      | nil => rfl
      | cons a as => simp [List.isEmpty] at h1
    subst hanc
    rw [regTreesPs, regTreesPs_of_allEmpty qs h.2]
    rfl

theorem regTreesT_of_flat (t : TxTree) (h : treeFlat t = true) :
    regTreesT t = [t] := by
  cases t with
  | node rid ps =>
    rw [treeFlat] at h
    rw [regTreesT, regTreesPs_of_allEmpty ps h]

theorem regTreesTs_of_allFlat : ∀ l : List TxTree,
    l.all treeFlat = true → regTreesTs l = l
  | [] => fun _ => rfl
  | t :: ts => fun h => by
    simp only [List.all_cons, Bool.and_eq_true] at h
    rw [regTreesTs, regTreesT_of_flat t h.1, regTreesTs_of_allFlat ts h.2]
    rfl

theorem regTreesPs_of_allParaFlat : ∀ l : List TxPara,
    l.all txParaFlat = true →
    regTreesPs l = (l.map TxPara.anchored).flatten
  | [] => fun _ => rfl
  | .mk p anc :: qs => fun h => by
    simp only [List.all_cons, Bool.and_eq_true] at h
    rw [regTreesPs, regTreesTs_of_allFlat anc h.1,
      regTreesPs_of_allParaFlat qs h.2]
    rfl

theorem txsAll_eq_flatten : ∀ l : List TxTree,
    txsAll l = (l.map txtAll).flatten
  | [] => rfl
  | t :: ts => by
    rw [txsAll, txsAll_eq_flatten ts, List.map_cons, List.flatten_cons]

theorem txpsAll_of_allEmpty : ∀ ps : List TxPara,
    (ps.all (fun q => q.anchored.isEmpty)) = true →
    txpsAll ps = ps.map TxPara.para
  | [] => fun _ => rfl
  | .mk p anc :: qs => fun h => by
    simp only [List.all_cons, Bool.and_eq_true] at h
    have hanc : anc = [] := by
      have h1 : anc.isEmpty = true := h.1
      cases anc with
      | nil => rfl
      | cons a as => simp [List.isEmpty] at h1
    subst hanc
    rw [txpsAll, txpAll, txpsAll_of_allEmpty qs h.2]
    rfl

theorem txtAll_of_flat (t : TxTree) (h : treeFlat t = true) :
    txtAll t = regionOwnParas t := by
  cases t with
  | node rid ps =>
    rw [treeFlat] at h
    rw [txtAll, regionOwnParas, txpsAll_of_allEmpty ps h]

theorem flatten_map_sublist' {α β : Type} (f g : α → List β) :
    ∀ l : List α, (∀ a ∈ l, List.Sublist (f a) (g a)) →
      List.Sublist ((l.map f).flatten) ((l.map g).flatten)
  | [] => fun _ => List.Sublist.refl []
  | a :: l => fun h => by
    simp only [List.map_cons, List.flatten_cons]
    exact List.Sublist.append (h a (by simp))
      (flatten_map_sublist' f g l (fun x hx => h x (by simp [hx])))

theorem regionParas_sublist_ps : ∀ l : List TxPara,
    l.all txParaFlat = true →
    List.Sublist (((regTreesPs l).map txtAll).flatten) (txpsAll l)
  | [] => fun _ => List.Sublist.refl []
  | .mk p anc :: qs => fun h => by
    simp only [List.all_cons, Bool.and_eq_true] at h
    rw [regTreesPs, List.map_append, List.flatten_append,
      regTreesTs_of_allFlat anc h.1, txpsAll, txpAll,
      ← txsAll_eq_flatten anc]
    show List.Sublist (txsAll anc ++ ((regTreesPs qs).map txtAll).flatten)
      (p :: (txsAll anc ++ txpsAll qs))
    exact List.Sublist.cons p
      (List.Sublist.append (List.Sublist.refl _)
        (regionParas_sublist_ps qs h.2))

theorem bodyRegionParas_sublist : ∀ items : List BodyItem,
    items.all bodyItemFlat = true →
    List.Sublist (((bodyRegionTrees items).map txtAll).flatten)
      ((items.map bodyItemAll).flatten)
  | [] => fun _ => List.Sublist.refl []
  | .par (.mk p anc) :: bs => fun h => by
    simp only [List.all_cons, Bool.and_eq_true] at h
    rw [bodyRegionTrees_cons_par, List.map_append, List.flatten_append,
      List.map_cons, List.flatten_cons]
    have hhead : List.Sublist (((regTreesTs anc).map txtAll).flatten)
        (bodyItemAll (BodyItem.par (.mk p anc))) := by
      rw [regTreesTs_of_allFlat anc h.1, ← txsAll_eq_flatten anc]
      show List.Sublist (txsAll anc) (p :: txsAll anc)
      exact List.Sublist.cons p (List.Sublist.refl _)
    exact List.Sublist.append hhead (bodyRegionParas_sublist bs h.2)
  | .tab t :: bs => fun h => by
    simp only [List.all_cons, Bool.and_eq_true] at h
    rw [bodyRegionTrees_cons_tab, List.map_append, List.flatten_append,
      List.map_cons, List.flatten_cons]
    have hhead : List.Sublist
        ((((t.rows.map (fun r =>
          (r.cells.map (fun c => regTreesPs c.paras)).flatten)).flatten).map
            txtAll).flatten)
        (bodyItemAll (BodyItem.tab t)) := by
      rw [flatten_map_flatten, List.map_map]
      have h1 : t.rows.all (fun r =>
          r.cells.all (fun c => c.paras.all txParaFlat)) = true := h.1
      rw [List.all_eq_true] at h1
      show List.Sublist ((t.rows.map (fun r =>
        (((r.cells.map (fun c => regTreesPs c.paras)).flatten).map
          txtAll).flatten)).flatten) (tableAll t)
      unfold tableAll
      apply flatten_map_sublist'
      intro r hr
      rw [flatten_map_flatten, List.map_map]
      have h2 := h1 r hr
      rw [List.all_eq_true] at h2
      apply flatten_map_sublist'
      intro c hc
      exact regionParas_sublist_ps c.paras (h2 c hc)
    exact List.Sublist.append hhead (bodyRegionParas_sublist bs h.2)

theorem bodyRegionParas_sublist_doc (d : Doc) (h : docNoNested d = true) :
    List.Sublist (((bodyRegionTrees d.body).map txtAll).flatten)
      (docAllParas d) := by
  unfold docNoNested at h
  exact (bodyRegionParas_sublist d.body h).trans
    (by unfold docAllParas; exact List.sublist_append_left _ _)

theorem bodyRegionTrees_flat : ∀ items : List BodyItem,
    items.all bodyItemFlat = true →
    ∀ t' ∈ bodyRegionTrees items, treeFlat t' = true
  | [] => fun _ t' h => by simp [bodyRegionTrees] at h
  | .par (.mk p anc) :: bs => fun h t' hmem => by
    simp only [List.all_cons, Bool.and_eq_true] at h
    rw [bodyRegionTrees_cons_par] at hmem
    rcases List.mem_append.mp hmem with hm | hm
    · rw [regTreesTs_of_allFlat anc h.1] at hm
      have h1 : anc.all treeFlat = true := h.1
      rw [List.all_eq_true] at h1
      exact h1 t' hm
    · exact bodyRegionTrees_flat bs h.2 t' hm
  | .tab t :: bs => fun h t' hmem => by
    simp only [List.all_cons, Bool.and_eq_true] at h
    rw [bodyRegionTrees_cons_tab] at hmem
    rcases List.mem_append.mp hmem with hm | hm
    · have h1 : t.rows.all (fun r =>
          r.cells.all (fun c => c.paras.all txParaFlat)) = true := h.1
      rw [List.all_eq_true] at h1
      rw [List.mem_flatten] at hm
      obtain ⟨l, hl, hml⟩ := hm
      rw [List.mem_map] at hl
      obtain ⟨r, hr, rfl⟩ := hl
      have h2 := h1 r hr
      rw [List.all_eq_true] at h2
      rw [List.mem_flatten] at hml
      obtain ⟨l2, hl2, hml2⟩ := hml
      rw [List.mem_map] at hl2
      obtain ⟨c, hc, rfl⟩ := hl2
      have h3 := h2 c hc
      rw [regTreesPs_of_allParaFlat c.paras h3] at hml2
      rw [List.mem_flatten] at hml2
      obtain ⟨l3, hl3, hml3⟩ := hml2
      rw [List.mem_map] at hl3
      obtain ⟨q, hq, rfl⟩ := hl3
      rw [List.all_eq_true] at h3
      have h4 : txParaFlat q = true := h3 q hq
      unfold txParaFlat at h4
      rw [List.all_eq_true] at h4
      exact h4 t' hml3
    · exact bodyRegionTrees_flat bs h.2 t' hm

/-- Step 5 (text boxes): with no nested regions and unique region ids, the
calls are each region's own paragraphs' texts, region by region in document
order. -/
theorem txbxPhase_facts (tr : List Char → Option (List Char)) (d : Doc)
    (fresh : Nat) (hnd : (docPids d).Nodup)
    (hfr : ∀ a ∈ docPids d, a < fresh)
    (hflat : docNoNested d = true)
    (hrid : (bodyRegionIds d.body).Nodup) :
    callsOf (txbxPhase tr d fresh).2.2 = claimedTxbxCalls d := by
  have hflat' : d.body.all bodyItemFlat = true := hflat
  unfold txbxPhase
  rw [txbxGo_as_units]
  have hmem : ∀ u ∈ regionUnits (bodyRegionIds d.body),
      ∃ rid, rid ∈ bodyRegionIds d.body ∧
        u = fun d' => regionParaPids d' rid := by
    intro u hu
    unfold regionUnits at hu
    rw [List.mem_map] at hu
    obtain ⟨rid, hr, rfl⟩ := hu
    exact ⟨rid, hr, rfl⟩
  have hH1 : ∀ u ∈ regionUnits (bodyRegionIds d.body),
      ∀ (g : ParaE → ParaE) (d' : Doc),
        (∀ q, (g q).pid = q.pid) → u (docMap g d') = u d' := by
    intro u hu g d' hg
    obtain ⟨rid, _, rfl⟩ := hmem u hu
    exact regionParaPids_docMap g hg d' rid
  have hH2 : ∀ u ∈ regionUnits (bodyRegionIds d.body),
      ∀ (pd : Nat) (newP : ParaE) (d' : Doc),
        pd ∉ u d' → u (docIns pd newP d') = u d' := by
    intro u hu pd newP d' hpd
    obtain ⟨rid, _, rfl⟩ := hmem u hu
    exact regionParaPids_docIns pd newP d' rid hpd
  have hmemq : ∀ t' ∈ bodyRegionTrees d.body, ∀ q ∈ txtAll t',
      q ∈ docAllParas d := by
    intro t' ht' q hq
    apply (bodyRegionParas_sublist_doc d hflat).subset
    rw [List.mem_flatten]
    exact ⟨txtAll t', List.mem_map_of_mem _ ht', hq⟩
  have hsub : ∀ u ∈ regionUnits (bodyRegionIds d.body), ∀ pd ∈ u d,
      pd ∈ docPids d := by
    intro u hu pd hpd
    obtain ⟨rid, hr, rfl⟩ := hmem u hu
    rw [bodyRegionIds_eq_trees d.body, List.mem_map] at hr
    obtain ⟨t', ht', rfl⟩ := hr
    have hpd' : pd ∈ regionParaPids d (rootId t') := hpd
    rw [regionParaPids_eq d hrid t' ht'] at hpd'
    rw [List.mem_map] at hpd'
    have hpd := hpd'
    obtain ⟨q, hq, rfl⟩ := hpd
    exact List.mem_map_of_mem _ (hmemq t' ht' q hq)
  have hux : (regionUnits (bodyRegionIds d.body)).map (fun u => u d) =
      (bodyRegionIds d.body).map (fun rid => regionParaPids d rid) := by
    unfold regionUnits
    rw [List.map_map]
    rfl
  have hdisj : (((regionUnits (bodyRegionIds d.body)).map
      (fun u => u d)).flatten).Nodup := by
    rw [hux, bodyRegionIds_eq_trees d.body, List.map_map]
    have hfn : ∀ t' ∈ bodyRegionTrees d.body,
        ((fun rid => regionParaPids d rid) ∘ rootId) t' =
        (fun t' : TxTree => (txtAll t').map ParaE.pid) t' :=
      fun t' ht' => regionParaPids_eq d hrid t' ht'
    rw [List.map_congr_left hfn]
    have hpid : ((bodyRegionTrees d.body).map
        (fun t' => (txtAll t').map ParaE.pid)).flatten =
        (((bodyRegionTrees d.body).map txtAll).flatten).map ParaE.pid := by
      rw [List.map_flatten, List.map_map]
      rfl
    rw [hpid]
    exact List.Nodup.sublist
      (List.Sublist.map ParaE.pid (bodyRegionParas_sublist_doc d hflat)) hnd
  have h := unitsGo_pure tr (regionUnits (bodyRegionIds d.body)) d fresh
    hH1 hH2 hsub hdisj hnd hfr
  rw [h.1]
  have hux2 : (regionUnits (bodyRegionIds d.body)).map (fun u =>
      (u d).filterMap (fun pd => (docFind d pd).bind sentOf)) =
      (bodyRegionIds d.body).map (fun rid =>
        (regionParaPids d rid).filterMap
          (fun pd => (docFind d pd).bind sentOf)) := by
    unfold regionUnits
    rw [List.map_map]
    rfl
  rw [hux2, bodyRegionIds_eq_trees d.body, List.map_map]
  unfold claimedTxbxCalls
  rw [bodyRegionIds_eq_trees d.body, List.map_map]
  apply congrArg List.flatten
  apply List.map_congr_left
  intro t' ht'
  show (regionParaPids d (rootId t')).filterMap
    (fun pd => (docFind d pd).bind sentOf) = _
  rw [regionParaPids_eq d hrid t' ht',
    pids_filterMap_sent d hnd (txtAll t') (hmemq t' ht'),
    txtAll_of_flat t' (bodyRegionTrees_flat d.body hflat' t' ht')]
  show _ = (match bodyFindReg d.body (rootId t') with
    | none => []
    | some t => (regionOwnParas t).filterMap sentOf)
  rw [bodyFindReg_self d.body t' hrid ht']

theorem callsOf_append (l1 l2 : List TEvent) :
    callsOf (l1 ++ l2) = callsOf l1 ++ callsOf l2 := by
  unfold callsOf
  rw [List.filterMap_append]

/-- C8 (amended): in a document whose node ids are unique and below the
fresh-id counter, with no text box nested inside another and with unique
text-box region ids, the inserter's translation calls follow exactly the
claimed traversal: all top-level body paragraphs first, then each
section's header paragraphs then its footer paragraphs, then table cells
in row-major (row-then-column) order, then each text-box region's own
paragraphs in document (preorder) order — each phase reading the document
as it stands when that phase begins. -/
theorem c8_traversal_order (tr : List Char → Option (List Char)) (d : Doc)
    (fresh : Nat)
    (hnd : (docPids d).Nodup)
    (hfr : ∀ a ∈ docPids d, a < fresh)
    (hflat : docNoNested d = true)
    (hrid : (bodyRegionIds d.body).Nodup) :
    callsOf (translate_phases tr d fresh).2.2 =
      claimedBodyCalls d ++
      claimedSectionCalls (bodyPhase tr d fresh).1 ++
      claimedTableCalls (sectionsPhase tr (bodyPhase tr d fresh).1
        (bodyPhase tr d fresh).2.1).1 ++
      claimedTxbxCalls (tablesPhase tr
        (sectionsPhase tr (bodyPhase tr d fresh).1
          (bodyPhase tr d fresh).2.1).1
        (sectionsPhase tr (bodyPhase tr d fresh).1
          (bodyPhase tr d fresh).2.1).2.1).1 := by
  have h1 := bodyPhase_facts tr d fresh hnd hfr
  have hN1 : docNoNested (bodyPhase tr d fresh).1 = true := by
    unfold bodyPhase
    exact runPids_pres tr docNoNested
      (fun g d' _ => docNoNested_docMap g d') docNoNested_docIns _ d fresh
      hflat
  have hR1 : bodyRegionIds (bodyPhase tr d fresh).1.body =
      bodyRegionIds d.body := by
    unfold bodyPhase
    exact runPids_accessor_u tr (fun d' => bodyRegionIds d'.body)
      (fun g d' _ => bodyRegionIds_docMap g d')
      (fun pd newP d' => bodyRegionIds_docIns pd newP d') _ d fresh
  have h2 := sectionsPhase_facts tr (bodyPhase tr d fresh).1
    (bodyPhase tr d fresh).2.1 h1.2.1 h1.2.2.1
  have hN2 : docNoNested (sectionsPhase tr (bodyPhase tr d fresh).1
      (bodyPhase tr d fresh).2.1).1 = true := by
    unfold sectionsPhase
    rw [sectionsGo_as_units]
    exact unitsGo_pres tr docNoNested
      (fun g d' _ => docNoNested_docMap g d') docNoNested_docIns _ _ _ hN1
  have hR2 : bodyRegionIds (sectionsPhase tr (bodyPhase tr d fresh).1
      (bodyPhase tr d fresh).2.1).1.body = bodyRegionIds d.body := by
    unfold sectionsPhase
    rw [sectionsGo_as_units]
    rw [unitsGo_accessor_u tr (fun d' => bodyRegionIds d'.body)
      (fun g d' _ => bodyRegionIds_docMap g d')
      (fun pd newP d' => bodyRegionIds_docIns pd newP d') _ _ _]
    exact hR1
  have h3 := tablesPhase_facts tr
    (sectionsPhase tr (bodyPhase tr d fresh).1 (bodyPhase tr d fresh).2.1).1
    (sectionsPhase tr (bodyPhase tr d fresh).1 (bodyPhase tr d fresh).2.1).2.1
    h2.2.1 h2.2.2.1
  have hN3 : docNoNested (tablesPhase tr
      (sectionsPhase tr (bodyPhase tr d fresh).1
        (bodyPhase tr d fresh).2.1).1
      (sectionsPhase tr (bodyPhase tr d fresh).1
        (bodyPhase tr d fresh).2.1).2.1).1 = true := by
    unfold tablesPhase
    rw [tablesGo_as_units]
    exact unitsGo_pres tr docNoNested
      (fun g d' _ => docNoNested_docMap g d') docNoNested_docIns _ _ _ hN2
  have hR3 : bodyRegionIds (tablesPhase tr
      (sectionsPhase tr (bodyPhase tr d fresh).1
        (bodyPhase tr d fresh).2.1).1
      (sectionsPhase tr (bodyPhase tr d fresh).1
        (bodyPhase tr d fresh).2.1).2.1).1.body = bodyRegionIds d.body := by
    unfold tablesPhase
    rw [tablesGo_as_units]
    rw [unitsGo_accessor_u tr (fun d' => bodyRegionIds d'.body)
      (fun g d' _ => bodyRegionIds_docMap g d')
      (fun pd newP d' => bodyRegionIds_docIns pd newP d') _ _ _]
    exact hR2
  have h4 := txbxPhase_facts tr
    (tablesPhase tr
      (sectionsPhase tr (bodyPhase tr d fresh).1
        (bodyPhase tr d fresh).2.1).1
      (sectionsPhase tr (bodyPhase tr d fresh).1
        (bodyPhase tr d fresh).2.1).2.1).1
    (tablesPhase tr
      (sectionsPhase tr (bodyPhase tr d fresh).1
        (bodyPhase tr d fresh).2.1).1
      (sectionsPhase tr (bodyPhase tr d fresh).1
        (bodyPhase tr d fresh).2.1).2.1).2.1
    h3.2.1 h3.2.2.1 hN3 (by rw [hR3]; exact hrid)
  show callsOf ((bodyPhase tr d fresh).2.2 ++
    (sectionsPhase tr (bodyPhase tr d fresh).1
      (bodyPhase tr d fresh).2.1).2.2 ++
    (tablesPhase tr
      (sectionsPhase tr (bodyPhase tr d fresh).1
        (bodyPhase tr d fresh).2.1).1
      (sectionsPhase tr (bodyPhase tr d fresh).1
        (bodyPhase tr d fresh).2.1).2.1).2.2 ++
    (txbxPhase tr
      (tablesPhase tr
        (sectionsPhase tr (bodyPhase tr d fresh).1
          (bodyPhase tr d fresh).2.1).1
        (sectionsPhase tr (bodyPhase tr d fresh).1
          (bodyPhase tr d fresh).2.1).2.1).1
      (tablesPhase tr
        (sectionsPhase tr (bodyPhase tr d fresh).1
          (bodyPhase tr d fresh).2.1).1
        (sectionsPhase tr (bodyPhase tr d fresh).1
          (bodyPhase tr d fresh).2.1).2.1).2.1).2.2) = _
  rw [callsOf_append, callsOf_append, callsOf_append,
    h1.1, h2.1, h3.1, h4]

/-- A small document exercising all four phases: a body paragraph
anchoring one text box, a one-cell table, and one section header
paragraph. -/
def c8WitnessDoc : Doc :=
  ⟨[.par (.mk ⟨0, [⟨tagR, "a".toList⟩]⟩
      [.node 100 [.mk ⟨1, [⟨tagR, "x".toList⟩]⟩ []]]),
    .tab ⟨[⟨[⟨[.mk ⟨2, [⟨tagR, "c".toList⟩]⟩ []]⟩]⟩]⟩],
   [⟨[⟨3, [⟨tagR, "h".toList⟩]⟩], []⟩]⟩

theorem c8_witness :
    ((docPids c8WitnessDoc).Nodup
      ∧ (∀ a ∈ docPids c8WitnessDoc, a < 10)
      ∧ docNoNested c8WitnessDoc = true
      ∧ (bodyRegionIds c8WitnessDoc.body).Nodup)
    ∧ callsOf (translate_phases appendTDemo c8WitnessDoc 10).2.2 =
        claimedBodyCalls c8WitnessDoc ++
        claimedSectionCalls (bodyPhase appendTDemo c8WitnessDoc 10).1 ++
        claimedTableCalls (sectionsPhase appendTDemo
          (bodyPhase appendTDemo c8WitnessDoc 10).1
          (bodyPhase appendTDemo c8WitnessDoc 10).2.1).1 ++
        claimedTxbxCalls (tablesPhase appendTDemo
          (sectionsPhase appendTDemo
            (bodyPhase appendTDemo c8WitnessDoc 10).1
            (bodyPhase appendTDemo c8WitnessDoc 10).2.1).1
          (sectionsPhase appendTDemo
            (bodyPhase appendTDemo c8WitnessDoc 10).1
            (bodyPhase appendTDemo c8WitnessDoc 10).2.1).2.1).1 :=
  ⟨⟨by decide, by decide, by decide, by decide⟩,
    c8_traversal_order appendTDemo c8WitnessDoc 10
      (by decide) (by decide) (by decide) (by decide)⟩


example : starts_with_number "  12. abc".toList = true := by decide

example : starts_with_number "12 abc".toList = false := by decide

example : starts_with_number "12".toList = true := by decide

example : isTerminated "abc。".toList = true := by decide

example : isTerminated "abc.".toList = false := by decide

example :
    merge_paragraphs [⟨0, "第一段没有标点".toList⟩, ⟨1, "继续这段话。".toList⟩,
      ⟨2, "2. 第二项内容".toList⟩] =
    [⟨0, ("第一段没有标点".toList ++ "继续这段话。".toList)⟩,
     ⟨2, "2. 第二项内容".toList⟩] := by decide

end TranslateDoc
